import Mathlib

/-!
# Noesis.Javascript: `JavascriptInterop.cpp`

A shallow embedding of the value converter (`ConvertFromV8`, `ConvertToV8`), the identity
tracker (`ConvertedObjects`), the object wrapper callbacks and the member dispatcher
(`Invoker`, `DelegateInvoker`) of `Source/Noesis.Javascript/JavascriptInterop.cpp`.

* Host objects (`System::Object^`) are `ClrObject`s: boxed primitives and strings are values,
  every other object is a reference `ClrObject.ref a` into a host heap `ClrHeap`.
* Engine values (`v8::Value`) are `V8Value`s: primitives are values, objects are references
  `V8Value.Object a` into an engine heap `V8Heap`.
* Recursion that the C++ leaves unbounded takes a `fuel` argument; running out of fuel is the
  model of a recursion that does not return.
* What the code reaches through reflection or through helpers of other translation units is
  collected in `HostEnvironment`.
-/

namespace JavascriptInterop

/-! ## Host primitives -/

/-- A UTF-16 code unit (`wchar_t`, `uint16_t`). -/
abbrev CodeUnit := Fin 65536

/-- The code units of a `System::String`; any sequence is a string, U+0000 included. -/
abbrev SystemString := List CodeUnit

/-- The code units of an ASCII literal of the source. -/
def utf16 (s : String) : SystemString :=
  s.toList.map (fun c => Fin.ofNat c.toNat)

/-- What a reader of a NUL-terminated `wchar_t*` sees of a buffer holding `s` followed by a
terminator: the code units before the first U+0000. This is how `PtrToStringChars` feeds
`String::NewFromTwoByte` (called without a length) and how `gcnew System::String(wchar_t*)`
reads `String::Value`. -/
def cstr (s : SystemString) : SystemString :=
  s.takeWhile (fun c => decide (c ≠ 0))

/-- An IEEE 754 binary64 value by its three fields (`double`, `System::Double`). -/
structure Double where
  sign : Bool
  exponent : Fin 2048
  fraction : Fin 4503599627370496
deriving DecidableEq, Repr

/-- An IEEE 754 binary32 value by its three fields (`float`, `System::Single`). -/
structure Single where
  sign : Bool
  exponent : Fin 256
  fraction : Fin 8388608
deriving DecidableEq, Repr

/-- A `System::Int32`: an integer of the signed 32-bit range. -/
abbrev Int32 := { i : Int // -2147483648 ≤ i ∧ i ≤ 2147483647 }

/-- Position of the highest set bit of `n` (0 when `n < 2`), halving at most `fuel` times. -/
def highBit : Nat → Nat → Nat
  | 0, _ => 0
  | fuel + 1, n => if n < 2 then 0 else highBit fuel (n / 2) + 1

/-- A double from a sign, a biased exponent and a fraction (each reduced to its field width). -/
def Double.ofFields (sign : Bool) (e f : Nat) : Double :=
  ⟨sign, ⟨e % 2048, Nat.mod_lt _ (by decide)⟩,
    ⟨f % 4503599627370496, Nat.mod_lt _ (by decide)⟩⟩

/-- The C++ conversion of an integer to `double`: exact up to 53 significant bits, beyond
that rounded to nearest, ties to even. -/
def Double.ofInt (i : Int) : Double :=
  let n := i.natAbs
  let s := decide (i < 0)
  if n = 0 then Double.ofFields false 0 0
  else
    let k := highBit 64 n
    if k ≤ 52 then Double.ofFields s (1023 + k) (n * 2 ^ (52 - k) - 2 ^ 52)
    else
      let shift := k - 52
      let q := n / 2 ^ shift
      let r := n % 2 ^ shift
      let half := 2 ^ (shift - 1)
      let q' := if half < r ∨ (r = half ∧ q % 2 = 1) then q + 1 else q
      if q' = 2 ^ 53 then Double.ofFields s (1023 + k + 1) 0
      else Double.ofFields s (1023 + k) (q' - 2 ^ 52)

/-- The C++ widening of a `float` to `double` (always exact). -/
def Single.toDouble (f : Single) : Double :=
  if f.exponent.val = 255 then Double.ofFields f.sign 2047 (f.fraction.val * 2 ^ 29)
  else if f.exponent.val = 0 then
    if f.fraction.val = 0 then Double.ofFields f.sign 0 0
    else
      let k := highBit 64 f.fraction.val
      Double.ofFields f.sign (874 + k) (f.fraction.val * 2 ^ (52 - k) - 2 ^ 52)
  else Double.ofFields f.sign (f.exponent.val + 896) (f.fraction.val * 2 ^ 29)

/-- Not-a-number: all exponent bits set and a non-zero fraction. -/
def Double.isNaN (d : Double) : Bool :=
  decide (d.exponent.val = 2047) && decide (d.fraction.val ≠ 0)

/-- The quiet NaN of `std::numeric_limits<double>::quiet_NaN()`. -/
def Double.quietNaN : Double := Double.ofFields false 2047 2251799813685248

/-- The integer a double denotes, when it is a finite integer other than minus zero. -/
def Double.toInt? (d : Double) : Option Int :=
  if d.exponent.val = 0 then
    if d.fraction.val = 0 ∧ d.sign = false then some 0 else none
  else if d.exponent.val = 2047 then none
  else
    let m := 2 ^ 52 + d.fraction.val
    let mag : Option Nat :=
      if 1075 ≤ d.exponent.val then some (m * 2 ^ (d.exponent.val - 1075))
      else if m % 2 ^ (1075 - d.exponent.val) = 0 then some (m / 2 ^ (1075 - d.exponent.val))
      else none
    mag.map (fun (v : Nat) => if d.sign then - Int.ofNat v else Int.ofNat v)

/-- The engine's `Value::IsInt32` together with `Value::Int32Value` on a number: the 32-bit
integer the number is, when it is one (minus zero is not). -/
def Double.toInt32? (d : Double) : Option Int32 :=
  match d.toInt? with
  | some i => if h : -2147483648 ≤ i ∧ i ≤ 2147483647 then some ⟨i, h⟩ else none
  | none => none

/-- A `System::Decimal`, by its sign, scale and 96-bit coefficient. -/
structure Decimal where
  negative : Bool
  scale : Nat
  coefficient : Nat
deriving DecidableEq, Repr

/-- A `System::DateTime`, by its ticks and kind. -/
structure DateTime where
  Ticks : Int
  Kind : Nat
deriving DecidableEq, Repr

/-! ## Host objects -/

/-- The identity of a `System::Type`, as far as the code tells types apart. -/
inductive SystemType
  | Int32 | Double | Boolean | Char | Int64 | Int16 | SByte | Byte
  | UInt16 | UInt32 | UInt64 | Single | Decimal | DateTime
  | String
  | Object
  | ObjectArray
  | DictionaryOfStringObject
  | JavascriptFunction
  | Other (id : Nat)
deriving DecidableEq, Repr

/-- A `System::Object^` handle. Boxed primitives, enums and strings are immutable and stand
for themselves; every other object is known by its address in the host heap, so two handles
denote the same instance exactly when they are the same `ref`. -/
inductive ClrObject
  | nullptr
  | Int32 (v : Int32)
  | Double (v : Double)
  | Boolean (v : Bool)
  | Enum (type : Nat) (toString : SystemString)
  | Char (v : CodeUnit)
  | Int64 (v : Int)
  | Int16 (v : Int)
  | SByte (v : Int)
  | Byte (v : Int)
  | UInt16 (v : Int)
  | UInt32 (v : Int)
  | UInt64 (v : Int)
  | Single (v : Single)
  | Decimal (v : Decimal)
  | DateTime (v : DateTime)
  | String (v : SystemString)
  | ref (address : Nat)
deriving DecidableEq, Repr

/-- A `System::Reflection::ParameterInfo`. -/
structure ParameterInfo where
  ParameterType : SystemType
deriving DecidableEq, Repr

/-- What the code reads of a `System::Exception`. -/
structure ExceptionInfo where
  Message : SystemString
deriving DecidableEq, Repr

/-- An instance of a class the converter has no case of its own for, with the capabilities
`ConvertToV8` asks its type about. -/
structure ClrInstance where
  type : SystemType
  /-- The entries seen through `System::Collections::IDictionary`, when the type implements it. -/
  IDictionary : Option (List (ClrObject × ClrObject))
  /-- `type->GetFields(DeclaredOnly | Instance)->Length`. -/
  declaredInstanceFields : Nat
  /-- The items seen through `System::Collections::IList`, when the type implements it. -/
  IList : Option (List ClrObject)
  /-- Set when `System::Exception` is assignable from the type. -/
  Exception : Option ExceptionInfo
deriving DecidableEq, Repr

/-- A cell of the host heap: an object with identity. -/
inductive ClrCell
  /-- `type->IsArray`. -/
  | Array (type : SystemType) (items : List ClrObject)
  /-- `System::Delegate` is assignable from the type; `parametersInfo` is
  `GetType()->GetMethods()[0]->GetParameters()`. -/
  | Delegate (type : SystemType) (parametersInfo : List ParameterInfo)
  /-- The generic type definition is `System::Collections::Generic::Dictionary`. -/
  | Dictionary (type : SystemType) (entries : List (ClrObject × ClrObject))
  /-- The generic type definition is `System::Collections::Generic::List`. -/
  | List (type : SystemType) (items : List ClrObject)
  /-- A `JavascriptFunction` holding the engine function object at `function`. -/
  | JavascriptFunction (function : Nat)
  /-- Any other instance. -/
  | Instance (o : ClrInstance)
deriving DecidableEq, Repr

/-- The host heap: the cell of the object at address `a` is `heap[a]?`. -/
abbrev ClrHeap := List ClrCell

/-- Allocation (`gcnew`): the new object gets the next address. -/
def ClrHeap.alloc (heap : ClrHeap) (cell : ClrCell) : Nat × ClrHeap :=
  (heap.length, heap ++ [cell])

/-- `iObject->GetType()` of a non-null handle. -/
def GetType (heap : ClrHeap) : ClrObject → SystemType
  | .nullptr => .Object
  | .Int32 _ => .Int32
  | .Double _ => .Double
  | .Boolean _ => .Boolean
  | .Enum t _ => .Other t
  | .Char _ => .Char
  | .Int64 _ => .Int64
  | .Int16 _ => .Int16
  | .SByte _ => .SByte
  | .Byte _ => .Byte
  | .UInt16 _ => .UInt16
  | .UInt32 _ => .UInt32
  | .UInt64 _ => .UInt64
  | .Single _ => .Single
  | .Decimal _ => .Decimal
  | .DateTime _ => .DateTime
  | .String _ => .String
  | .ref a =>
    match heap[a]? with
    | some (.Array t _) => t
    | some (.Delegate t _) => t
    | some (.Dictionary t _) => t
    | some (.List t _) => t
    | some (.JavascriptFunction _) => .JavascriptFunction
    | some (.Instance o) => o.type
    | none => .Object

/-! ## Engine values -/

/-- A `v8::Value`. Primitives stand for themselves; an object (array, date, function, plain
or wrapped object) is known by its address in the engine heap. `External` values, which
script never holds, are not values of the model. -/
inductive V8Value
  | Undefined
  | Null
  | Boolean (b : Bool)
  | Number (d : Double)
  | String (s : SystemString)
  | Object (address : Nat)
deriving DecidableEq, Repr

/-- Modelled from the spec: the wrapper handle `JavascriptExternal` (JavascriptExternal.cpp),
"a heap-allocated capsule holding exactly one host-object reference", with the
`SetParameterOptions` the wrapper was made with. -/
structure JavascriptExternal where
  Object : ClrObject
  Options : Nat
deriving DecidableEq, Repr

/-- `wrapper->GetObject()`. -/
def JavascriptExternal.GetObject (wrapper : JavascriptExternal) : ClrObject :=
  wrapper.Object

/-- A property of an engine object. `GetPropertyNames` lists the enumerable ones. Names are
kept in their string form; for an array-index name the engine hands out a number whose host
`ToString()` is the same decimal string. -/
structure V8Property where
  name : SystemString
  value : V8Value
  enumerable : Bool
deriving DecidableEq, Repr

/-- What a function object of the engine runs when called. -/
inductive V8Function
  /-- A function written in script. -/
  | Script (id : Nat)
  /-- A function made from `FunctionTemplate::New(isolate, DelegateInvoker, external)`. -/
  | DelegateInvoker (data : JavascriptExternal)
  /-- A function made for a host method: `Invoker` with `[self, memberName]` as data. -/
  | Invoker (self : ClrObject) (memberName : SystemString)
deriving DecidableEq, Repr

/-- A cell of the engine heap. -/
inductive V8Object
  /-- `IsArray`; `none` is a hole (an index below `Length()` that was never set). -/
  | Array (elements : List (Option V8Value))
  /-- `IsDate`, with its time value in milliseconds. -/
  | Date (value : Double)
  /-- `IsFunction`. -/
  | Function (f : V8Function)
  /-- Any other object: `internalField` is the one internal field of an instance of the
  wrapper template (`InternalFieldCount() > 0` exactly when it is there), `isError` marks an
  object made by `v8::Exception::Error`. -/
  | Object (internalField : Option JavascriptExternal) (isError : Bool)
      (properties : List V8Property)
deriving DecidableEq, Repr

/-- The engine heap. -/
abbrev V8Heap := List V8Object

/-- Allocation of an engine object. -/
def V8Heap.alloc (heap : V8Heap) (o : V8Object) : Nat × V8Heap :=
  (heap.length, heap ++ [o])

/-- `v8::Number::New`: only the canonical NaN enters the engine. -/
def Number.New (value : Double) : V8Value :=
  .Number (if value.isNaN then Double.quietNaN else value)

/-- `v8::Int32::New` (and `v8::Uint32::New`): the number with that integer value. -/
def Integer.New (value : Int) : V8Value :=
  .Number (Double.ofInt value)

/-- `v8::String::NewFromTwoByte(isolate, data, type)` without a length: the string ends at
the first U+0000 of the buffer. -/
def String.NewFromTwoByte (data : SystemString) : V8Value :=
  .String (cstr data)

/-- `array->Get(i)`: a hole or an index past the end reads as `undefined`. -/
def V8Array.Get (elements : List (Option V8Value)) (i : Nat) : V8Value :=
  match elements[i]? with
  | some (some v) => v
  | _ => .Undefined

/-- `array->Set(i, value)`: writes the element, growing the array with holes if needed. -/
def V8Array.Set (elements : List (Option V8Value)) (i : Nat) (value : V8Value) :
    List (Option V8Value) :=
  if i < elements.length then elements.set i (some value)
  else elements ++ List.replicate (i - elements.length) none ++ [some value]

/-- How a call of this file ends when it does not return normally, or when the model does
not follow it. -/
inductive InteropError
  /-- The recursion is deeper than the fuel given. -/
  | OutOfFuel
  /-- `System::Exception("No context currently active.")` of `WrapObject`. -/
  | NoContext
  /-- A member call on a null `JavascriptContext^`. -/
  | NullReference
  /-- A failed cast of a `MemberInfo^` to `MethodInfo^`. -/
  | InvalidCast
  /-- `object->Set` with the key `__proto__` and an object or null as value: the engine
  replaces the prototype of the object. Engine objects of this file have no prototype, so
  the model does not follow the call. -/
  | PrototypeReplaced
deriving DecidableEq, Repr

/-- `object->Set(context, key, value)` on the own properties of an object whose prototype
chain ends in `Object.prototype` as the engine sets it up (a new object, a new error
object). An own property of that name keeps its place and gets the value. Otherwise the key
`__proto__` reaches the accessor of `Object.prototype`, which makes no own property: it does
nothing for a value that is neither an object nor null, and replaces the prototype for one
that is. Any other new key is added as an enumerable own property. -/
def V8Properties.Set (properties : List V8Property) (key : SystemString) (value : V8Value) :
    Except InteropError (List V8Property) :=
  if properties.any (fun p => decide (p.name = key)) then
    .ok (properties.map (fun p => if p.name = key then { p with value := value } else p))
  else if key = utf16 "__proto__" then
    match value with
    | .Object _ => .error .PrototypeReplaced
    | .Null => .error .PrototypeReplaced
    | _ => .ok properties
  else .ok (properties ++ [{ name := key, value := value, enumerable := true }])

/-- `object->Get(key)` on a property list. -/
def V8Properties.Get (properties : List V8Property) (key : SystemString) : V8Value :=
  match properties.find? (fun p => decide (p.name = key)) with
  | some p => p.value
  | none => .Undefined

/-! ## Reflection and the helpers of other translation units -/

/-- A `System::Reflection::MethodInfo`: `id` tells the overloads apart. -/
structure MethodInfo where
  id : Nat
  Parameters : List ParameterInfo
deriving DecidableEq, Repr

/-- `method->GetParameters()`. -/
def MethodInfo.GetParameters (method : MethodInfo) : List ParameterInfo :=
  method.Parameters

/-- A `System::Reflection::MemberInfo` with its `MemberType`. -/
inductive MemberInfo
  | Method (method : MethodInfo)
  | Property (name : SystemString)
  | Field (name : SystemString)
  | Other (memberType : Nat)
deriving DecidableEq, Repr

/-- A `System::Reflection::PropertyInfo` of a type, with what `GetProperties` and
`GetCustomAttributes(JSEnumerable::typeid, false)` look at. -/
structure PropertyInfo where
  Name : SystemString
  isPublic : Bool
  isStatic : Bool
  /-- The property is declared by the type itself, not inherited. -/
  declared : Bool
  /-- The number of `JSEnumerable` attributes on the property. -/
  JSEnumerable : Nat
deriving DecidableEq, Repr

/-- What a reflective call of a host method or delegate ends in. -/
inductive InvokeResult
  | Returned (ret : ClrObject)
  /-- The callee threw `InnerException`; reflection wrapped it. -/
  | TargetInvocationException (InnerException : ClrObject)
  /-- Binding the arguments failed with a `System::ArgumentException`. -/
  | ArgumentException (exception : ClrObject)
  /-- Any other `System::Exception`. -/
  | Exception (exception : ClrObject)
deriving DecidableEq, Repr

/-- What the code gets from the host runtime and from `SystemInterop`, of which only the
callers are in this file. -/
structure HostEnvironment where
  /-- `(double)` of a `System::Decimal`. -/
  DecimalToDouble : Decimal → Double
  /-- `SystemInterop::ConvertFromSystemDateTime`: milliseconds since the epoch. -/
  ConvertFromSystemDateTime : DateTime → Double
  /-- `System::DateTime(TimeSpan::FromMilliseconds(ms)->Ticks + startDate->Ticks).ToLocalTime()`
  where `startDate` is 1970-01-01. -/
  DateTimeFromMilliseconds : Double → DateTime
  /-- `SystemInterop::ConvertToType`: the value coerced to the type, `nullptr` on failure. -/
  ConvertToType : ClrObject → SystemType → ClrObject
  /-- `type->GetMember(memberName)`. -/
  GetMember : SystemType → SystemString → List MemberInfo
  /-- All properties of a type, inherited, static and non-public ones included. -/
  Properties : SystemType → List PropertyInfo
  /-- `bestMethod->Invoke(self, arguments)`. -/
  Invoke : ClrHeap → MethodInfo → ClrObject → List ClrObject → InvokeResult × ClrHeap
  /-- `delegat->DynamicInvoke(args)`. -/
  DynamicInvoke : ClrHeap → ClrObject → List ClrObject → InvokeResult × ClrHeap
  /-- The property name the engine makes of a key that is not a string. -/
  ToPropertyKey : V8Value → SystemString
  /-- `Object::ToString()` of a host object that is not a string. -/
  ToString : ClrObject → SystemString
  /-- `wrapper->GetMethod(name)`: the function bound to the methods of that name, `none` (the
  empty handle) when the wrapped object has no such method. -/
  GetMethod : JavascriptExternal → SystemString → Option V8Value
  /-- `wrapper->GetProperty(name, value)`: the value of the property of that name, `none`
  when the call returns false. -/
  GetProperty : JavascriptExternal → SystemString → Option V8Value
  /-- `wrapper->SetProperty(name, value)`. -/
  SetProperty : JavascriptExternal → SystemString → V8Value → Option V8Value
  /-- `wrapper->GetProperty(index)`. -/
  GetIndexedProperty : JavascriptExternal → Nat → Option V8Value
  /-- `wrapper->SetProperty(index, value)`. -/
  SetIndexedProperty : JavascriptExternal → Nat → V8Value → Option V8Value
  /-- The flag `SetParameterOptions::RejectUnknownProperties`. -/
  RejectUnknownProperties : Nat

/-- `JavascriptContext::GetCurrent()`, as far as this file uses it. -/
structure JavascriptContext where
  IsExecutionTerminating : Bool
deriving DecidableEq, Repr

/-- Modelled from the spec: `JavascriptContext::WrapObject` (JavascriptContext.cpp) makes the
wrapper handle holding the one host-object reference. -/
def JavascriptContext.WrapObject (_context : JavascriptContext) (iObject : ClrObject) :
    JavascriptExternal :=
  { Object := iObject, Options := 0 }

/-! ## The identity tracker -/

/-- `ConvertedObjects`: the `v8::Map` from engine-object identity to the host object already
made for it. -/
structure ConvertedObjects where
  objectToConversion : List (Nat × ClrObject)
deriving DecidableEq, Repr

/-- `ConvertedObjects::ConvertedObjects()`: an empty map. -/
def ConvertedObjects.new : ConvertedObjects := { objectToConversion := [] }

/-- `ConvertedObjects::AddConverted`: `objectToConversion->Set(context, o, converted)`. -/
def ConvertedObjects.AddConverted (already : ConvertedObjects) (o : Nat)
    (converted : ClrObject) : ConvertedObjects :=
  { objectToConversion :=
      if already.objectToConversion.any (fun e => decide (e.1 = o)) then
        already.objectToConversion.map (fun e => if e.1 = o then (o, converted) else e)
      else already.objectToConversion ++ [(o, converted)] }

/-- `ConvertedObjects::GetConverted`: `nullptr` when the engine object was not seen before. -/
def ConvertedObjects.GetConverted (already : ConvertedObjects) (o : Nat) : ClrObject :=
  match already.objectToConversion.find? (fun e => decide (e.1 = o)) with
  | some e => e.2
  | none => .nullptr

/-! ## Engine value to host object -/

/-- What a conversion from the engine works on: the host heap it allocates in and the
tracker of its top-level call. -/
structure FromV8State where
  heap : ClrHeap
  already_converted : ConvertedObjects
deriving DecidableEq, Repr

/-- `results->SetValue(value, i)` on the host array at `results`. -/
def ClrHeap.SetValue (heap : ClrHeap) (results : Nat) (i : Nat) (value : ClrObject) : ClrHeap :=
  match heap[results]? with
  | some (.Array t items) => heap.set results (.Array t (items.set i value))
  | _ => heap

/-- The dictionary indexer `results[key] = value` on an entry list: an existing key gets the
value, a new key is added. -/
def DictionarySet (entries : List (ClrObject × ClrObject)) (key value : ClrObject) :
    List (ClrObject × ClrObject) :=
  if entries.any (fun e => decide (e.1 = key)) then
    entries.map (fun e => if e.1 = key then (key, value) else e)
  else entries ++ [(key, value)]

/-- The dictionary indexer `results[key]` on an entry list. -/
def DictionaryGet (entries : List (ClrObject × ClrObject)) (key : ClrObject) :
    Option ClrObject :=
  (entries.find? (fun e => decide (e.1 = key))).map (fun e => e.2)

/-- `results[key] = value` on the host dictionary at `results`. -/
def ClrHeap.SetItem (heap : ClrHeap) (results : Nat) (key value : ClrObject) : ClrHeap :=
  match heap[results]? with
  | some (.Dictionary t entries) => heap.set results (.Dictionary t (DictionarySet entries key value))
  | _ => heap

/-- `Object::ToString()` as `ConvertObjectFromV8` uses it on a converted property name. -/
def ObjectToString (env : HostEnvironment) : ClrObject → SystemString
  | .String s => s
  | o => env.ToString o

/-- `JavascriptInterop::UnwrapObject` on the internal field of an object: the host object of
the wrapper, `nullptr` when there is no internal field. -/
def UnwrapObject (heap : V8Heap) (iValue : V8Value) : ClrObject :=
  match iValue with
  | .Object a =>
    match heap[a]? with
    | some (.Object (some wrapper) _ _) => wrapper.GetObject
    | _ => .nullptr
  | _ => .nullptr

/-- `JavascriptInterop::ConvertDateFromV8`. -/
def ConvertDateFromV8 (env : HostEnvironment) (milliseconds : Double) : ClrObject :=
  .DateTime (env.DateTimeFromMilliseconds milliseconds)

/-- The loop of `ConvertArrayFromV8`: element `i` of the engine array is converted by
`convert` (the recursive `ConvertFromV8` with the same tracker) and stored at index `i` of
the host array at `results`. -/
def ConvertArrayFromV8.loop
    (convert : V8Value → FromV8State → Option (ClrObject × FromV8State))
    (object : List (Option V8Value)) (results : Nat) :
    List Nat → FromV8State → Option FromV8State
  | [], st => some st
  | i :: rest, st =>
    match convert (V8Array.Get object i) st with
    | none => none
    | some (value, st1) =>
      ConvertArrayFromV8.loop convert object results rest
        { st1 with heap := st1.heap.SetValue results i value }

/-- `JavascriptInterop::ConvertArrayFromV8`: a new `cli::array<System::Object^>` of the
engine array's length, filled element by element. The tracker is passed on to the elements
but the array itself is neither looked up in it nor added to it. -/
def ConvertArrayFromV8
    (convert : V8Value → FromV8State → Option (ClrObject × FromV8State))
    (object : List (Option V8Value)) (st : FromV8State) : Option (ClrObject × FromV8State) :=
  let length := object.length
  let (results, heap1) := st.heap.alloc (.Array .ObjectArray (List.replicate length .nullptr))
  match ConvertArrayFromV8.loop convert object results (List.range length)
      { st with heap := heap1 } with
  | none => none
  | some st2 => some (.ref results, st2)

/-- The loop of `ConvertObjectFromV8` over the property names: name and value are converted
by `convert` and `results[key] = value` is stored in the host dictionary at `results`. -/
def ConvertObjectFromV8.loop (env : HostEnvironment)
    (convert : V8Value → FromV8State → Option (ClrObject × FromV8State))
    (properties : List V8Property) (results : Nat) :
    List SystemString → FromV8State → Option FromV8State
  | [], st => some st
  | propName :: rest, st =>
    let propValue := V8Properties.Get properties propName
    match convert (.String propName) st with
    | none => none
    | some (name, st1) =>
      let key := ClrObject.String (ObjectToString env name)
      match convert propValue st1 with
      | none => none
      | some (value, st2) =>
        ConvertObjectFromV8.loop env convert properties results rest
          { st2 with heap := st2.heap.SetItem results key value }

/-- `iObject->GetPropertyNames()`: the names of the enumerable properties. -/
def GetPropertyNames (properties : List V8Property) : List SystemString :=
  (properties.filter (fun p => p.enumerable)).map (fun p => p.name)

/-- `JavascriptInterop::ConvertObjectFromV8` of the plain object at `iObject`: the host
object the tracker has for it, or else a new dictionary that is added to the tracker before
its properties are converted. -/
def ConvertObjectFromV8 (env : HostEnvironment)
    (convert : V8Value → FromV8State → Option (ClrObject × FromV8State))
    (iObject : Nat) (properties : List V8Property) (st : FromV8State) :
    Option (ClrObject × FromV8State) :=
  let converted_object := st.already_converted.GetConverted iObject
  if converted_object = .nullptr then
    let names := GetPropertyNames properties
    let (results, heap1) := st.heap.alloc (.Dictionary .DictionaryOfStringObject [])
    let st1 : FromV8State :=
      { heap := heap1
        already_converted := st.already_converted.AddConverted iObject (.ref results) }
    match ConvertObjectFromV8.loop env convert properties results names st1 with
    | none => none
    | some st2 => some (.ref results, st2)
  else some (converted_object, st)

/-- `JavascriptInterop::ConvertFromV8(iValue, already_converted)`. The checks are made in the
order of the source; `none` is a recursion deeper than `fuel`. A reference the engine heap
has no object for is a value of none of the kinds tested and ends in the final
`return nullptr`. -/
def ConvertFromV8With (env : HostEnvironment) (v8 : V8Heap) :
    Nat → V8Value → FromV8State → Option (ClrObject × FromV8State)
  | 0, _, _ => none
  | fuel + 1, iValue, st =>
    match iValue with
    | .Null => some (.nullptr, st)
    | .Undefined => some (.nullptr, st)
    | .Boolean b => some (.Boolean b, st)
    | .Number d =>
      match d.toInt32? with
      | some i => some (.Int32 i, st)
      | none => some (.Double d, st)
    | .String s => some (.String (cstr s), st)
    | .Object a =>
      match v8[a]? with
      | some (.Array elements) =>
        ConvertArrayFromV8 (ConvertFromV8With env v8 fuel) elements st
      | some (.Date ms) => some (ConvertDateFromV8 env ms, st)
      | some (.Function _) =>
        let (f, heap1) := st.heap.alloc (.JavascriptFunction a)
        some (.ref f, { st with heap := heap1 })
      | some (.Object internalField _ properties) =>
        if internalField.isSome then some (UnwrapObject v8 iValue, st)
        else ConvertObjectFromV8 env (ConvertFromV8With env v8 fuel) a properties st
      | none => some (.nullptr, st)

/-- `JavascriptInterop::ConvertFromV8(iValue)`: a conversion with a tracker of its own. -/
def ConvertFromV8 (env : HostEnvironment) (v8 : V8Heap) (fuel : Nat) (iValue : V8Value)
    (heap : ClrHeap) : Option (ClrObject × ClrHeap) :=
  let already_converted := ConvertedObjects.new
  match ConvertFromV8With env v8 fuel iValue
      { heap := heap, already_converted := already_converted } with
  | none => none
  | some (o, st) => some (o, st.heap)

/-! ## Host object to engine value -/

/-- `JavascriptInterop::WrapObject`: a new instance of the wrapper template whose internal
field holds the wrapper handle of `iObject`. -/
def WrapObject (context : Option JavascriptContext) (iObject : ClrObject) (v8 : V8Heap) :
    Except InteropError (V8Value × V8Heap) :=
  match context with
  | some context =>
    let (object, v8a) := v8.alloc (.Object (some (context.WrapObject iObject)) false [])
    .ok (.Object object, v8a)
  | none => .error .NoContext

/-- `array->Set(key, value)` on the engine array at `result`. -/
def V8Heap.SetIndex (v8 : V8Heap) (result : Nat) (i : Nat) (value : V8Value) : V8Heap :=
  match v8[result]? with
  | some (.Array elements) => v8.set result (.Array (V8Array.Set elements i value))
  | _ => v8

/-- `object->Set(context, key, value)` on the engine object at `object`. -/
def V8Heap.SetProperty (v8 : V8Heap) (object : Nat) (key : SystemString) (value : V8Value) :
    Except InteropError V8Heap :=
  match v8[object]? with
  | some (.Object internalField isError properties) =>
    match V8Properties.Set properties key value with
    | .error e => .error e
    | .ok properties' => .ok (v8.set object (.Object internalField isError properties'))
  | _ => .ok v8

/-- The property name the engine makes of the key given to `Set`. -/
def ToPropertyKey (env : HostEnvironment) : V8Value → SystemString
  | .String s => s
  | v => env.ToPropertyKey v

/-- The loop of `ConvertFromSystemArray` and of `ConvertFromSystemList`: item `i` is
converted by `convert` (the recursive `ConvertToV8`) and set at index `i` of the engine
array at `result`. -/
def ConvertFromSystemArray.loop
    (convert : ClrObject → V8Heap → Except InteropError (V8Value × V8Heap)) (result : Nat) :
    List ClrObject → Nat → V8Heap → Except InteropError V8Heap
  | [], _, v8 => .ok v8
  | item :: rest, i, v8 =>
    match convert item v8 with
    | .error e => .error e
    | .ok (value, v8a) =>
      ConvertFromSystemArray.loop convert result rest (i + 1) (v8a.SetIndex result i value)

/-- `JavascriptInterop::ConvertFromSystemArray`. -/
def ConvertFromSystemArray
    (convert : ClrObject → V8Heap → Except InteropError (V8Value × V8Heap))
    (iArray : List ClrObject) (v8 : V8Heap) : Except InteropError (V8Value × V8Heap) :=
  let (result, v8a) := v8.alloc (.Array [])
  match ConvertFromSystemArray.loop convert result iArray 0 v8a with
  | .error e => .error e
  | .ok v8b => .ok (.Object result, v8b)

/-- `JavascriptInterop::ConvertFromSystemList`. -/
def ConvertFromSystemList
    (convert : ClrObject → V8Heap → Except InteropError (V8Value × V8Heap))
    (list : List ClrObject) (v8 : V8Heap) : Except InteropError (V8Value × V8Heap) :=
  let (object, v8a) := v8.alloc (.Array [])
  match ConvertFromSystemArray.loop convert object list 0 v8a with
  | .error e => .error e
  | .ok v8b => .ok (.Object object, v8b)

/-- The loop of `ConvertFromSystemDictionary` over `dictionary->Keys`. -/
def ConvertFromSystemDictionary.loop (env : HostEnvironment)
    (convert : ClrObject → V8Heap → Except InteropError (V8Value × V8Heap)) (object : Nat) :
    List (ClrObject × ClrObject) → V8Heap → Except InteropError V8Heap
  | [], v8 => .ok v8
  | (keyValue, item) :: rest, v8 =>
    match convert keyValue v8 with
    | .error e => .error e
    | .ok (key, v8a) =>
      match convert item v8a with
      | .error e => .error e
      | .ok (val, v8b) =>
        match v8b.SetProperty object (ToPropertyKey env key) val with
        | .error e => .error e
        | .ok v8c => ConvertFromSystemDictionary.loop env convert object rest v8c

/-- `JavascriptInterop::ConvertFromSystemDictionary`. -/
def ConvertFromSystemDictionary (env : HostEnvironment)
    (convert : ClrObject → V8Heap → Except InteropError (V8Value × V8Heap))
    (dictionary : List (ClrObject × ClrObject)) (v8 : V8Heap) :
    Except InteropError (V8Value × V8Heap) :=
  let (object, v8a) := v8.alloc (.Object none false [])
  match ConvertFromSystemDictionary.loop env convert object dictionary v8a with
  | .error e => .error e
  | .ok v8b => .ok (.Object object, v8b)

/-- `JavascriptInterop::ConvertFromSystemDelegate`: a function that runs `DelegateInvoker`
with the wrapper handle of the delegate as data. -/
def ConvertFromSystemDelegate (context : Option JavascriptContext) (iDelegate : ClrObject)
    (v8 : V8Heap) : Except InteropError (V8Value × V8Heap) :=
  match context with
  | some context =>
    let (method, v8a) := v8.alloc (.Function (.DelegateInvoker (context.WrapObject iDelegate)))
    .ok (.Object method, v8a)
  | none => .error .NullReference

/-- The exception case of `ConvertToV8`: a `v8::Exception::Error` object whose message is
made from `exception->Message`, with the wrapped exception under "InnerException". -/
def ConvertException (context : Option JavascriptContext) (iObject : ClrObject)
    (exception : ExceptionInfo) (v8 : V8Heap) : Except InteropError (V8Value × V8Heap) :=
  let (error_o, v8a) := v8.alloc (.Object none true
    [{ name := utf16 "message", value := String.NewFromTwoByte exception.Message,
       enumerable := false }])
  match WrapObject context iObject v8a with
  | .error e => .error e
  | .ok (wrapped, v8b) =>
    match v8b.SetProperty error_o (utf16 "InnerException") wrapped with
    | .error e => .error e
    | .ok v8c => .ok (.Object error_o, v8c)

/-- `JavascriptInterop::ConvertToV8`. The cases are tried in the order of the source; a
boxed value of a value type without a case of its own is an `Instance` of the host heap and,
like a reference the host heap has no cell for, ends in `WrapObject`. A nesting deeper
than the fuel is reported as `OutOfFuel`. -/
def ConvertToV8 (env : HostEnvironment) (context : Option JavascriptContext) (heap : ClrHeap) :
    Nat → ClrObject → V8Heap → Except InteropError (V8Value × V8Heap)
  | 0, _, _ => .error .OutOfFuel
  | fuel + 1, iObject, v8 =>
    match iObject with
    | .nullptr => .ok (.Null, v8)
    | .Int32 v => .ok (Integer.New v.val, v8)
    | .Double v => .ok (Number.New v, v8)
    | .Boolean v => .ok (.Boolean v, v8)
    | .Enum _ toString => .ok (String.NewFromTwoByte toString, v8)
    | .Char c => .ok (.String [c], v8)
    | .Int64 v => .ok (Number.New (Double.ofInt v), v8)
    | .Int16 v => .ok (Integer.New v, v8)
    | .SByte v => .ok (Integer.New v, v8)
    | .Byte v => .ok (Integer.New v, v8)
    | .UInt16 v => .ok (Integer.New v, v8)
    | .UInt32 v => .ok (Number.New (Double.ofInt v), v8)
    | .UInt64 v => .ok (Number.New (Double.ofInt v), v8)
    | .Single v => .ok (Number.New v.toDouble, v8)
    | .Decimal v => .ok (Number.New (env.DecimalToDouble v), v8)
    | .DateTime v =>
      let (date, v8a) := v8.alloc (.Date (env.ConvertFromSystemDateTime v))
      .ok (.Object date, v8a)
    | .String v => .ok (String.NewFromTwoByte v, v8)
    | .ref a =>
      match heap[a]? with
      | some (.Array _ items) => ConvertFromSystemArray (ConvertToV8 env context heap fuel) items v8
      | some (.Delegate _ _) => ConvertFromSystemDelegate context iObject v8
      | some (.Dictionary _ entries) =>
        ConvertFromSystemDictionary env (ConvertToV8 env context heap fuel) entries v8
      | some (.List _ items) => ConvertFromSystemList (ConvertToV8 env context heap fuel) items v8
      | some (.JavascriptFunction _) => WrapObject context iObject v8
      | some (.Instance o) =>
        match (if o.declaredInstanceFields = 0 then o.IDictionary else none) with
        | some entries =>
          ConvertFromSystemDictionary env (ConvertToV8 env context heap fuel) entries v8
        | none =>
          match o.Exception with
          | some exception => ConvertException context iObject exception v8
          | none => WrapObject context iObject v8
      | none => WrapObject context iObject v8

/-- `JavascriptInterop::IsSystemObject`. -/
def IsSystemObject (v8 : V8Heap) (iValue : V8Value) : Bool :=
  match iValue with
  | .Object a =>
    match v8[a]? with
    | some (.Object internalField _ _) => internalField.isSome
    | _ => false
  | _ => false

/-! ## Callbacks -/

/-- What a callback leaves with the engine. -/
structure CallbackResult where
  /-- The handle given to `GetReturnValue().Set`; `none` is the empty handle. -/
  ReturnValue : Option V8Value
  /-- The exception scheduled by `isolate->ThrowException`. -/
  Exception : Option V8Value
deriving DecidableEq, Repr

/-- `GetReturnValue().Set(isolate->ThrowException(exception))`: the exception is scheduled
and `ThrowException` hands back `undefined`. -/
def ThrowException (exception : V8Value) : CallbackResult :=
  { ReturnValue := some .Undefined, Exception := some exception }

/-- `JavascriptInterop::HandleTargetInvocationException` on `exception->InnerException`. -/
def HandleTargetInvocationException (env : HostEnvironment) (context : JavascriptContext)
    (heap : ClrHeap) (fuel : Nat) (InnerException : ClrObject) (v8 : V8Heap) :
    Except InteropError (CallbackResult × V8Heap) :=
  if context.IsExecutionTerminating then
    .ok ({ ReturnValue := none, Exception := none }, v8)
  else
    match ConvertToV8 env (some context) heap fuel InnerException v8 with
    | .error e => .error e
    | .ok (error, v8a) => .ok (ThrowException error, v8a)

/-- `type->GetProperties(Public | Instance | DeclaredOnly)`. -/
def GetProperties (env : HostEnvironment) (type : SystemType) : List PropertyInfo :=
  (env.Properties type).filter (fun p => p.isPublic && !p.isStatic && p.declared)

/-- The second loop of `Enumerator`: `result_names->Set(i, ConvertToV8(memberList[i]))`. A
name is a string, which `ConvertToV8` converts without recursion. -/
def Enumerator.loop (env : HostEnvironment) (context : Option JavascriptContext)
    (heap : ClrHeap) (result_names : Nat) :
    List SystemString → Nat → V8Heap → Except InteropError V8Heap
  | [], _, v8 => .ok v8
  | name :: rest, i, v8 =>
    match ConvertToV8 env context heap 1 (.String name) v8 with
    | .error e => .error e
    | .ok (value, v8a) =>
      Enumerator.loop env context heap result_names rest (i + 1)
        (v8a.SetIndex result_names i value)

/-- `JavascriptInterop::Enumerator` for the wrapper handle of the holder: the array it
returns. -/
def Enumerator (env : HostEnvironment) (context : Option JavascriptContext) (heap : ClrHeap)
    (wrapper : JavascriptExternal) (v8 : V8Heap) : Except InteropError (V8Value × V8Heap) :=
  let self := wrapper.GetObject
  let type := GetType heap self
  let members := GetProperties env type
  let (result_names, v8a) := v8.alloc (.Array (List.replicate members.length none))
  let memberList := (members.filter (fun member => decide (0 < member.JSEnumerable))).map
    (fun member => member.Name)
  match Enumerator.loop env context heap result_names memberList 0 v8a with
  | .error e => .error e
  | .ok v8b => .ok (.Object result_names, v8b)

/-- `wrapper->GetOptions()`. -/
def JavascriptExternal.GetOptions (wrapper : JavascriptExternal) : Nat :=
  wrapper.Options

/-- `JavascriptInterop::Getter` for the property name `iName` and the wrapper handle of the
holder. -/
def Getter (env : HostEnvironment) (context : Option JavascriptContext) (heap : ClrHeap)
    (iName : SystemString) (wrapper : JavascriptExternal) (v8 : V8Heap) :
    Except InteropError (CallbackResult × V8Heap) :=
  let name := cstr iName
  match env.GetMethod wrapper name with
  | some function => .ok ({ ReturnValue := some function, Exception := none }, v8)
  | none =>
    match env.GetProperty wrapper name with
    | some value => .ok ({ ReturnValue := some value, Exception := none }, v8)
    | none =>
      match (if cstr iName = utf16 "toString" then env.GetMethod wrapper (utf16 "ToString")
          else none) with
      | some function => .ok ({ ReturnValue := some function, Exception := none }, v8)
      | none =>
        if wrapper.GetOptions &&& env.RejectUnknownProperties = env.RejectUnknownProperties then
          match ConvertToV8 env context heap 1
              (.String (utf16 "Unknown member: " ++ cstr iName)) v8 with
          | .error e => .error e
          | .ok (error, v8a) => .ok (ThrowException error, v8a)
        else .ok ({ ReturnValue := none, Exception := none }, v8)

/-- `JavascriptInterop::Setter`. -/
def Setter (env : HostEnvironment) (iName : SystemString) (iValue : V8Value)
    (wrapper : JavascriptExternal) : CallbackResult :=
  let name := cstr iName
  { ReturnValue := env.SetProperty wrapper name iValue, Exception := none }

/-- `JavascriptInterop::IndexGetter`. -/
def IndexGetter (env : HostEnvironment) (iIndex : Nat) (wrapper : JavascriptExternal) :
    CallbackResult :=
  match env.GetIndexedProperty wrapper iIndex with
  | some value => { ReturnValue := some value, Exception := none }
  | none => { ReturnValue := none, Exception := none }

/-- `JavascriptInterop::IndexSetter`. -/
def IndexSetter (env : HostEnvironment) (iIndex : Nat) (iValue : V8Value)
    (wrapper : JavascriptExternal) : CallbackResult :=
  match env.SetIndexedProperty wrapper iIndex iValue with
  | some value => { ReturnValue := some value, Exception := none }
  | none => { ReturnValue := none, Exception := none }

/-! ## Member dispatch -/

/-- The conversion of the supplied arguments, one after the other through one tracker:
`suppliedArguments[i] = ConvertFromV8(iArgs[i], already_converted)`. -/
def ConvertArguments
    (convert : V8Value → FromV8State → Option (ClrObject × FromV8State)) :
    List V8Value → FromV8State → Option (List ClrObject × FromV8State)
  | [], st => some ([], st)
  | arg :: rest, st =>
    match convert arg st with
    | none => none
    | some (o, st1) =>
      match ConvertArguments convert rest st1 with
      | none => none
      | some (os, st2) => some (o :: os, st2)

/-- The state of the parameter-matching loop of `Invoker` when it is left. -/
structure MatchResult where
  arguments : List ClrObject
  matched : Nat
  failed : Nat
deriving DecidableEq, Repr

/-- The loop `for (p = 0; p < suppliedArguments->Length; p++)` of `Invoker` for one
candidate. `done` is `arguments[0..p)` and `matched` is `match`; the parameters left when the
supplied arguments run out keep the `nullptr` the array was made with. A failed coercion
leaves the loop with `failed = 1`. -/
def Invoker.matchParameters (env : HostEnvironment) (heap : ClrHeap) :
    List ClrObject → List ParameterInfo → List ClrObject → Nat → MatchResult
  | [], parametersInfo, done, matched =>
    { arguments := done ++ parametersInfo.map (fun _ => ClrObject.nullptr)
      matched := matched, failed := 0 }
  | _ :: _, [], done, matched => { arguments := done, matched := matched, failed := 0 }
  | supplied :: rest, parameter :: parametersInfo, done, matched =>
    let paramType := parameter.ParameterType
    if supplied ≠ .nullptr then
      let suppliedType := GetType heap supplied
      if suppliedType = paramType then
        Invoker.matchParameters env heap rest parametersInfo (done ++ [supplied]) (matched + 1)
      else
        let converted := env.ConvertToType supplied paramType
        if converted = .nullptr then
          { arguments := done ++ .nullptr :: parametersInfo.map (fun _ => ClrObject.nullptr)
            matched := matched, failed := 1 }
        else Invoker.matchParameters env heap rest parametersInfo (done ++ [converted]) matched
    else Invoker.matchParameters env heap rest parametersInfo (done ++ [.nullptr]) matched

/-- The best match so far: `bestMethod`, `bestMethodArguments`, `bestMethodMatchedArgs`. -/
structure BestMethod where
  bestMethod : Option MethodInfo
  bestMethodArguments : List ClrObject
  bestMethodMatchedArgs : Int
deriving DecidableEq, Repr

/-- The locals of `Invoker` before the search: no method, `bestMethodMatchedArgs = -1`. -/
def BestMethod.initial : BestMethod :=
  { bestMethod := none, bestMethodArguments := [], bestMethodMatchedArgs := -1 }

/-- The loop `for (i = 0; i < members->Length; i++)` of `Invoker` ("look for best matching
method"). -/
def Invoker.lookForBestMethod (env : HostEnvironment) (heap : ClrHeap)
    (suppliedArguments : List ClrObject) : List MethodInfo → BestMethod → BestMethod
  | [], best => best
  | method :: rest, best =>
    let parametersInfo := method.GetParameters
    if suppliedArguments.length ≤ parametersInfo.length then
      let r := Invoker.matchParameters env heap suppliedArguments parametersInfo [] 0
      if 0 < r.failed then Invoker.lookForBestMethod env heap suppliedArguments rest best
      else if best.bestMethodMatchedArgs < (r.matched : Int) then
        Invoker.lookForBestMethod env heap suppliedArguments rest
          { bestMethod := some method, bestMethodArguments := r.arguments
            bestMethodMatchedArgs := r.matched }
      else if (r.matched : Int) = best.bestMethodMatchedArgs then
        if suppliedArguments.length = parametersInfo.length then
          Invoker.lookForBestMethod env heap suppliedArguments rest
            { bestMethod := some method, bestMethodArguments := r.arguments
              bestMethodMatchedArgs := r.matched }
        else Invoker.lookForBestMethod env heap suppliedArguments rest best
      else Invoker.lookForBestMethod env heap suppliedArguments rest best
    else Invoker.lookForBestMethod env heap suppliedArguments rest best

/-- The cast `(MethodInfo^) members[i]`. -/
def MemberInfo.asMethod : MemberInfo → Option MethodInfo
  | .Method method => some method
  | _ => none

/-- The casts `(MethodInfo^) members[i]` of the search loop, for all members. -/
def Invoker.castMembers : List MemberInfo → Option (List MethodInfo)
  | [] => some []
  | member :: members =>
    match member.asMethod with
    | none => none
    | some method =>
      match Invoker.castMembers members with
      | none => none
      | some methods => some (method :: methods)

/-- The first half of `Invoker`: when the first member of that name is a method, the
supplied arguments are converted and the best method is looked for. -/
def Invoker.resolve (env : HostEnvironment) (v8 : V8Heap) (fuel : Nat)
    (members : List MemberInfo) (iArgs : List V8Value) (heap : ClrHeap) :
    Except InteropError (BestMethod × ClrHeap) :=
  match members with
  | .Method _ :: _ =>
    match ConvertArguments (ConvertFromV8With env v8 fuel) iArgs
        { heap := heap, already_converted := ConvertedObjects.new } with
    | none => .error .OutOfFuel
    | some (suppliedArguments, st) =>
      match Invoker.castMembers members with
      | none => .error .InvalidCast
      | some methods =>
        .ok (Invoker.lookForBestMethod env st.heap suppliedArguments methods BestMethod.initial,
          st.heap)
  | _ => .ok (BestMethod.initial, heap)

/-- What a call of `Invoker` or `DelegateInvoker` did. -/
structure InvokerResult where
  /-- The method `Invoke` was called on and the argument array it was given; `none` when no
  host method was invoked. -/
  invoked : Option (MethodInfo × List ClrObject)
  callback : CallbackResult
  v8 : V8Heap
  heap : ClrHeap
deriving DecidableEq, Repr

/-- The text of the error `Invoker` throws when no method was selected. -/
def ArgumentMismatchMessage (memberName : SystemString) : SystemString :=
  utf16 "Argument mismatch for method \"" ++ memberName ++ utf16 "\"."

/-- `JavascriptInterop::Invoker` for the data `[self, memberName]` and the arguments
`iArgs`. -/
def Invoker (env : HostEnvironment) (context : JavascriptContext) (v8 : V8Heap) (fuel : Nat)
    (self : ClrObject) (memberName : SystemString) (iArgs : List V8Value) (heap : ClrHeap) :
    Except InteropError InvokerResult :=
  let type := GetType heap self
  let members := env.GetMember type memberName
  match Invoker.resolve env v8 fuel members iArgs heap with
  | .error e => .error e
  | .ok (best, heap1) =>
    match best.bestMethod with
    | some bestMethod =>
      let invoked := some (bestMethod, best.bestMethodArguments)
      match env.Invoke heap1 bestMethod self best.bestMethodArguments with
      | (.TargetInvocationException InnerException, heap2) =>
        match HandleTargetInvocationException env context heap2 fuel InnerException v8 with
        | .error e => .error e
        | .ok (callback, v8a) =>
          .ok { invoked := invoked, callback := callback, v8 := v8a, heap := heap2 }
      | (.ArgumentException exception, heap2) =>
        match ConvertToV8 env (some context) heap2 fuel exception v8 with
        | .error e => .error e
        | .ok (error, v8a) =>
          .ok { invoked := invoked, callback := ThrowException error, v8 := v8a, heap := heap2 }
      | (.Exception exception, heap2) =>
        match ConvertToV8 env (some context) heap2 fuel exception v8 with
        | .error e => .error e
        | .ok (error, v8a) =>
          .ok { invoked := invoked, callback := ThrowException error, v8 := v8a, heap := heap2 }
      | (.Returned ret, heap2) =>
        match ConvertToV8 env (some context) heap2 fuel ret v8 with
        | .error e => .error e
        | .ok (value, v8a) =>
          .ok { invoked := invoked
                callback := { ReturnValue := some value, Exception := none }
                v8 := v8a, heap := heap2 }
    | none =>
      match ConvertToV8 env (some context) heap1 fuel
          (.String (ArgumentMismatchMessage memberName)) v8 with
      | .error e => .error e
      | .ok (error, v8a) =>
        .ok { invoked := none, callback := ThrowException error, v8 := v8a, heap := heap1 }

/-- The first loop of `DelegateInvoker`: `args[i]` is the conversion of `info[i]` when
`i < nsupplied` and `nullptr` otherwise, for the indices `i` of the parameters. -/
def DelegateInvoker.arguments
    (convert : V8Value → FromV8State → Option (ClrObject × FromV8State))
    (info : List V8Value) : List Nat → FromV8State → Option (List ClrObject × FromV8State)
  | [], st => some ([], st)
  | i :: rest, st =>
    let nsupplied := info.length
    if i < nsupplied then
      match convert (info.getD i .Undefined) st with
      | none => none
      | some (o, st1) =>
        match DelegateInvoker.arguments convert info rest st1 with
        | none => none
        | some (os, st2) => some (o :: os, st2)
    else
      match DelegateInvoker.arguments convert info rest st with
      | none => none
      | some (os, st2) => some (.nullptr :: os, st2)

/-- The second loop of `DelegateInvoker` ("perform type conversions where possible"): a
non-null argument of another type than its parameter is replaced by its coercion, unless
that fails. -/
def DelegateInvoker.coerce (env : HostEnvironment) (heap : ClrHeap) :
    List ClrObject → List ParameterInfo → List ClrObject
  | [], _ => []
  | args, [] => args
  | arg :: args, parameter :: parametersInfo =>
    let rest := DelegateInvoker.coerce env heap args parametersInfo
    if arg ≠ .nullptr then
      let paramType := parameter.ParameterType
      let suppliedType := GetType heap arg
      if suppliedType ≠ paramType then
        let converted := env.ConvertToType arg paramType
        if converted ≠ .nullptr then converted :: rest else arg :: rest
      else arg :: rest
    else arg :: rest

/-- `delegat->GetType()->GetMethods()[0]->GetParameters()`. -/
def DelegateParameters (heap : ClrHeap) : ClrObject → List ParameterInfo
  | .ref a =>
    match heap[a]? with
    | some (.Delegate _ parametersInfo) => parametersInfo
    | _ => []
  | _ => []

/-- What a call of `DelegateInvoker` did. -/
structure DelegateInvokerResult where
  /-- The array given to `DynamicInvoke`. -/
  args : List ClrObject
  callback : CallbackResult
  v8 : V8Heap
  heap : ClrHeap
deriving DecidableEq, Repr

/-- `JavascriptInterop::DelegateInvoker` for the wrapper handle in `info.Data()` and the
arguments `info`. -/
def DelegateInvoker (env : HostEnvironment) (context : JavascriptContext) (v8 : V8Heap)
    (fuel : Nat) (wrapper : JavascriptExternal) (info : List V8Value) (heap : ClrHeap) :
    Except InteropError DelegateInvokerResult :=
  let object := wrapper.GetObject
  let parametersInfo := DelegateParameters heap object
  let nparams := parametersInfo.length
  match DelegateInvoker.arguments (ConvertFromV8With env v8 fuel) info (List.range nparams)
      { heap := heap, already_converted := ConvertedObjects.new } with
  | none => .error .OutOfFuel
  | some (args0, st) =>
    let args := DelegateInvoker.coerce env st.heap args0 parametersInfo
    match env.DynamicInvoke st.heap object args with
    | (.TargetInvocationException InnerException, heap2) =>
      match HandleTargetInvocationException env context heap2 fuel InnerException v8 with
      | .error e => .error e
      | .ok (callback, v8a) => .ok { args := args, callback := callback, v8 := v8a, heap := heap2 }
    | (.ArgumentException _, heap2) =>
      match ConvertToV8 env (some context) heap2 fuel (.String (utf16 "Argument mismatch")) v8 with
      | .error e => .error e
      | .ok (error, v8a) =>
        .ok { args := args, callback := ThrowException error, v8 := v8a, heap := heap2 }
    | (.Exception exception, heap2) =>
      match ConvertToV8 env (some context) heap2 fuel exception v8 with
      | .error e => .error e
      | .ok (error, v8a) =>
        .ok { args := args, callback := ThrowException error, v8 := v8a, heap := heap2 }
    | (.Returned ret, heap2) =>
      match ConvertToV8 env (some context) heap2 fuel ret v8 with
      | .error e => .error e
      | .ok (value, v8a) =>
        .ok { args := args, callback := { ReturnValue := some value, Exception := none }
              v8 := v8a, heap := heap2 }

/-! ## Compositions and sample data the properties are stated on -/

/-- `ConvertFromV8(ConvertToV8(x))`: the host object that comes back when `x` is sent to the
engine and the engine value is converted again, with the host heap after it. -/
def RoundTrip (env : HostEnvironment) (context : Option JavascriptContext) (fuel : Nat)
    (x : ClrObject) (heap : ClrHeap) (v8 : V8Heap) : Option (ClrObject × ClrHeap) :=
  match ConvertToV8 env context heap fuel x v8 with
  | .ok (value, v8a) => ConvertFromV8 env v8a fuel value heap
  | .error _ => none

/-- A host environment without types, members or coercions, for evaluation on concrete
inputs. -/
def HostEnvironment.sample : HostEnvironment where
  DecimalToDouble := fun _ => Double.ofInt 0
  ConvertFromSystemDateTime := fun _ => Double.ofInt 0
  DateTimeFromMilliseconds := fun _ => { Ticks := 0, Kind := 0 }
  ConvertToType := fun _ _ => .nullptr
  GetMember := fun _ _ => []
  Properties := fun _ => []
  Invoke := fun heap _ _ _ => (.Returned .nullptr, heap)
  DynamicInvoke := fun heap _ _ => (.Returned .nullptr, heap)
  ToPropertyKey := fun _ => []
  ToString := fun _ => []
  GetMethod := fun _ _ => none
  GetProperty := fun _ _ => none
  SetProperty := fun _ _ _ => none
  GetIndexedProperty := fun _ _ => none
  SetIndexedProperty := fun _ _ _ => none
  RejectUnknownProperties := 1

/-- The double 1.0. -/
def Double.one : Double := Double.ofFields false 1023 0

/-- The engine heap of `a = [a]`: the array at 0 holds itself. -/
def V8Heap.arrayOfSelf : V8Heap := [.Array [some (.Object 0)]]

/-- The engine heap of `o = {x: b, y: b}` with `b = []`: the array at 1 occurs twice. -/
def V8Heap.sharedArray : V8Heap :=
  [.Object none false
      [{ name := utf16 "x", value := .Object 1, enumerable := true },
       { name := utf16 "y", value := .Object 1, enumerable := true }],
   .Array []]

/-- The overload `f(string)`. -/
def MethodInfo.sampleF1 : MethodInfo :=
  { id := 1, Parameters := [{ ParameterType := .String }] }

/-- The overload `f(string, double, bool)`. -/
def MethodInfo.sampleF3 : MethodInfo :=
  { id := 3
    Parameters :=
      [{ ParameterType := .String }, { ParameterType := .Double }, { ParameterType := .Boolean }] }

/-- A host environment in which every type has the member `f` with the overloads
`f(string)` and `f(string, double, bool)`, and a 32-bit integer can be coerced to a double. -/
def HostEnvironment.sampleOverloads : HostEnvironment :=
  { HostEnvironment.sample with
    GetMember := fun _ name =>
      if name = utf16 "f" then [.Method MethodInfo.sampleF1, .Method MethodInfo.sampleF3]
      else []
    ConvertToType := fun o t =>
      match o, t with
      | .Int32 i, .Double => .Double (Double.ofInt i.val)
      | _, _ => .nullptr }

/-- The properties of the sample type: `A` declared and marked `JSEnumerable`, `B` declared
and not marked, `C` inherited and marked. -/
def PropertyInfo.sampleABC : List PropertyInfo :=
  [{ Name := utf16 "A", isPublic := true, isStatic := false, declared := true, JSEnumerable := 1 },
   { Name := utf16 "B", isPublic := true, isStatic := false, declared := true, JSEnumerable := 0 },
   { Name := utf16 "C", isPublic := true, isStatic := false, declared := false, JSEnumerable := 1 }]

/-- A host environment in which every type has the properties `PropertyInfo.sampleABC`. -/
def HostEnvironment.sampleProperties : HostEnvironment :=
  { HostEnvironment.sample with Properties := fun _ => PropertyInfo.sampleABC }

/-- A host heap with one exception whose message is "a", U+0000, "b". -/
def ClrHeap.sampleExceptionNUL : ClrHeap :=
  [.Instance { type := .Other 2, IDictionary := none, declaredInstanceFields := 0, IList := none
               Exception := some { Message := [97, 0, 98] } }]

/-- A host heap with one exception with the message "boom". -/
def ClrHeap.sampleException : ClrHeap :=
  [.Instance { type := .Other 2, IDictionary := none, declaredInstanceFields := 0, IList := none
               Exception := some { Message := utf16 "boom" } }]

/-- A host heap with one exception, with the message "boom", whose class implements
`IDictionary` (with no entries) and declares no instance fields. -/
def ClrHeap.sampleExceptionDictionary : ClrHeap :=
  [.Instance { type := .Other 3, IDictionary := some [], declaredInstanceFields := 0
               IList := none, Exception := some { Message := utf16 "boom" } }]

/-- A host environment in which every type has the member `f` with the one overload
`f(string)`, whose invocation throws the exception at address 0 of the host heap. -/
def HostEnvironment.sampleThrowing : HostEnvironment :=
  { HostEnvironment.sample with
    GetMember := fun _ name => if name = utf16 "f" then [.Method MethodInfo.sampleF1] else []
    Invoke := fun heap _ _ _ => (.TargetInvocationException (.ref 0), heap) }

/-- A host heap with one instance of a class without capabilities. -/
def ClrHeap.sampleInstance : ClrHeap :=
  [.Instance { type := .Other 7, IDictionary := none, declaredInstanceFields := 0, IList := none
               Exception := none }]

/-- A host environment in which every wrapper has a method `m` and a property `m`. -/
def HostEnvironment.sampleMember : HostEnvironment :=
  { HostEnvironment.sample with
    GetMethod := fun _ name => if name = utf16 "m" then some (.Object 0) else none
    GetProperty := fun _ name => if name = utf16 "m" then some (.Boolean true) else none }

/-- A host heap with one `System::Collections::ArrayList` holding 1 and 2: its class
implements `IList` and is no construction of the generic list type. -/
def ClrHeap.sampleArrayList : ClrHeap :=
  [.Instance { type := .Other 5, IDictionary := none, declaredInstanceFields := 4
               IList := some [.Int32 ⟨1, by decide⟩, .Int32 ⟨2, by decide⟩]
               Exception := none }]

/-- A host heap with one `List<int>` holding 1 and 2. -/
def ClrHeap.sampleList : ClrHeap :=
  [.List (.Other 6) [.Int32 ⟨1, by decide⟩, .Int32 ⟨2, by decide⟩]]

/-- A host heap with the array `["a", 5, {"k": null}]` at 0 and its dictionary at 1. -/
def ClrHeap.sampleContainers : ClrHeap :=
  [.Array .ObjectArray [.String (utf16 "a"), .Int32 ⟨5, by decide⟩, .ref 1],
   .Dictionary .DictionaryOfStringObject [(.String (utf16 "k"), .nullptr)]]

/-- A host heap with one array holding the string "a", U+0000, "b". -/
def ClrHeap.sampleArrayNUL : ClrHeap :=
  [.Array .ObjectArray [.String [97, 0, 98]]]

/-- A host heap with one dictionary whose one key is `__proto__`, with the value 5. -/
def ClrHeap.sampleProtoKey : ClrHeap :=
  [.Dictionary .DictionaryOfStringObject [(.String (utf16 "__proto__"), .Int32 ⟨5, by decide⟩)]]

/-! ## Notions the properties are stated with -/

/-- A conversion step as the loops of `ConvertArrayFromV8` and `ConvertObjectFromV8` use it. -/
abbrev Converter := V8Value → FromV8State → Option (ClrObject × FromV8State)

/-- From `st` to `st'` the host heap only grew, the tracker kept what it had, and every cell
that existed at an address `a` with `keep a` is unchanged. -/
structure Frame (keep : Nat → Prop) (st st' : FromV8State) : Prop where
  length_le : st.heap.length ≤ st'.heap.length
  cells : ∀ a, a < st.heap.length → keep a → st'.heap[a]? = st.heap[a]?
  tracker : ∀ o, st.already_converted.GetConverted o ≠ .nullptr →
    st'.already_converted.GetConverted o = st.already_converted.GetConverted o

/-- The argument `Invoker` passes for a supplied value: the value itself when it is null or
of the parameter's type, its coercion otherwise. -/
def Invoker.argument (env : HostEnvironment) (heap : ClrHeap) (supplied : ClrObject)
    (parameter : ParameterInfo) : ClrObject :=
  if supplied = .nullptr then .nullptr
  else if GetType heap supplied = parameter.ParameterType then supplied
  else env.ConvertToType supplied parameter.ParameterType

/-- In the words of the spec: a supplied argument is accepted by a parameter when it is
null, of the parameter's type, or coercible to it. -/
def Accepts (env : HostEnvironment) (heap : ClrHeap) (ap : ClrObject × ParameterInfo) : Bool :=
  decide (ap.1 = .nullptr) || decide (GetType heap ap.1 = ap.2.ParameterType) ||
    decide (env.ConvertToType ap.1 ap.2.ParameterType ≠ .nullptr)

/-- In the words of the spec: a supplied argument matches a parameter exactly when it is not
null and of the parameter's type. -/
def ExactMatch (heap : ClrHeap) (ap : ClrObject × ParameterInfo) : Bool :=
  decide (ap.1 ≠ .nullptr) && decide (GetType heap ap.1 = ap.2.ParameterType)

/-- In the words of the spec: a candidate survives when its parameter count is at least the
number of supplied arguments and no supplied argument fails its coercion. -/
def Survives (env : HostEnvironment) (heap : ClrHeap) (suppliedArguments : List ClrObject)
    (method : MethodInfo) : Bool :=
  decide (suppliedArguments.length ≤ method.GetParameters.length) &&
    (suppliedArguments.zip method.GetParameters).all (Accepts env heap)

/-- In the words of the spec: the exact-match count of a candidate. -/
def ExactMatchCount (heap : ClrHeap) (suppliedArguments : List ClrObject)
    (method : MethodInfo) : Nat :=
  (suppliedArguments.zip method.GetParameters).countP (ExactMatch heap)

/-- What the search holds after the candidates `seen`: no method when none of them
survives; otherwise a surviving candidate with its exact-match count and argument array,
such that no surviving candidate seen has a higher count and, if a surviving candidate seen
with the same count has as many parameters as there are supplied arguments, so has the
method held. -/
def BestOf (env : HostEnvironment) (heap : ClrHeap) (suppliedArguments : List ClrObject)
    (seen : List MethodInfo) (best : BestMethod) : Prop :=
  match best.bestMethod with
  | none =>
    best.bestMethodMatchedArgs = -1 ∧
    ∀ m ∈ seen, Survives env heap suppliedArguments m = false
  | some method =>
    method ∈ seen ∧ Survives env heap suppliedArguments method = true ∧
    best.bestMethodMatchedArgs = (ExactMatchCount heap suppliedArguments method : Int) ∧
    best.bestMethodArguments
      = (Invoker.matchParameters env heap suppliedArguments method.GetParameters [] 0).arguments ∧
    (∀ m ∈ seen, Survives env heap suppliedArguments m = true →
      ExactMatchCount heap suppliedArguments m ≤ ExactMatchCount heap suppliedArguments method) ∧
    ((∃ m ∈ seen, Survives env heap suppliedArguments m = true ∧
        ExactMatchCount heap suppliedArguments m = ExactMatchCount heap suppliedArguments method ∧
        m.GetParameters.length = suppliedArguments.length) →
      method.GetParameters.length = suppliedArguments.length)

/-- The host objects `ConvertToV8` has no case of its own for, which it hands to
`WrapObject`: an instance that is neither converted as a keyed container (it does not
implement `IDictionary`, or its type declares instance fields) nor an exception, a
`JavascriptFunction`, and a reference the host heap has no cell for. -/
def WrapCase (heap : ClrHeap) : ClrObject → Bool
  | .ref a =>
    match heap[a]? with
    | some (.Instance o) =>
      (decide (o.declaredInstanceFields ≠ 0) || o.IDictionary.isNone) && o.Exception.isNone
    | some (.JavascriptFunction _) => true
    | some _ => false
    | none => true
  | _ => false

/-- The items `xs` of a container related one by one to `ys`, each pair on its own part of a
heap: the parts are adjacent and together make up the addresses from `lo` up to `hi`. -/
def Chain {α β : Type} (R : α → β → Nat → Nat → Prop) : List α → List β → Nat → Nat → Prop
  | [], [], lo, hi => lo = hi
  | x :: xs, y :: ys, lo, hi => ∃ mid, R x y lo mid ∧ Chain R xs ys mid hi
  | _, _, _, _ => False

/-- A conversion to the engine that only allocates: the engine heap grows and every object
that was there is unchanged. -/
def ToV8Framed (convert : ClrObject → V8Heap → Except InteropError (V8Value × V8Heap)) : Prop :=
  ∀ x h r h', convert x h = .ok (r, h') →
    h.length ≤ h'.length ∧ ∀ a, a < h.length → h'[a]? = h[a]?

/-- The entries of the keyed container at `a` as `ConvertToV8` converts them: those of a
generic dictionary, and those seen through `IDictionary` of an instance whose type declares
no instance fields. -/
def KeyedEntries (heap : ClrHeap) (a : Nat) : Option (List (ClrObject × ClrObject)) :=
  match heap[a]? with
  | some (.Dictionary _ entries) => some entries
  | some (.Instance o) => if o.declaredInstanceFields = 0 then o.IDictionary else none
  | _ => none

/-- The code units of a key that is a string. -/
def KeyString : ClrObject → SystemString
  | .String k => k
  | _ => []

/-- The keys of the entries are strings without U+0000 other than `__proto__`, no two of
them equal. -/
def CleanKeys (entries : List (ClrObject × ClrObject)) : Bool :=
  entries.all (fun e =>
    match e.1 with
    | .String k => decide (cstr k = k) && decide (k ≠ utf16 "__proto__")
    | _ => false) &&
  decide ((entries.map (fun e => e.1)).Nodup)

/-- Acyclic data of the round-trip law, nested at most `depth` deep: null, a boolean, a
32-bit integer, a string without U+0000, an array of such data, or a keyed container with
`CleanKeys` whose values are such data. -/
def PlainData (heap : ClrHeap) : Nat → ClrObject → Bool
  | 0, _ => false
  | _ + 1, .nullptr => true
  | _ + 1, .Boolean _ => true
  | _ + 1, .Int32 _ => true
  | _ + 1, .String s => decide (cstr s = s)
  | depth + 1, .ref a =>
    match heap[a]? with
    | some (.Array _ items) => items.all (PlainData heap depth)
    | _ =>
      match KeyedEntries heap a with
      | some entries => CleanKeys entries && entries.all (fun e => PlainData heap depth e.2)
      | none => false
  | _ + 1, _ => false

/-- In the words of the spec: `y` of `heap'` is structurally equal to `x` of `heap`. Values
that are not containers are equal; an array comes back as an array "of the same length with
equal elements at the same indices"; a keyed container comes back as a dictionary "with
exactly the same key set and equal values per key". -/
def SameData (heap heap' : ClrHeap) : Nat → ClrObject → ClrObject → Bool
  | 0, _, _ => false
  | depth + 1, .ref a, y =>
    match y with
    | .ref b =>
      match heap[a]?, heap'[b]? with
      | some (.Array _ items), some (.Array _ items') =>
        decide (items.length = items'.length) &&
          (items.zip items').all (fun p => SameData heap heap' depth p.1 p.2)
      | _, some (.Dictionary _ entries') =>
        match KeyedEntries heap a with
        | some entries =>
          entries.all (fun e =>
            match DictionaryGet entries' e.1 with
            | some y => SameData heap heap' depth e.2 y
            | none => false) &&
          entries'.all (fun e' => (DictionaryGet entries e'.1).isSome)
        | none => false
      | _, _ => false
    | _ => false
  | _ + 1, x, y => decide (x = y)

/-- The engine value `value` is what `ConvertToV8` makes of the plain data `x`, on the
objects at the addresses from `lo` up to `hi` of the engine heap: a container is a new
object at `lo` and its items follow, each on its own part. -/
def Image (heap : ClrHeap) (v8 : V8Heap) : Nat → ClrObject → V8Value → Nat → Nat → Prop
  | 0, _, _, _, _ => False
  | _ + 1, .nullptr, value, lo, hi => value = .Null ∧ hi = lo
  | _ + 1, .Boolean b, value, lo, hi => value = .Boolean b ∧ hi = lo
  | _ + 1, .Int32 i, value, lo, hi => value = Integer.New i.val ∧ hi = lo
  | _ + 1, .String s, value, lo, hi => value = .String s ∧ cstr s = s ∧ hi = lo
  | depth + 1, .ref a, value, lo, hi =>
    value = .Object lo ∧
    ((∃ t items vals, heap[a]? = some (.Array t items) ∧
        v8[lo]? = some (.Array (vals.map some)) ∧
        Chain (Image heap v8 depth) items vals (lo + 1) hi) ∨
     (∃ entries vals, KeyedEntries heap a = some entries ∧ CleanKeys entries = true ∧
        v8[lo]? = some (.Object none false
          (List.zipWith (fun e v => { name := KeyString e.1, value := v, enumerable := true })
            entries vals)) ∧
        Chain (Image heap v8 depth) (entries.map (fun e => e.2)) vals (lo + 1) hi))
  | _ + 1, _, _, _, _ => False

/-- The host object `y` is what `ConvertFromV8` makes of the image of the plain data `x`, on
the cells at the addresses from `lo` up to `hi` of the host heap `heap'`. -/
def Mirror (heap heap' : ClrHeap) : Nat → ClrObject → ClrObject → Nat → Nat → Prop
  | 0, _, _, _, _ => False
  | _ + 1, .nullptr, y, lo, hi => y = .nullptr ∧ hi = lo
  | _ + 1, .Boolean b, y, lo, hi => y = .Boolean b ∧ hi = lo
  | _ + 1, .Int32 i, y, lo, hi => y = .Int32 i ∧ hi = lo
  | _ + 1, .String s, y, lo, hi => y = .String s ∧ hi = lo
  | depth + 1, .ref a, y, lo, hi =>
    y = .ref lo ∧
    ((∃ t items ys, heap[a]? = some (.Array t items) ∧
        heap'[lo]? = some (.Array .ObjectArray ys) ∧
        Chain (Mirror heap heap' depth) items ys (lo + 1) hi) ∨
     (∃ entries ys, KeyedEntries heap a = some entries ∧ CleanKeys entries = true ∧
        heap'[lo]? = some (.Dictionary .DictionaryOfStringObject
          (List.zipWith (fun e y => (e.1, y)) entries ys)) ∧
        Chain (Mirror heap heap' depth) (entries.map (fun e => e.2)) ys (lo + 1) hi))
  | _ + 1, _, _, _, _ => False

/-- A converter that turns every image of plain data of depth `depth` into its mirror: for
an image on the engine objects from `lo` up to `hi`, none of which the tracker knows, it
returns a host object that mirrors the data on the cells it allocates, leaves the cells that
existed as they were, and changes the tracker between `lo` and `hi` only. -/
def Converter.Mirrors (heap : ClrHeap) (v8 : V8Heap) (depth : Nat) (convert : Converter) :
    Prop :=
  ∀ (x : ClrObject) (value : V8Value) (lo hi : Nat) (st : FromV8State),
    Image heap v8 depth x value lo hi →
    (∀ a, lo ≤ a → a < hi → st.already_converted.GetConverted a = .nullptr) →
    ∃ y st', convert value st = some (y, st') ∧
      Mirror heap st'.heap depth x y st.heap.length st'.heap.length ∧
      (∀ a, a < st.heap.length → st'.heap[a]? = st.heap[a]?) ∧
      (∀ a, (a < lo ∨ hi ≤ a) →
        st'.already_converted.GetConverted a = st.already_converted.GetConverted a)

/-! # Properties -/

/-! ## Numbers and strings -/

theorem highBit_spec (fuel n : Nat) (h1 : 0 < n) (h2 : n < 2 ^ fuel) :
    2 ^ highBit fuel n ≤ n ∧ n < 2 ^ (highBit fuel n + 1) := by
  induction fuel generalizing n with
  | zero => simp at h2; omega
  | succ f ih =>
    unfold highBit
    split
    · constructor <;> simp <;> omega
    · have h3 : 0 < n / 2 := by omega
      have h4 : n / 2 < 2 ^ f := by
        rw [pow_succ] at h2; omega
      obtain ⟨a, b⟩ := ih (n / 2) h3 h4
      constructor
      · rw [pow_succ]; omega
      · rw [pow_succ]; omega


theorem toInt?_ofNat_aux (n : Nat) (s : Bool) (h1 : 0 < n) (h2 : n ≤ 2147483648) :
    (Double.ofFields s (1023 + highBit 64 n) (n * 2 ^ (52 - highBit 64 n) - 2 ^ 52)).toInt?
      = some (if s then - Int.ofNat n else Int.ofNat n) := by
  obtain ⟨hlo, hhi⟩ := highBit_spec 64 n h1 (by omega)
  set k := highBit 64 n with hk
  have hk31 : k ≤ 31 := by
    by_contra hcon
    have : 2 ^ 32 ≤ 2 ^ k := Nat.pow_le_pow_right (by decide) (by omega)
    omega
  have hpq : 2 ^ (52 - k) * 2 ^ k = 2 ^ 52 := by
    rw [← pow_add]; congr 1; omega
  have hp : 0 < 2 ^ (52 - k) := Nat.two_pow_pos _
  have hge : 2 ^ 52 ≤ n * 2 ^ (52 - k) := by
    calc 2 ^ 52 = 2 ^ k * 2 ^ (52 - k) := by rw [← hpq, Nat.mul_comm]
      _ ≤ n * 2 ^ (52 - k) := Nat.mul_le_mul_right _ hlo
  have hlt : n * 2 ^ (52 - k) < 2 ^ 53 := by
    calc n * 2 ^ (52 - k) < 2 ^ (k + 1) * 2 ^ (52 - k) := Nat.mul_lt_mul_of_pos_right hhi hp
      _ = 2 ^ 53 := by rw [← pow_add]; congr 1; omega
  have hfrac : (n * 2 ^ (52 - k) - 2 ^ 52) % 4503599627370496 = n * 2 ^ (52 - k) - 2 ^ 52 := by
    apply Nat.mod_eq_of_lt
    have : (2:Nat) ^ 53 = 2 ^ 52 + 4503599627370496 := by norm_num
    omega
  have hexp : (1023 + k) % 2048 = 1023 + k := Nat.mod_eq_of_lt (by omega)
  have hm : 2 ^ 52 + (n * 2 ^ (52 - k) - 2 ^ 52) = n * 2 ^ (52 - k) := by omega
  have hsh : 1075 - (1023 + k) = 52 - k := by omega
  simp only [Double.toInt?, Double.ofFields, hfrac, hexp, hm, hsh]
  have e1 : ¬ (1023 + k = 0) := by omega
  have e2 : ¬ (1023 + k = 2047) := by omega
  have e3 : ¬ (1075 ≤ 1023 + k) := by omega
  simp only [e1, e2, e3, if_false, Nat.mul_mod_left, if_true, Nat.mul_div_cancel _ hp, Option.map_some']

theorem toInt?_ofInt (i : Int) (h : -2147483648 ≤ i ∧ i ≤ 2147483647) :
    (Double.ofInt i).toInt? = some i := by
  unfold Double.ofInt
  by_cases h0 : i.natAbs = 0
  · have : i = 0 := Int.natAbs_eq_zero.mp h0
    subst this
    decide
  · simp only [h0, if_false]
    have hpos : 0 < i.natAbs := Nat.pos_of_ne_zero h0
    have hle : i.natAbs ≤ 2147483648 := by omega
    obtain ⟨hlo, hhi⟩ := highBit_spec 64 i.natAbs hpos (by omega)
    have hk : highBit 64 i.natAbs ≤ 52 := by
      by_contra hcon
      have : 2 ^ 32 ≤ 2 ^ highBit 64 i.natAbs := Nat.pow_le_pow_right (by decide) (by omega)
      omega
    simp only [hk, if_true]
    rw [toInt?_ofNat_aux i.natAbs _ hpos hle]
    by_cases hneg : i < 0
    · simp only [hneg, decide_True, if_true, Int.ofNat_eq_coe]; congr 1; omega
    · simp only [hneg, decide_False, Int.ofNat_eq_coe]; simp; omega

theorem toInt32?_ofInt (i : Int32) : (Double.ofInt i.val).toInt32? = some i := by
  unfold Double.toInt32?
  rw [toInt?_ofInt i.val i.property]
  simp [i.property]

theorem cstr_cstr (s : SystemString) : cstr (cstr s) = cstr s := by
  unfold cstr
  rw [List.takeWhile_eq_self_iff]
  intro c hc
  exact List.mem_takeWhile_imp (p := fun c => decide (c ≠ 0)) hc

theorem cstr_eq_self (s : SystemString) (h : (0 : CodeUnit) ∉ s) : cstr s = s := by
  unfold cstr
  rw [List.takeWhile_eq_self_iff]
  intro c hc
  have : c ≠ 0 := fun e => h (e ▸ hc)
  simpa using this

theorem toInt32?_of_isNaN (d : Double) (h : d.isNaN = true) : d.toInt32? = none := by
  have he : d.exponent.val = 2047 := by
    simp [Double.isNaN] at h; exact h.1
  simp [Double.toInt32?, Double.toInt?, he]

/-- C1 (amended). Round trip of primitives through `ConvertToV8` and `ConvertFromV8`, for
any fuel of at least 1: a host boolean and a host 32-bit integer come back as the same value
of the same type; a host double that is not an exact integer of the 32-bit range (minus zero
is not one) comes back as the same double, a NaN as a NaN; and a host
double that is an exact integer of the 32-bit range comes back as the host 32-bit integer of
that value, not as a double. -/
theorem RoundTrip_primitive (env : HostEnvironment) (context : Option JavascriptContext)
    (fuel : Nat) (heap : ClrHeap) (v8 : V8Heap) :
    (∀ b : Bool,
      RoundTrip env context (fuel + 1) (.Boolean b) heap v8 = some (.Boolean b, heap)) ∧
    (∀ i : Int32,
      RoundTrip env context (fuel + 1) (.Int32 i) heap v8 = some (.Int32 i, heap)) ∧
    (∀ d : Double, d.toInt32? = none → d.isNaN = false →
      RoundTrip env context (fuel + 1) (.Double d) heap v8 = some (.Double d, heap)) ∧
    (∀ d : Double, d.isNaN = true →
      ∃ d' : Double, d'.isNaN = true ∧
        RoundTrip env context (fuel + 1) (.Double d) heap v8 = some (.Double d', heap)) ∧
    (∀ (d : Double) (i : Int32), d.toInt32? = some i →
      RoundTrip env context (fuel + 1) (.Double d) heap v8 = some (.Int32 i, heap)) := by
  refine ⟨?_, ?_, ?_, ?_, ?_⟩
  · intro b
    simp [RoundTrip, ConvertToV8, ConvertFromV8, ConvertFromV8With]
  · intro i
    simp [RoundTrip, ConvertToV8, ConvertFromV8, ConvertFromV8With, Integer.New,
      toInt32?_ofInt]
  · intro d h1 h2
    simp [RoundTrip, ConvertToV8, ConvertFromV8, ConvertFromV8With, Number.New, h1, h2]
  · intro d h
    have hq : Double.quietNaN.toInt32? = none := by decide
    refine ⟨Double.quietNaN, by decide, ?_⟩
    simp [RoundTrip, ConvertToV8, ConvertFromV8, ConvertFromV8With, Number.New, h, hq]
  · intro d i h
    have hn : d.isNaN = false := by
      by_contra hc
      rw [toInt32?_of_isNaN d (by simpa using hc)] at h
      exact Option.noConfusion h
    simp [RoundTrip, ConvertToV8, ConvertFromV8, ConvertFromV8With, Number.New, h, hn]

/-- The double 0.5 comes back as the double 0.5. -/
theorem RoundTrip_primitive_witness :
    RoundTrip HostEnvironment.sample none 1 (.Double (Double.ofFields false 1022 0)) [] []
      = some (.Double (Double.ofFields false 1022 0), []) :=
  (RoundTrip_primitive HostEnvironment.sample none 0 [] []).2.2.1
    (Double.ofFields false 1022 0) (by decide) (by decide)

/-- C1, counterexample: the host double 1.0 comes back as the host 32-bit integer 1, which is
not the double 1.0. -/
theorem RoundTrip_double_one :
    RoundTrip HostEnvironment.sample none 1 (.Double Double.one) [] []
      = some (.Int32 ⟨1, by decide⟩, []) ∧
    RoundTrip HostEnvironment.sample none 1 (.Double Double.one) [] []
      ≠ some (.Double Double.one, []) := by
  decide

/-- C2 (amended). Round trip of strings, for any fuel of at least 1: a host string comes
back as the host string of its code units before the first U+0000; hence a string without
U+0000 (the empty string included) comes back with exactly its code units. -/
theorem RoundTrip_string (env : HostEnvironment) (context : Option JavascriptContext)
    (fuel : Nat) (heap : ClrHeap) (v8 : V8Heap) (s : SystemString) :
    RoundTrip env context (fuel + 1) (.String s) heap v8
      = some (.String (s.takeWhile (fun c => decide (c ≠ 0))), heap) ∧
    ((0 : CodeUnit) ∉ s →
      RoundTrip env context (fuel + 1) (.String s) heap v8 = some (.String s, heap)) := by
  have h : RoundTrip env context (fuel + 1) (.String s) heap v8
      = some (.String (cstr s), heap) := by
    simp [RoundTrip, ConvertToV8, ConvertFromV8, ConvertFromV8With, String.NewFromTwoByte,
      cstr_cstr]
  refine ⟨h, ?_⟩
  intro h0
  rw [h, cstr_eq_self s h0]

/-- The string "ab" comes back as "ab". -/
theorem RoundTrip_string_witness :
    RoundTrip HostEnvironment.sample none 1 (.String (utf16 "ab")) [] []
      = some (.String (utf16 "ab"), []) :=
  (RoundTrip_string HostEnvironment.sample none 0 [] [] (utf16 "ab")).2 (by decide)

/-- C2, counterexample: the host string "a", U+0000, "b" comes back as "a". -/
theorem RoundTrip_string_with_NUL :
    RoundTrip HostEnvironment.sample none 1 (.String [97, 0, 98]) [] []
      = some (.String [97], []) ∧
    RoundTrip HostEnvironment.sample none 1 (.String [97, 0, 98]) [] []
      ≠ some (.String [97, 0, 98], []) := by
  decide


/-! ## Conversion from the engine: frames, fuel and termination -/

theorem find?_assocSet_of_ne {α β : Type} [DecidableEq α] (l : List (α × β)) (k k' : α) (v : β)
    (h : k' ≠ k) :
    (if l.any (fun e => decide (e.1 = k)) then l.map (fun e => if e.1 = k then (k, v) else e)
      else l ++ [(k, v)]).find? (fun e => decide (e.1 = k'))
      = l.find? (fun e => decide (e.1 = k')) := by
  have hmap : (l.map (fun e => if e.1 = k then (k, v) else e)).find? (fun e => decide (e.1 = k'))
      = l.find? (fun e => decide (e.1 = k')) := by
    induction l with
    | nil => rfl
    | cons e l ih =>
      obtain ⟨a, b⟩ := e
      by_cases he : a = k
      · have hk : ¬ (k = k') := fun h' => h h'.symm
        subst he
        simp [List.find?_cons, hk, ih]
      · by_cases he' : a = k'
        · subst he'
          simp [List.find?_cons, h]
        · simp [List.find?_cons, he, he', ih]
  have happ : (l ++ [(k, v)]).find? (fun e => decide (e.1 = k'))
      = l.find? (fun e => decide (e.1 = k')) := by
    have hk : ¬ (k = k') := fun h' => h h'.symm
    rw [List.find?_append]
    simp [List.find?_cons, hk]
  split
  · exact hmap
  · exact happ

theorem GetConverted_AddConverted_of_ne (t : ConvertedObjects) (o o' : Nat) (c : ClrObject)
    (h : o' ≠ o) : (t.AddConverted o c).GetConverted o' = t.GetConverted o' := by
  unfold ConvertedObjects.GetConverted ConvertedObjects.AddConverted
  simp only [find?_assocSet_of_ne _ _ _ _ h]

theorem SetValue_length (heap : ClrHeap) (results i : Nat) (v : ClrObject) :
    (heap.SetValue results i v).length = heap.length := by
  unfold ClrHeap.SetValue
  split <;> simp

theorem SetValue_getElem?_of_ne (heap : ClrHeap) (results i : Nat) (v : ClrObject) (a : Nat)
    (h : a ≠ results) : (heap.SetValue results i v)[a]? = heap[a]? := by
  unfold ClrHeap.SetValue
  split
  · rw [List.getElem?_set_ne (Ne.symm h)]
  · rfl

theorem SetValue_getElem?_self (heap : ClrHeap) (results i : Nat) (v : ClrObject)
    (t : SystemType) (items : List ClrObject) (h : heap[results]? = some (.Array t items)) :
    (heap.SetValue results i v)[results]? = some (.Array t (items.set i v)) := by
  unfold ClrHeap.SetValue
  rw [h]
  have hlt : results < heap.length := by
    by_contra hc
    rw [List.getElem?_eq_none (by omega)] at h
    exact Option.noConfusion h
  simp [List.getElem?_set_self, hlt]

theorem SetItem_length (heap : ClrHeap) (results : Nat) (k v : ClrObject) :
    (heap.SetItem results k v).length = heap.length := by
  unfold ClrHeap.SetItem
  split <;> simp

theorem SetItem_getElem?_of_ne (heap : ClrHeap) (results : Nat) (k v : ClrObject) (a : Nat)
    (h : a ≠ results) : (heap.SetItem results k v)[a]? = heap[a]? := by
  unfold ClrHeap.SetItem
  split
  · rw [List.getElem?_set_ne (Ne.symm h)]
  · rfl

theorem SetItem_getElem?_self (heap : ClrHeap) (results : Nat) (k v : ClrObject)
    (t : SystemType) (entries : List (ClrObject × ClrObject))
    (h : heap[results]? = some (.Dictionary t entries)) :
    (heap.SetItem results k v)[results]? = some (.Dictionary t (DictionarySet entries k v)) := by
  unfold ClrHeap.SetItem
  rw [h]
  have hlt : results < heap.length := by
    by_contra hc
    rw [List.getElem?_eq_none (by omega)] at h
    exact Option.noConfusion h
  simp [List.getElem?_set_self, hlt]

theorem Frame.trans {keep : Nat → Prop} {a b c : FromV8State} (h1 : Frame keep a b)
    (h2 : Frame keep b c) : Frame keep a c := by
  refine ⟨Nat.le_trans h1.length_le h2.length_le, ?_, ?_⟩
  · intro x hx hk
    rw [h2.cells x (Nat.lt_of_lt_of_le hx h1.length_le) hk, h1.cells x hx hk]
  · intro o ho
    have e1 := h1.tracker o ho
    rw [h2.tracker o (by rw [e1]; exact ho), e1]

theorem alloc_getElem?_self (heap : ClrHeap) (cell : ClrCell) :
    (heap ++ [cell])[heap.length]? = some cell := by
  simp

theorem lt_length_of_getElem? {α : Type} (l : List α) (a : Nat) (x : α) (h : l[a]? = some x) :
    a < l.length := by
  by_contra hc
  rw [List.getElem?_eq_none (by omega)] at h
  exact Option.noConfusion h

theorem ConvertArrayFromV8_loop_none (convert : Converter) (object : List (Option V8Value))
    (results i : Nat) (hnone : ∀ s, convert (V8Array.Get object i) s = none) :
    ∀ (idxs : List Nat) (st : FromV8State), i ∈ idxs →
      ConvertArrayFromV8.loop convert object results idxs st = none := by
  intro idxs
  induction idxs with
  | nil => intro _ hi; exact absurd hi (List.not_mem_nil _)
  | cons j rest ih =>
    intro st hi
    simp only [ConvertArrayFromV8.loop]
    cases hc : convert (V8Array.Get object j) st with
    | none => rfl
    | some x =>
      obtain ⟨value, st1⟩ := x
      simp only
      rcases List.mem_cons.mp hi with e | e
      · subst e
        rw [hnone st] at hc
        exact Option.noConfusion hc
      · exact ih _ e

theorem ConvertFromV8With_array_of_self (env : HostEnvironment) (v8 : V8Heap) (a : Nat)
    (elements : List (Option V8Value)) (i : Nat) (ha : v8[a]? = some (.Array elements))
    (hi : elements[i]? = some (some (V8Value.Object a))) :
    ∀ (fuel : Nat) (st : FromV8State), ConvertFromV8With env v8 fuel (.Object a) st = none := by
  intro fuel
  induction fuel with
  | zero => intro st; rfl
  | succ f ih =>
    intro st
    have hget : V8Array.Get elements i = .Object a := by simp [V8Array.Get, hi]
    have hlt : i < elements.length := lt_length_of_getElem? _ _ _ hi
    simp only [ConvertFromV8With, ha, ConvertArrayFromV8, ClrHeap.alloc]
    rw [ConvertArrayFromV8_loop_none (ConvertFromV8With env v8 f) elements st.heap.length i
      (by rw [hget]; exact ih) _ _ (List.mem_range.mpr hlt)]

/-- C4, at the failing input. For the array that holds itself (`a = [a]`) the conversion
returns no result, whatever the fuel, the host environment and the host heap: the array is
never looked up in the tracker, so each level of the recursion allocates a new host array
and descends again. The same holds for every engine array that has itself among its
elements. And an engine array that occurs twice in one conversion (`o = {x: b, y: b}`)
comes back as two host arrays, at the addresses 1 and 2. -/
theorem ConvertFromV8_arrayOfSelf :
    (∀ (env : HostEnvironment) (fuel : Nat) (heap : ClrHeap),
      ConvertFromV8 env V8Heap.arrayOfSelf fuel (.Object 0) heap = none) ∧
    (∀ (env : HostEnvironment) (v8 : V8Heap) (a : Nat) (elements : List (Option V8Value))
      (i : Nat), v8[a]? = some (.Array elements) →
      elements[i]? = some (some (V8Value.Object a)) →
      ∀ (fuel : Nat) (heap : ClrHeap), ConvertFromV8 env v8 fuel (.Object a) heap = none) ∧
    ConvertFromV8 HostEnvironment.sample V8Heap.sharedArray 3 (.Object 0) []
      = some (.ref 0,
          [.Dictionary .DictionaryOfStringObject
              [(.String (utf16 "x"), .ref 1), (.String (utf16 "y"), .ref 2)],
           .Array .ObjectArray [], .Array .ObjectArray []]) := by
  refine ⟨?_, ?_, by decide⟩
  · intro env fuel heap
    simp only [ConvertFromV8,
      ConvertFromV8With_array_of_self env V8Heap.arrayOfSelf 0 [some (.Object 0)] 0 rfl rfl]
  · intro env v8 a elements i ha hi fuel heap
    simp only [ConvertFromV8, ConvertFromV8With_array_of_self env v8 a elements i ha hi]

/-! ## Overload resolution -/

theorem Invoker.matchParameters_failed (env : HostEnvironment) (heap : ClrHeap) :
    ∀ (supplied : List ClrObject) (parametersInfo : List ParameterInfo)
      (done : List ClrObject) (matched : Nat),
      (Invoker.matchParameters env heap supplied parametersInfo done matched).failed = 0 ↔
        (supplied.zip parametersInfo).all (Accepts env heap) = true := by
  intro supplied
  induction supplied with
  | nil => intro ps done m; simp [Invoker.matchParameters]
  | cons a as ih =>
    intro ps done m
    cases ps with
    | nil => simp [Invoker.matchParameters]
    | cons p ps =>
      simp only [Invoker.matchParameters, List.zip_cons_cons, List.all_cons]
      by_cases ha : a = .nullptr
      · simp [ha, Accepts, ih]
      · by_cases ht : GetType heap a = p.ParameterType
        · simp [ha, ht, Accepts, ih]
        · by_cases hc : env.ConvertToType a p.ParameterType = .nullptr
          · simp [ha, ht, hc, Accepts]
          · simp [ha, ht, hc, Accepts, ih]

theorem Invoker.matchParameters_matched (env : HostEnvironment) (heap : ClrHeap) :
    ∀ (supplied : List ClrObject) (parametersInfo : List ParameterInfo)
      (done : List ClrObject) (matched : Nat),
      (Invoker.matchParameters env heap supplied parametersInfo done matched).failed = 0 →
      (Invoker.matchParameters env heap supplied parametersInfo done matched).matched
        = matched + (supplied.zip parametersInfo).countP (ExactMatch heap) := by
  intro supplied
  induction supplied with
  | nil => intro ps done m _; simp [Invoker.matchParameters]
  | cons a as ih =>
    intro ps done m
    cases ps with
    | nil => simp [Invoker.matchParameters]
    | cons p ps =>
      simp only [Invoker.matchParameters, List.zip_cons_cons, List.countP_cons]
      by_cases ha : a = .nullptr
      · simp only [ha, ne_eq, not_true_eq_false, if_false]
        intro hf
        rw [ih _ _ _ hf]
        simp [ExactMatch]
      · by_cases ht : GetType heap a = p.ParameterType
        · simp only [ha, ne_eq, not_false_eq_true, if_true, ht]
          intro hf
          rw [ih _ _ _ hf]
          simp [ExactMatch, ha, ht]
          omega
        · by_cases hc : env.ConvertToType a p.ParameterType = .nullptr
          · simp [ha, ht, hc]
          · simp only [ha, ne_eq, not_false_eq_true, if_true, ht, if_false, hc]
            intro hf
            rw [ih _ _ _ hf]
            simp [ExactMatch, ha, ht]

theorem Invoker.matchParameters_arguments (env : HostEnvironment) (heap : ClrHeap) :
    ∀ (supplied : List ClrObject) (parametersInfo : List ParameterInfo)
      (done : List ClrObject) (matched : Nat),
      supplied.length ≤ parametersInfo.length →
      (Invoker.matchParameters env heap supplied parametersInfo done matched).failed = 0 →
      (Invoker.matchParameters env heap supplied parametersInfo done matched).arguments
        = done ++ (supplied.zip parametersInfo).map
            (fun ap => Invoker.argument env heap ap.1 ap.2)
          ++ List.replicate (parametersInfo.length - supplied.length) .nullptr := by
  intro supplied
  induction supplied with
  | nil =>
    intro ps done m _ _
    simp [Invoker.matchParameters, List.map_const']
  | cons a as ih =>
    intro ps done m hlen
    cases ps with
    | nil => simp at hlen
    | cons p ps =>
      have hlen' : as.length ≤ ps.length := by simpa using hlen
      simp only [Invoker.matchParameters, List.zip_cons_cons, List.map_cons, List.length_cons]
      by_cases ha : a = .nullptr
      · simp only [ha, ne_eq, not_true_eq_false, if_false]
        intro hf
        rw [ih _ _ _ hlen' hf]
        simp [Invoker.argument]
      · by_cases ht : GetType heap a = p.ParameterType
        · simp only [ha, ne_eq, not_false_eq_true, if_true, ht]
          intro hf
          rw [ih _ _ _ hlen' hf]
          simp [Invoker.argument, ha, ht]
        · by_cases hc : env.ConvertToType a p.ParameterType = .nullptr
          · simp [ha, ht, hc]
          · simp only [ha, ne_eq, not_false_eq_true, if_true, ht, if_false, hc]
            intro hf
            rw [ih _ _ _ hlen' hf]
            simp [Invoker.argument, ha, ht]

theorem BestOf_initial (env : HostEnvironment) (heap : ClrHeap) (supplied : List ClrObject) :
    BestOf env heap supplied [] BestMethod.initial := by
  simp [BestOf, BestMethod.initial]

theorem Survives_iff (env : HostEnvironment) (heap : ClrHeap) (supplied : List ClrObject)
    (method : MethodInfo) :
    Survives env heap supplied method = true ↔
      supplied.length ≤ method.GetParameters.length ∧
      (Invoker.matchParameters env heap supplied method.GetParameters [] 0).failed = 0 := by
  simp [Survives, Invoker.matchParameters_failed]

theorem BestOf_mono_none (env : HostEnvironment) (heap : ClrHeap) (supplied : List ClrObject)
    (seen : List MethodInfo) (best : BestMethod) (method : MethodInfo)
    (h : BestOf env heap supplied seen best)
    (hs : Survives env heap supplied method = false) :
    BestOf env heap supplied (seen ++ [method]) best := by
  unfold BestOf at h ⊢
  cases hb : best.bestMethod with
  | none =>
    simp only [hb] at h ⊢
    refine ⟨h.1, ?_⟩
    intro m hm
    rcases List.mem_append.mp hm with h' | h'
    · exact h.2 m h'
    · simp at h'; subst h'; exact hs
  | some b =>
    simp only [hb] at h ⊢
    obtain ⟨h1, h2, h3, h4, h5, h6⟩ := h
    refine ⟨List.mem_append_left _ h1, h2, h3, h4, ?_, ?_⟩
    · intro m hm hsm
      rcases List.mem_append.mp hm with h' | h'
      · exact h5 m h' hsm
      · simp at h'; subst h'; rw [hs] at hsm; exact absurd hsm (by decide)
    · rintro ⟨m, hm, hsm, he, hl⟩
      rcases List.mem_append.mp hm with h' | h'
      · exact h6 ⟨m, h', hsm, he, hl⟩
      · simp at h'; subst h'; rw [hs] at hsm; exact absurd hsm (by decide)


theorem BestOf_replace (env : HostEnvironment) (heap : ClrHeap) (supplied : List ClrObject)
    (seen : List MethodInfo) (best : BestMethod) (method : MethodInfo)
    (h : BestOf env heap supplied seen best)
    (hs : Survives env heap supplied method = true)
    (hle : best.bestMethodMatchedArgs ≤ (ExactMatchCount heap supplied method : Int))
    (htie : best.bestMethodMatchedArgs = (ExactMatchCount heap supplied method : Int) →
      method.GetParameters.length = supplied.length) :
    BestOf env heap supplied (seen ++ [method])
      { bestMethod := some method
        bestMethodArguments :=
          (Invoker.matchParameters env heap supplied method.GetParameters [] 0).arguments
        bestMethodMatchedArgs := (ExactMatchCount heap supplied method : Int) } := by
  unfold BestOf at h ⊢
  simp only
  refine ⟨by simp, hs, trivial, trivial, ?_, ?_⟩
  · intro m hm hsm
    rcases List.mem_append.mp hm with h' | h'
    · cases hb : best.bestMethod with
      | none =>
        simp only [hb] at h
        rw [h.2 m h'] at hsm
        exact absurd hsm (by decide)
      | some b =>
        simp only [hb] at h
        have := h.2.2.2.2.1 m h' hsm
        have h3 := h.2.2.1
        omega
    · simp at h'; subst h'; exact Nat.le_refl _
  · rintro ⟨m, hm, hsm, he, hl⟩
    rcases List.mem_append.mp hm with h' | h'
    · cases hb : best.bestMethod with
      | none =>
        simp only [hb] at h
        rw [h.2 m h'] at hsm
        exact absurd hsm (by decide)
      | some b =>
        simp only [hb] at h
        have := h.2.2.2.2.1 m h' hsm
        have h3 := h.2.2.1
        exact htie (by omega)
    · simp at h'; subst h'; exact hl

theorem BestOf_keep (env : HostEnvironment) (heap : ClrHeap) (supplied : List ClrObject)
    (seen : List MethodInfo) (best : BestMethod) (method : MethodInfo)
    (h : BestOf env heap supplied seen best)
    (hle : (ExactMatchCount heap supplied method : Int) ≤ best.bestMethodMatchedArgs)
    (htie : (ExactMatchCount heap supplied method : Int) = best.bestMethodMatchedArgs →
      method.GetParameters.length ≠ supplied.length) :
    BestOf env heap supplied (seen ++ [method]) best := by
  unfold BestOf at h ⊢
  cases hb : best.bestMethod with
  | none =>
    simp only [hb] at h
    have := h.1
    omega
  | some b =>
    simp only [hb] at h ⊢
    obtain ⟨h1, h2, h3, h4, h5, h6⟩ := h
    refine ⟨List.mem_append_left _ h1, h2, h3, h4, ?_, ?_⟩
    · intro m hm hsm
      rcases List.mem_append.mp hm with h' | h'
      · exact h5 m h' hsm
      · simp at h'; subst h'; omega
    · rintro ⟨m, hm, hsm, he, hl⟩
      rcases List.mem_append.mp hm with h' | h'
      · exact h6 ⟨m, h', hsm, he, hl⟩
      · simp at h'; subst h'
        exact absurd hl (htie (by omega))

theorem Invoker.lookForBestMethod_bestOf (env : HostEnvironment) (heap : ClrHeap)
    (supplied : List ClrObject) :
    ∀ (rest seen : List MethodInfo) (best : BestMethod),
      BestOf env heap supplied seen best →
      BestOf env heap supplied (seen ++ rest)
        (Invoker.lookForBestMethod env heap supplied rest best) := by
  intro rest
  induction rest with
  | nil => intro seen best h; simpa [Invoker.lookForBestMethod] using h
  | cons method rest ih =>
    intro seen best h
    have happ : seen ++ method :: rest = (seen ++ [method]) ++ rest := by simp
    rw [happ]
    unfold Invoker.lookForBestMethod
    by_cases hlen : supplied.length ≤ method.GetParameters.length
    · simp only [hlen, if_true]
      by_cases hf : 0 < (Invoker.matchParameters env heap supplied method.GetParameters [] 0).failed
      · simp only [hf, if_true]
        apply ih
        apply BestOf_mono_none _ _ _ _ _ _ h
        rw [Bool.eq_false_iff]
        intro hs
        have := ((Survives_iff env heap supplied method).mp hs).2
        omega
      · simp only [hf, if_false]
        have hf0 : (Invoker.matchParameters env heap supplied method.GetParameters [] 0).failed
            = 0 := by omega
        have hs : Survives env heap supplied method = true :=
          (Survives_iff env heap supplied method).mpr ⟨hlen, hf0⟩
        have hm : (Invoker.matchParameters env heap supplied method.GetParameters [] 0).matched
            = ExactMatchCount heap supplied method := by
          rw [Invoker.matchParameters_matched env heap _ _ _ _ hf0]
          simp [ExactMatchCount]
        rw [hm]
        by_cases hgt : best.bestMethodMatchedArgs < (ExactMatchCount heap supplied method : Int)
        · simp only [hgt, if_true]
          apply ih
          exact BestOf_replace env heap supplied seen best method h hs (by omega)
            (fun e => by omega)
        · simp only [hgt, if_false]
          by_cases heq : (ExactMatchCount heap supplied method : Int) = best.bestMethodMatchedArgs
          · simp only [heq, if_true]
            by_cases hn : supplied.length = method.GetParameters.length
            · simp only [hn, if_true]
              apply ih
              have := BestOf_replace env heap supplied seen best method h hs (by omega)
                (fun _ => hn.symm)
              rw [heq] at this
              exact this
            · simp only [hn, if_false]
              apply ih
              exact BestOf_keep env heap supplied seen best method h (by omega)
                (fun _ e => hn e.symm)
          · simp only [heq, if_false]
            apply ih
            exact BestOf_keep env heap supplied seen best method h (by omega)
              (fun e => absurd e heq)
    · simp only [hlen, if_false]
      apply ih
      apply BestOf_mono_none _ _ _ _ _ _ h
      rw [Bool.eq_false_iff]
      intro hs
      exact hlen ((Survives_iff env heap supplied method).mp hs).1


theorem Invoker.castMembers_methods (methods : List MethodInfo) :
    Invoker.castMembers (methods.map MemberInfo.Method) = some methods := by
  induction methods with
  | nil => rfl
  | cons m ms ih => simp [Invoker.castMembers, MemberInfo.asMethod, ih]

theorem Invoker.resolve_methods (env : HostEnvironment) (v8 : V8Heap) (fuel : Nat)
    (methods : List MethodInfo) (iArgs : List V8Value) (heap : ClrHeap)
    (supplied : List ClrObject) (st : FromV8State) (hne : methods ≠ [])
    (hconv : ConvertArguments (ConvertFromV8With env v8 fuel) iArgs
      { heap := heap, already_converted := ConvertedObjects.new } = some (supplied, st)) :
    Invoker.resolve env v8 fuel (methods.map MemberInfo.Method) iArgs heap
      = .ok (Invoker.lookForBestMethod env st.heap supplied methods BestMethod.initial,
          st.heap) := by
  cases methods with
  | nil => exact absurd rfl hne
  | cons m ms =>
    have hm := Invoker.castMembers_methods (m :: ms)
    simp only [List.map_cons] at hm
    simp only [Invoker.resolve, List.map_cons, hconv, hm]

/-- C6. Best-candidate rule. When the supplied arguments convert to `suppliedArguments` and
at least one overload survives, the search of `Invoker` ends with a method that is one of
the overloads, survives, has an exact-match count at least that of every surviving overload,
and has as many parameters as there are supplied arguments whenever some surviving overload
with that same exact-match count has. -/
theorem Invoker_selects_best_candidate (env : HostEnvironment) (v8 : V8Heap) (fuel : Nat)
    (methods : List MethodInfo) (iArgs : List V8Value) (heap : ClrHeap)
    (suppliedArguments : List ClrObject) (st : FromV8State)
    (hconv : ConvertArguments (ConvertFromV8With env v8 fuel) iArgs
      { heap := heap, already_converted := ConvertedObjects.new }
      = some (suppliedArguments, st))
    (hsurvivor : ∃ m ∈ methods, Survives env st.heap suppliedArguments m = true) :
    ∃ (best : BestMethod) (method : MethodInfo),
      Invoker.resolve env v8 fuel (methods.map MemberInfo.Method) iArgs heap
        = .ok (best, st.heap) ∧
      best.bestMethod = some method ∧ method ∈ methods ∧
      Survives env st.heap suppliedArguments method = true ∧
      (∀ m ∈ methods, Survives env st.heap suppliedArguments m = true →
        ExactMatchCount st.heap suppliedArguments m
          ≤ ExactMatchCount st.heap suppliedArguments method) ∧
      ((∃ m ∈ methods, Survives env st.heap suppliedArguments m = true ∧
          ExactMatchCount st.heap suppliedArguments m
            = ExactMatchCount st.heap suppliedArguments method ∧
          m.GetParameters.length = suppliedArguments.length) →
        method.GetParameters.length = suppliedArguments.length) := by
  have hne : methods ≠ [] := by
    obtain ⟨m, hm, _⟩ := hsurvivor
    exact List.ne_nil_of_mem hm
  have hb := Invoker.lookForBestMethod_bestOf env st.heap suppliedArguments methods []
    BestMethod.initial (BestOf_initial env st.heap suppliedArguments)
  simp only [List.nil_append] at hb
  have hres := Invoker.resolve_methods env v8 fuel methods iArgs heap suppliedArguments st
    hne hconv
  generalize Invoker.lookForBestMethod env st.heap suppliedArguments methods
    BestMethod.initial = final at hb hres
  unfold BestOf at hb
  cases hbm : final.bestMethod with
  | none =>
    simp only [hbm] at hb
    obtain ⟨m, hm, hs⟩ := hsurvivor
    rw [hb.2 m hm] at hs
    exact absurd hs (by decide)
  | some method =>
    simp only [hbm] at hb
    exact ⟨final, method, hres, hbm, hb.1, hb.2.1, hb.2.2.2.2.1, hb.2.2.2.2.2⟩


theorem Invoker_invoked (env : HostEnvironment) (context : JavascriptContext) (v8 : V8Heap)
    (fuel : Nat) (self : ClrObject) (memberName : SystemString) (iArgs : List V8Value)
    (heap : ClrHeap) (best : BestMethod) (heap1 : ClrHeap) (res : InvokerResult)
    (hres : Invoker.resolve env v8 fuel (env.GetMember (GetType heap self) memberName) iArgs heap
      = .ok (best, heap1))
    (h : Invoker env context v8 fuel self memberName iArgs heap = .ok res) :
    res.invoked = best.bestMethod.map (fun method => (method, best.bestMethodArguments)) := by
  unfold Invoker at h
  simp only [hres] at h
  cases hb : best.bestMethod with
  | none =>
    simp only [hb] at h
    split at h
    · exact Except.noConfusion h
    · simp only [Except.ok.injEq] at h
      subst h
      rfl
  | some method =>
    simp only [hb] at h
    split at h <;> (split at h <;> first
      | exact Except.noConfusion h
      | (simp only [Except.ok.injEq] at h; subst h; rfl))

/-- C5. Overload selection, arity case. For the overloads `f1` of one parameter and `f3` of
three parameters, in either order, and two supplied non-null arguments each of which is of
the type of the corresponding parameter of `f3` or can be coerced to it, the search of
`Invoker` ends with `f3` and the argument array of the two arguments (coerced where the
types differ) followed by `nullptr`; `f1` does not survive; and whatever `Invoker` returns,
it invoked `f3` with that array. -/
theorem Invoker_selects_by_arity (env : HostEnvironment) (v8 : V8Heap) (fuel : Nat)
    (iArgs : List V8Value) (heap : ClrHeap) (st : FromV8State) (s1 s2 : ClrObject)
    (f1 f3 : MethodInfo) (pa p1 p2 p3 : ParameterInfo)
    (hf1 : f1.GetParameters = [pa]) (hf3 : f3.GetParameters = [p1, p2, p3])
    (methods : List MethodInfo) (horder : methods = [f1, f3] ∨ methods = [f3, f1])
    (hconv : ConvertArguments (ConvertFromV8With env v8 fuel) iArgs
      { heap := heap, already_converted := ConvertedObjects.new } = some ([s1, s2], st))
    (h1 : s1 ≠ .nullptr) (h2 : s2 ≠ .nullptr)
    (hm1 : GetType st.heap s1 = p1.ParameterType ∨
      env.ConvertToType s1 p1.ParameterType ≠ .nullptr)
    (hm2 : GetType st.heap s2 = p2.ParameterType ∨
      env.ConvertToType s2 p2.ParameterType ≠ .nullptr) :
    ∃ best : BestMethod,
      Invoker.resolve env v8 fuel (methods.map MemberInfo.Method) iArgs heap
        = .ok (best, st.heap) ∧
      best.bestMethod = some f3 ∧
      best.bestMethodArguments
        = [if GetType st.heap s1 = p1.ParameterType then s1
             else env.ConvertToType s1 p1.ParameterType,
           if GetType st.heap s2 = p2.ParameterType then s2
             else env.ConvertToType s2 p2.ParameterType,
           .nullptr] ∧
      Survives env st.heap [s1, s2] f1 = false ∧
      ∀ (context : JavascriptContext) (self : ClrObject) (memberName : SystemString)
        (res : InvokerResult),
        env.GetMember (GetType heap self) memberName = methods.map MemberInfo.Method →
        Invoker env context v8 fuel self memberName iArgs heap = .ok res →
        res.invoked = some (f3,
          [if GetType st.heap s1 = p1.ParameterType then s1
             else env.ConvertToType s1 p1.ParameterType,
           if GetType st.heap s2 = p2.ParameterType then s2
             else env.ConvertToType s2 p2.ParameterType,
           .nullptr]) := by
  have hne : methods ≠ [] := by
    rcases horder with h | h <;> simp [h]
  have hres := Invoker.resolve_methods env v8 fuel methods iArgs heap [s1, s2] st hne hconv
  have hs1 : Survives env st.heap [s1, s2] f1 = false := by
    simp [Survives, hf1]
  have hacc : ([s1, s2].zip f3.GetParameters).all (Accepts env st.heap) = true := by
    rw [hf3]
    simp only [List.zip_cons_cons, List.zip_nil_left, List.all_cons, List.all_nil, Accepts,
      Bool.and_true, Bool.and_eq_true, Bool.or_eq_true, decide_eq_true_eq]
    exact ⟨by tauto, by tauto⟩
  have hs3 : Survives env st.heap [s1, s2] f3 = true := by
    unfold Survives
    rw [hacc, hf3]
    simp
  have hf0 := ((Survives_iff env st.heap [s1, s2] f3).mp hs3).2
  have hargs := Invoker.matchParameters_arguments env st.heap [s1, s2] f3.GetParameters [] 0
    (by rw [hf3]; simp) hf0
  rw [hf3] at hargs
  simp only [List.zip_cons_cons, List.zip_nil_left, List.map_cons, List.map_nil,
    List.nil_append, List.length_cons, List.length_nil] at hargs
  have hb := Invoker.lookForBestMethod_bestOf env st.heap [s1, s2] methods []
    BestMethod.initial (BestOf_initial env st.heap [s1, s2])
  simp only [List.nil_append] at hb
  generalize Invoker.lookForBestMethod env st.heap [s1, s2] methods
    BestMethod.initial = final at hb hres
  have hmem3 : f3 ∈ methods := by rcases horder with h | h <;> simp [h]
  unfold BestOf at hb
  cases hbm : final.bestMethod with
  | none =>
    simp only [hbm] at hb
    rw [hb.2 f3 hmem3] at hs3
    exact absurd hs3 (by decide)
  | some method =>
    simp only [hbm] at hb
    obtain ⟨g1, g2, _, g4, _, _⟩ := hb
    have hm3 : method = f3 := by
      rcases horder with h | h <;>
        (rw [h] at g1
         simp only [List.mem_cons, List.mem_singleton, List.not_mem_nil, or_false] at g1
         rcases g1 with e | e
         · first | exact e | (subst e; rw [hs1] at g2; exact absurd g2 (by decide))
         · first | exact e | (subst e; rw [hs1] at g2; exact absurd g2 (by decide)))
    subst hm3
    have hfinal : final.bestMethodArguments
        = [if GetType st.heap s1 = p1.ParameterType then s1
             else env.ConvertToType s1 p1.ParameterType,
           if GetType st.heap s2 = p2.ParameterType then s2
             else env.ConvertToType s2 p2.ParameterType,
           .nullptr] := by
      rw [g4, hf3, hargs]
      simp [Invoker.argument, h1, h2]
    refine ⟨final, hres, hbm, hfinal, hs1, ?_⟩
    intro context self memberName res hmem hinv
    have := Invoker_invoked env context v8 fuel self memberName iArgs heap final st.heap res
      (by rw [hmem]; exact hres) hinv
    rw [this, hbm, hfinal]
    rfl


/-- For `f(string)` and `f(string, double, bool)` and the call `f("x", 5)` the search ends
with the three-parameter overload and the arguments `"x"`, `5.0`, `nullptr`. -/
theorem Invoker_selects_by_arity_witness :
    ∃ best : BestMethod,
      Invoker.resolve HostEnvironment.sampleOverloads [] 1
          ([MethodInfo.sampleF1, MethodInfo.sampleF3].map MemberInfo.Method)
          [.String (utf16 "x"), Integer.New 5] []
        = .ok (best, []) ∧
      best.bestMethod = some MethodInfo.sampleF3 ∧
      best.bestMethodArguments
        = [.String (utf16 "x"), .Double (Double.ofInt 5), .nullptr] := by
  obtain ⟨best, h1, h2, h3, _⟩ :=
    Invoker_selects_by_arity HostEnvironment.sampleOverloads [] 1
      [.String (utf16 "x"), Integer.New 5] []
      { heap := [], already_converted := ConvertedObjects.new }
      (.String (utf16 "x")) (.Int32 ⟨5, by decide⟩)
      MethodInfo.sampleF1 MethodInfo.sampleF3
      { ParameterType := .String } { ParameterType := .String } { ParameterType := .Double }
      { ParameterType := .Boolean } rfl rfl
      [MethodInfo.sampleF1, MethodInfo.sampleF3] (Or.inl rfl) (by decide) (by decide)
      (by decide) (Or.inl (by decide)) (Or.inr (by decide))
  exact ⟨best, h1, h2, h3.trans (by decide)⟩

/-- For `f(string)` and `f(string, double, bool)` and the call `f("x", 5)` the search ends
with a surviving overload. -/
theorem Invoker_selects_best_candidate_witness :
    ∃ (best : BestMethod) (method : MethodInfo),
      Invoker.resolve HostEnvironment.sampleOverloads [] 1
          ([MethodInfo.sampleF1, MethodInfo.sampleF3].map MemberInfo.Method)
          [.String (utf16 "x"), Integer.New 5] []
        = .ok (best, []) ∧
      best.bestMethod = some method ∧
      Survives HostEnvironment.sampleOverloads []
        [.String (utf16 "x"), .Int32 ⟨5, by decide⟩] method = true := by
  obtain ⟨best, method, h1, h2, _, h4, _⟩ :=
    Invoker_selects_best_candidate HostEnvironment.sampleOverloads [] 1
      [MethodInfo.sampleF1, MethodInfo.sampleF3]
      [.String (utf16 "x"), Integer.New 5] []
      [.String (utf16 "x"), .Int32 ⟨5, by decide⟩]
      { heap := [], already_converted := ConvertedObjects.new } (by decide)
      ⟨MethodInfo.sampleF3, by decide, by decide⟩
  exact ⟨best, method, h1, h2, h4⟩

theorem V8Heap.SetIndex_last (v8 : V8Heap) (done : List (Option V8Value)) (r : Nat)
    (value : V8Value) :
    V8Heap.SetIndex (v8 ++ [.Array (done ++ List.replicate (r + 1) none)]) v8.length
        done.length value
      = v8 ++ [.Array ((done ++ [some value]) ++ List.replicate r none)] := by
  unfold V8Heap.SetIndex
  have hcell : (v8 ++ [V8Object.Array (done ++ List.replicate (r + 1) none)])[v8.length]?
      = some (.Array (done ++ List.replicate (r + 1) none)) := by simp
  rw [hcell]
  simp only [V8Array.Set]
  have hlt : done.length < (done ++ List.replicate (r + 1) (none : Option V8Value)).length := by
    simp
  rw [if_pos hlt]
  have hset : (done ++ List.replicate (r + 1) (none : Option V8Value)).set done.length
      (some value) = (done ++ [some value]) ++ List.replicate r none := by
    rw [List.set_append_right _ _ (Nat.le_refl _)]
    simp [List.replicate_succ]
  rw [hset]
  rw [List.set_append_right _ _ (Nat.le_refl _)]
  simp

theorem Enumerator.loop_spec (env : HostEnvironment) (context : Option JavascriptContext)
    (heap : ClrHeap) (v8 : V8Heap) :
    ∀ (names : List SystemString) (done : List (Option V8Value)) (r : Nat),
      names.length ≤ r →
      Enumerator.loop env context heap v8.length names done.length
          (v8 ++ [.Array (done ++ List.replicate r none)])
        = .ok (v8 ++ [.Array (done ++ names.map (fun n => some (V8Value.String (cstr n)))
            ++ List.replicate (r - names.length) none)]) := by
  intro names
  induction names with
  | nil => intro done r _; simp [Enumerator.loop]
  | cons n rest ih =>
    intro done r hr
    obtain ⟨r', rfl⟩ : ∃ r', r = r' + 1 := ⟨r - 1, by simp at hr; omega⟩
    simp only [Enumerator.loop, ConvertToV8, String.NewFromTwoByte]
    rw [V8Heap.SetIndex_last]
    have hlen : done.length + 1 = (done ++ [some (V8Value.String (cstr n))]).length := by simp
    rw [hlen, ih _ r' (by simpa using hr)]
    simp

/-- C8, at the failing input. For a type with the declared properties `A` (marked) and `B`
(not marked) and the inherited property `C` (marked), `Enumerator` returns an array of length
2 that holds "A" and a hole. In general the array has the length of the declared public
instance properties, marked or not: the names of the marked ones, in order, followed by one
hole for every property that is not marked. -/
theorem Enumerator_sizes_array_by_declared_properties :
    Enumerator HostEnvironment.sampleProperties (some { IsExecutionTerminating := false })
        ClrHeap.sampleInstance { Object := .ref 0, Options := 0 } []
      = .ok (.Object 0, [.Array [some (.String (utf16 "A")), none]]) ∧
    ∀ (env : HostEnvironment) (context : Option JavascriptContext) (heap : ClrHeap)
      (wrapper : JavascriptExternal) (v8 : V8Heap),
      Enumerator env context heap wrapper v8
        = .ok (.Object v8.length,
            v8 ++ [.Array
              ((((GetProperties env (GetType heap wrapper.GetObject)).filter
                  (fun member => decide (0 < member.JSEnumerable))).map
                  (fun member => some (V8Value.String (cstr member.Name))))
                ++ List.replicate
                    ((GetProperties env (GetType heap wrapper.GetObject)).length
                      - ((GetProperties env (GetType heap wrapper.GetObject)).filter
                          (fun member => decide (0 < member.JSEnumerable))).length)
                    none)]) := by
  refine ⟨rfl, ?_⟩
  intro env context heap wrapper v8
  simp only [Enumerator, V8Heap.alloc]
  have h := Enumerator.loop_spec env context heap v8
    (((GetProperties env (GetType heap wrapper.GetObject)).filter
      (fun member => decide (0 < member.JSEnumerable))).map (fun member => member.Name)) []
    (GetProperties env (GetType heap wrapper.GetObject)).length
    (by simp; exact List.length_filter_le _ _)
  simp only [List.nil_append, List.length_nil, List.map_map, List.length_map] at h
  rw [h]
  rfl


/-! ## Exception translation -/

/-- C10 (amended). Exception translation. For a host exception at `a` that reaches the
exception case of `ConvertToV8` (its class does not implement `IDictionary` without declared
instance fields, the case tried before), `ConvertToV8` returns a new engine error object
whose message is the exception's message up to its first U+0000 (the whole message when it
has none) and whose "InnerException" is a wrapped object that `UnwrapObject` and
`ConvertFromV8` turn back into the very reference `a`; and when the method `Invoker` selected
throws this exception (wrapped in a `TargetInvocationException`) while execution is not
terminating, `Invoker` throws exactly this error object. -/
theorem ConvertToV8_exception (env : HostEnvironment) (context : JavascriptContext)
    (heap : ClrHeap) (fuel : Nat) (a : Nat) (o : ClrInstance) (exception : ExceptionInfo)
    (v8 : V8Heap)
    (hcell : heap[a]? = some (.Instance o)) (hex : o.Exception = some exception)
    (hcase : o.IDictionary = none ∨ o.declaredInstanceFields ≠ 0) :
    ∃ v8' : V8Heap,
      ConvertToV8 env (some context) heap (fuel + 1) (.ref a) v8 = .ok (.Object v8.length, v8') ∧
      v8'[v8.length]? = some (.Object none true
        [{ name := utf16 "message", value := .String (cstr exception.Message),
           enumerable := false },
         { name := utf16 "InnerException", value := .Object (v8.length + 1),
           enumerable := true }]) ∧
      ((0 : CodeUnit) ∉ exception.Message → cstr exception.Message = exception.Message) ∧
      UnwrapObject v8' (.Object (v8.length + 1)) = .ref a ∧
      (∀ (fuel' : Nat) (host : ClrHeap),
        ConvertFromV8 env v8' (fuel' + 1) (.Object (v8.length + 1)) host
          = some (.ref a, host)) ∧
      (∀ (self : ClrObject) (memberName : SystemString) (iArgs : List V8Value)
        (heap0 heap1 : ClrHeap) (best : BestMethod) (method : MethodInfo),
        context.IsExecutionTerminating = false →
        Invoker.resolve env v8 (fuel + 1) (env.GetMember (GetType heap0 self) memberName)
          iArgs heap0 = .ok (best, heap1) →
        best.bestMethod = some method →
        env.Invoke heap1 method self best.bestMethodArguments
          = (.TargetInvocationException (.ref a), heap) →
        Invoker env context v8 (fuel + 1) self memberName iArgs heap0
          = .ok { invoked := some (method, best.bestMethodArguments)
                  callback := ThrowException (.Object v8.length)
                  v8 := v8', heap := heap }) := by
  have hd : (if o.declaredInstanceFields = 0 then o.IDictionary else none) = none := by
    rcases hcase with h | h
    · simp [h]
    · simp [h]
  have hset : (v8 ++ [V8Object.Object none true
        [{ name := utf16 "message", value := .String (cstr exception.Message),
           enumerable := false }]]
        ++ [V8Object.Object (some (context.WrapObject (.ref a))) false []]).SetProperty
        v8.length (utf16 "InnerException") (.Object (v8.length + 1))
      = .ok (v8 ++ [V8Object.Object none true
          [{ name := utf16 "message", value := .String (cstr exception.Message),
             enumerable := false },
           { name := utf16 "InnerException", value := .Object (v8.length + 1),
             enumerable := true }],
          V8Object.Object (some (context.WrapObject (.ref a))) false []]) := by
    have happ : v8 ++ [V8Object.Object none true
        [{ name := utf16 "message", value := .String (cstr exception.Message),
           enumerable := false }]]
        ++ [V8Object.Object (some (context.WrapObject (.ref a))) false []]
        = v8 ++ [V8Object.Object none true
          [{ name := utf16 "message", value := .String (cstr exception.Message),
             enumerable := false }],
          V8Object.Object (some (context.WrapObject (.ref a))) false []] := by simp
    rw [happ]
    have hcell0 : (v8 ++ [V8Object.Object none true
        [{ name := utf16 "message", value := .String (cstr exception.Message),
           enumerable := false }],
        V8Object.Object (some (context.WrapObject (.ref a))) false []])[v8.length]?
        = some (V8Object.Object none true
          [{ name := utf16 "message", value := .String (cstr exception.Message),
             enumerable := false }]) := by
      rw [List.getElem?_append_right (Nat.le_refl _)]
      simp
    have hne : (utf16 "message" = utf16 "InnerException") = False := by
      simp only [eq_iff_iff, iff_false]; decide
    have hproto : (utf16 "InnerException" = utf16 "__proto__") = False := by
      simp only [eq_iff_iff, iff_false]; decide
    unfold V8Heap.SetProperty
    rw [hcell0]
    simp only [V8Properties.Set, List.any_cons, List.any_nil, hne, hproto,
      decide_False, Bool.or_false, Bool.false_eq_true, if_false, List.singleton_append]
    rw [List.set_append_right _ _ (Nat.le_refl _)]
    simp
  have hconv : ConvertToV8 env (some context) heap (fuel + 1) (.ref a) v8
      = .ok (.Object v8.length,
          v8 ++ [V8Object.Object none true
            [{ name := utf16 "message", value := .String (cstr exception.Message),
               enumerable := false },
             { name := utf16 "InnerException", value := .Object (v8.length + 1),
               enumerable := true }],
            V8Object.Object (some (context.WrapObject (.ref a))) false []]) := by
    simp only [ConvertToV8, hcell, hd, hex, ConvertException, V8Heap.alloc, WrapObject,
      String.NewFromTwoByte, List.length_append, List.length_singleton, hset]
  have hwrap : (v8 ++ [V8Object.Object none true
        [{ name := utf16 "message", value := .String (cstr exception.Message),
           enumerable := false },
         { name := utf16 "InnerException", value := .Object (v8.length + 1),
           enumerable := true }],
        V8Object.Object (some (context.WrapObject (.ref a))) false []])[v8.length + 1]?
      = some (V8Object.Object (some (context.WrapObject (.ref a))) false []) := by
    rw [List.getElem?_append_right (by omega)]
    simp
  refine ⟨_, hconv, ?_, cstr_eq_self _, ?_, ?_, ?_⟩
  · rw [List.getElem?_append_right (Nat.le_refl _)]
    simp
  · simp only [UnwrapObject, hwrap]
    rfl
  · intro fuel' host
    simp only [ConvertFromV8, ConvertFromV8With, hwrap, UnwrapObject]
    rfl
  · intro self memberName iArgs heap0 heap1 best method hterm hres hbest hinv
    unfold Invoker
    simp only [hres, hbest, hinv, HandleTargetInvocationException, hterm, hconv]
    simp


/-- The exception with the message "boom", thrown by `f("x")`, reaches script as the error
object with that message whose "InnerException" unwraps to the exception. -/
theorem ConvertToV8_exception_witness :
    ∃ v8' : V8Heap,
      ConvertToV8 HostEnvironment.sampleThrowing (some { IsExecutionTerminating := false })
          ClrHeap.sampleException 1 (.ref 0) []
        = .ok (.Object 0, v8') ∧
      v8'[0]? = some (.Object none true
        [{ name := utf16 "message", value := .String (utf16 "boom"), enumerable := false },
         { name := utf16 "InnerException", value := .Object 1, enumerable := true }]) ∧
      UnwrapObject v8' (.Object 1) = .ref 0 ∧
      Invoker HostEnvironment.sampleThrowing { IsExecutionTerminating := false } [] 1
          (.ref 0) (utf16 "f") [.String (utf16 "x")] ClrHeap.sampleException
        = .ok { invoked := some (MethodInfo.sampleF1, [.String (utf16 "x")])
                callback := ThrowException (.Object 0)
                v8 := v8', heap := ClrHeap.sampleException } := by
  obtain ⟨v8', h1, h2, _, h4, _, h6⟩ :=
    ConvertToV8_exception HostEnvironment.sampleThrowing { IsExecutionTerminating := false }
      ClrHeap.sampleException 0 0
      { type := .Other 2, IDictionary := none, declaredInstanceFields := 0, IList := none
        Exception := some { Message := utf16 "boom" } }
      { Message := utf16 "boom" } [] rfl rfl (Or.inl rfl)
  exact ⟨v8', h1, h2, h4,
    h6 (.ref 0) (utf16 "f") [.String (utf16 "x")] ClrHeap.sampleException
      ClrHeap.sampleException
      { bestMethod := some MethodInfo.sampleF1, bestMethodArguments := [.String (utf16 "x")]
        bestMethodMatchedArgs := 1 }
      MethodInfo.sampleF1 rfl rfl rfl rfl⟩

/-- C10, counterexample: the exception whose message is "a", U+0000, "b" becomes an error
object with the message "a"; and an exception whose class implements `IDictionary` becomes a
plain object, not an error object. -/
theorem ConvertToV8_exception_counterexample :
    ConvertToV8 HostEnvironment.sample (some { IsExecutionTerminating := false })
        ClrHeap.sampleExceptionNUL 1 (.ref 0) []
      = .ok (.Object 0,
          [.Object none true
            [{ name := utf16 "message", value := .String [97], enumerable := false },
             { name := utf16 "InnerException", value := .Object 1, enumerable := true }],
           .Object (some { Object := .ref 0, Options := 0 }) false []]) ∧
    ClrHeap.sampleExceptionNUL[0]? = some (.Instance
      { type := .Other 2, IDictionary := none, declaredInstanceFields := 0, IList := none
        Exception := some { Message := [97, 0, 98] } }) ∧
    ConvertToV8 HostEnvironment.sample (some { IsExecutionTerminating := false })
        ClrHeap.sampleExceptionDictionary 1 (.ref 0) []
      = .ok (.Object 0, [.Object none false []]) :=
  ⟨rfl, rfl, rfl⟩


/-! ## Exceptions of a dispatched call -/

theorem ConvertToV8_wrapCase (env : HostEnvironment) (context : Option JavascriptContext)
    (heap : ClrHeap) (fuel : Nat) (x : ClrObject) (v8 : V8Heap)
    (h : WrapCase heap x = true) :
    ConvertToV8 env context heap (fuel + 1) x v8 = WrapObject context x v8 := by
  cases x <;> simp only [WrapCase, Bool.false_eq_true] at h
  rename_i a
  simp only [ConvertToV8]
  cases hc : heap[a]? with
  | none => rfl
  | some cell =>
    rw [hc] at h
    cases cell with
    | Instance o =>
      simp only [Bool.and_eq_true, Bool.or_eq_true, decide_eq_true_eq, Option.isNone_iff_eq_none]
        at h
      obtain ⟨h1, h2⟩ := h
      simp only [h2]
      rcases h1 with h1 | h1
      · simp [h1]
      · simp [h1]
    | JavascriptFunction f => rfl
    | Array t items => simp at h
    | Delegate t ps => simp at h
    | Dictionary t es => simp at h
    | List t items => simp at h

/-- C12. Wrapped-object round trip. For every host object `x` that `ConvertToV8` sends to
the wrap case, in a current context: `ConvertToV8(x)` is the result of `WrapObject(x)`, a new
engine object whose internal field holds the wrapper handle of `x`; `IsSystemObject` of it is
true; and `ConvertFromV8(ConvertToV8(x))` is `x` itself, the same reference, with the host
heap as it was (nothing copied or allocated). -/
theorem RoundTrip_wrapped (env : HostEnvironment) (context : JavascriptContext) (fuel : Nat)
    (x : ClrObject) (heap : ClrHeap) (v8 : V8Heap) (h : WrapCase heap x = true) :
    ConvertToV8 env (some context) heap (fuel + 1) x v8 = WrapObject (some context) x v8 ∧
    ConvertToV8 env (some context) heap (fuel + 1) x v8
      = .ok (.Object v8.length, v8 ++ [.Object (some (context.WrapObject x)) false []]) ∧
    IsSystemObject (v8 ++ [.Object (some (context.WrapObject x)) false []])
      (.Object v8.length) = true ∧
    RoundTrip env (some context) (fuel + 1) x heap v8 = some (x, heap) := by
  have hw := ConvertToV8_wrapCase env (some context) heap fuel x v8 h
  have hget : (v8 ++ [V8Object.Object (some (context.WrapObject x)) false []])[v8.length]?
      = some (.Object (some (context.WrapObject x)) false []) := by
    simp
  refine ⟨hw, ?_, ?_, ?_⟩
  · rw [hw]; rfl
  · simp only [IsSystemObject, hget, Option.isSome_some]
  · unfold RoundTrip
    rw [hw]
    simp only [WrapObject, V8Heap.alloc, ConvertFromV8, ConvertFromV8With, hget,
      Option.isSome_some, if_true, UnwrapObject, JavascriptExternal.GetObject]
    rfl

/-- An instance of a class without capabilities comes back from the engine as itself. -/
theorem RoundTrip_wrapped_witness :
    RoundTrip HostEnvironment.sample (some { IsExecutionTerminating := false }) 1 (.ref 0)
      ClrHeap.sampleInstance [] = some (.ref 0, ClrHeap.sampleInstance) :=
  (RoundTrip_wrapped HostEnvironment.sample { IsExecutionTerminating := false } 0 (.ref 0)
    ClrHeap.sampleInstance [] (by decide)).2.2.2

/-! ## Named property access -/

theorem cstr_unknownMember (iName : SystemString) :
    cstr (utf16 "Unknown member: " ++ cstr iName) = utf16 "Unknown member: " ++ cstr iName := by
  apply cstr_eq_self
  intro hmem
  rcases List.mem_append.mp hmem with h | h
  · revert h; decide
  · have := List.mem_takeWhile_imp (p := fun c => decide (c ≠ 0)) h
    simp at this

/-- C14. Named-get fallthrough. `Getter` reads the property name from its NUL-terminated
buffer (`cstr iName`, the name itself when it has no U+0000). When the wrapper has a method
of that name, the bound method is returned whatever `GetProperty` would give. When the
wrapper has no method and no property of that name and, for the name "toString", no method
"ToString" either: with `RejectUnknownProperties` among the wrapper's options the callback
throws the engine string "Unknown member: " followed by the name, and without it the
callback returns the empty handle and throws nothing; the engine heap is left as it was. -/
theorem Getter_unknown_member (env : HostEnvironment) (context : Option JavascriptContext)
    (heap : ClrHeap) (iName : SystemString) (wrapper : JavascriptExternal) (v8 : V8Heap) :
    (∀ function, env.GetMethod wrapper (cstr iName) = some function →
      Getter env context heap iName wrapper v8
        = .ok ({ ReturnValue := some function, Exception := none }, v8)) ∧
    (env.GetMethod wrapper (cstr iName) = none →
      env.GetProperty wrapper (cstr iName) = none →
      (cstr iName = utf16 "toString" → env.GetMethod wrapper (utf16 "ToString") = none) →
      (wrapper.GetOptions &&& env.RejectUnknownProperties = env.RejectUnknownProperties →
        Getter env context heap iName wrapper v8
          = .ok (ThrowException (.String (utf16 "Unknown member: " ++ cstr iName)), v8)) ∧
      (wrapper.GetOptions &&& env.RejectUnknownProperties ≠ env.RejectUnknownProperties →
        Getter env context heap iName wrapper v8
          = .ok ({ ReturnValue := none, Exception := none }, v8))) ∧
    ((0 : CodeUnit) ∉ iName → cstr iName = iName) := by
  refine ⟨?_, ?_, cstr_eq_self iName⟩
  · intro function hm
    simp only [Getter, hm]
  · intro hm hp ht
    have hts : (if cstr iName = utf16 "toString" then env.GetMethod wrapper (utf16 "ToString")
        else none) = none := by
      by_cases hn : cstr iName = utf16 "toString"
      · simp [hn, ht hn]
      · simp [hn]
    constructor
    · intro ho
      simp only [Getter, hm, hp, hts, ho, if_true, ConvertToV8, String.NewFromTwoByte,
        cstr_unknownMember]
    · intro ho
      simp only [Getter, hm, hp, hts, ho, if_false]

/-- Without members, reading `x` throws "Unknown member: x" from a wrapper made with
`RejectUnknownProperties` and returns the empty handle from one made without; with a method
and a property `m`, reading `m` returns the method. -/
theorem Getter_unknown_member_witness :
    Getter HostEnvironment.sample none [] (utf16 "x") { Object := .ref 0, Options := 1 } []
      = .ok (ThrowException (.String (utf16 "Unknown member: x")), []) ∧
    Getter HostEnvironment.sample none [] (utf16 "x") { Object := .ref 0, Options := 0 } []
      = .ok ({ ReturnValue := none, Exception := none }, []) ∧
    Getter HostEnvironment.sampleMember none [] (utf16 "m") { Object := .ref 0, Options := 0 } []
      = .ok ({ ReturnValue := some (.Object 0), Exception := none }, []) :=
  ⟨((Getter_unknown_member HostEnvironment.sample none [] (utf16 "x")
      { Object := .ref 0, Options := 1 } []).2.1 rfl rfl (fun _ => rfl)).1 (by decide),
   ((Getter_unknown_member HostEnvironment.sample none [] (utf16 "x")
      { Object := .ref 0, Options := 0 } []).2.1 rfl rfl (fun _ => rfl)).2 (by decide),
   (Getter_unknown_member HostEnvironment.sampleMember none [] (utf16 "m")
      { Object := .ref 0, Options := 0 } []).1 (.Object 0) rfl⟩

/-! ## Conversion to the engine: frames and ordered containers -/

theorem SetIndex_length (v8 : V8Heap) (result i : Nat) (v : V8Value) :
    (v8.SetIndex result i v).length = v8.length := by
  unfold V8Heap.SetIndex
  split <;> simp

theorem SetIndex_getElem?_of_ne (v8 : V8Heap) (result i : Nat) (v : V8Value) (a : Nat)
    (h : a ≠ result) : (v8.SetIndex result i v)[a]? = v8[a]? := by
  unfold V8Heap.SetIndex
  split
  · rw [List.getElem?_set_ne (Ne.symm h)]
  · rfl

theorem SetIndex_append (v8 : V8Heap) (result : Nat) (done : List V8Value) (v : V8Value)
    (h : v8[result]? = some (.Array (done.map some))) :
    (v8.SetIndex result done.length v)[result]? = some (.Array ((done ++ [v]).map some)) := by
  have hlt : result < v8.length := by
    by_contra hn
    rw [List.getElem?_eq_none (by omega)] at h
    exact Option.noConfusion h
  unfold V8Heap.SetIndex
  rw [h]
  simp only
  rw [List.getElem?_set_self hlt]
  simp [V8Array.Set]

theorem SetProperty_length (v8 v8' : V8Heap) (object : Nat) (key : SystemString)
    (v : V8Value) (hset : v8.SetProperty object key v = .ok v8') :
    v8'.length = v8.length := by
  unfold V8Heap.SetProperty at hset
  split at hset
  · split at hset
    · exact Except.noConfusion hset
    · simp only [Except.ok.injEq] at hset
      subst hset
      simp
  · simp only [Except.ok.injEq] at hset
    subst hset
    rfl

theorem SetProperty_getElem?_of_ne (v8 v8' : V8Heap) (object : Nat) (key : SystemString)
    (v : V8Value) (hset : v8.SetProperty object key v = .ok v8') (a : Nat) (h : a ≠ object) :
    v8'[a]? = v8[a]? := by
  unfold V8Heap.SetProperty at hset
  split at hset
  · split at hset
    · exact Except.noConfusion hset
    · simp only [Except.ok.injEq] at hset
      subst hset
      rw [List.getElem?_set_ne (Ne.symm h)]
  · simp only [Except.ok.injEq] at hset
    subst hset
    rfl

theorem ConvertFromSystemArray_loop_spec
    (convert : ClrObject → V8Heap → Except InteropError (V8Value × V8Heap))
    (hframe : ToV8Framed convert) (result : Nat) :
    ∀ (items : List ClrObject) (done : List V8Value) (v8 v8b : V8Heap),
      v8[result]? = some (.Array (done.map some)) →
      ConvertFromSystemArray.loop convert result items done.length v8 = .ok v8b →
      v8.length ≤ v8b.length ∧ (∀ a, a < v8.length → a ≠ result → v8b[a]? = v8[a]?) ∧
      ∃ vals : List V8Value, v8b[result]? = some (.Array ((done ++ vals).map some)) ∧
        Chain (fun item val lo hi => ∃ h h', convert item h = .ok (val, h') ∧
            h.length = lo ∧ h'.length = hi ∧ ∀ a, lo ≤ a → a < hi → v8b[a]? = h'[a]?)
          items vals v8.length v8b.length := by
  intro items
  induction items with
  | nil =>
    intro done v8 v8b hcell hloop
    simp only [ConvertFromSystemArray.loop, Except.ok.injEq] at hloop
    subst hloop
    exact ⟨Nat.le_refl _, fun _ _ _ => rfl, [], by simpa using hcell, rfl⟩
  | cons item rest ih =>
    intro done v8 v8b hcell hloop
    have hres : result < v8.length := by
      by_contra hn
      rw [List.getElem?_eq_none (by omega)] at hcell
      exact Option.noConfusion hcell
    simp only [ConvertFromSystemArray.loop] at hloop
    split at hloop
    · exact Except.noConfusion hloop
    · rename_i value v8a hc
      obtain ⟨hlen, hcells⟩ := hframe _ _ _ _ hc
      have hcell' : v8a[result]? = some (.Array (done.map some)) := by
        rw [hcells result hres]; exact hcell
      have hset := SetIndex_append v8a result done value hcell'
      have hloop' : ConvertFromSystemArray.loop convert result rest (done ++ [value]).length
          (v8a.SetIndex result done.length value) = .ok v8b := by
        simpa using hloop
      obtain ⟨h1, h2, vals, h3, h4⟩ := ih (done ++ [value]) _ v8b hset hloop'
      rw [SetIndex_length] at h1 h4
      refine ⟨by omega, ?_, value :: vals, by simpa using h3, v8a.length, ?_, h4⟩
      · intro a ha hne
        rw [h2 a (by rw [SetIndex_length]; omega) hne, SetIndex_getElem?_of_ne _ _ _ _ _ hne,
          hcells a ha]
      · refine ⟨v8, v8a, hc, rfl, rfl, ?_⟩
        intro a hlo hhi
        have hne : a ≠ result := by omega
        rw [h2 a (by rw [SetIndex_length]; exact hhi) hne, SetIndex_getElem?_of_ne _ _ _ _ _ hne]

theorem ConvertFromSystemDictionary_loop_frame (env : HostEnvironment)
    (convert : ClrObject → V8Heap → Except InteropError (V8Value × V8Heap))
    (hframe : ToV8Framed convert) (object : Nat) :
    ∀ (entries : List (ClrObject × ClrObject)) (v8 v8b : V8Heap),
      ConvertFromSystemDictionary.loop env convert object entries v8 = .ok v8b →
      v8.length ≤ v8b.length ∧ (∀ a, a < v8.length → a ≠ object → v8b[a]? = v8[a]?) := by
  intro entries
  induction entries with
  | nil =>
    intro v8 v8b hloop
    simp only [ConvertFromSystemDictionary.loop, Except.ok.injEq] at hloop
    subst hloop
    exact ⟨Nat.le_refl _, fun _ _ _ => rfl⟩
  | cons e rest ih =>
    intro v8 v8b hloop
    obtain ⟨keyValue, item⟩ := e
    simp only [ConvertFromSystemDictionary.loop] at hloop
    split at hloop
    · exact Except.noConfusion hloop
    · rename_i key v8a hk
      split at hloop
      · exact Except.noConfusion hloop
      · rename_i val v8c hv
        split at hloop
        · exact Except.noConfusion hloop
        · rename_i v8d hset
          obtain ⟨l1, c1⟩ := hframe _ _ _ _ hk
          obtain ⟨l2, c2⟩ := hframe _ _ _ _ hv
          obtain ⟨l3, c3⟩ := ih _ _ hloop
          have l4 := SetProperty_length _ _ _ _ _ hset
          refine ⟨by omega, ?_⟩
          intro a ha hne
          rw [c3 a (by omega) hne, SetProperty_getElem?_of_ne _ _ _ _ _ hset a hne,
            c2 a (by omega), c1 a ha]

theorem ConvertToV8_frame (env : HostEnvironment) (context : Option JavascriptContext)
    (heap : ClrHeap) : ∀ fuel, ToV8Framed (ConvertToV8 env context heap fuel) := by
  intro fuel
  induction fuel with
  | zero => intro x h r h' hc; simp [ConvertToV8] at hc
  | succ fuel ih =>
    have halloc : ∀ (h : V8Heap) (o : V8Object),
        h.length ≤ (h ++ [o]).length ∧ ∀ a, a < h.length → (h ++ [o])[a]? = h[a]? :=
      fun h o => ⟨by simp, fun a ha => List.getElem?_append_left ha⟩
    have hwrap : ∀ (x : ClrObject) (h : V8Heap) (r : V8Value) (h' : V8Heap),
        WrapObject context x h = .ok (r, h') →
        h.length ≤ h'.length ∧ ∀ a, a < h.length → h'[a]? = h[a]? := by
      intro x h r h' hw
      unfold WrapObject at hw
      split at hw
      · simp only [V8Heap.alloc, Except.ok.injEq, Prod.mk.injEq] at hw
        rw [← hw.2]
        exact halloc _ _
      · exact Except.noConfusion hw
    have harray : ∀ (items : List ClrObject) (h : V8Heap) (r : V8Value) (h' : V8Heap),
        ConvertFromSystemArray (ConvertToV8 env context heap fuel) items h = .ok (r, h') →
        h.length ≤ h'.length ∧ ∀ a, a < h.length → h'[a]? = h[a]? := by
      intro items h r h' hc
      simp only [ConvertFromSystemArray, V8Heap.alloc] at hc
      split at hc
      · exact Except.noConfusion hc
      · rename_i v8b hloop
        simp only [Except.ok.injEq, Prod.mk.injEq] at hc
        rw [← hc.2]
        obtain ⟨h1, h2, _⟩ := ConvertFromSystemArray_loop_spec _ ih h.length items []
          (h ++ [V8Object.Array []]) v8b (by simp) hloop
        simp only [List.length_append, List.length_singleton] at h1 h2
        refine ⟨by omega, ?_⟩
        intro a ha
        rw [h2 a (by omega) (by omega)]
        exact List.getElem?_append_left ha
    have hdict : ∀ (entries : List (ClrObject × ClrObject)) (h : V8Heap) (r : V8Value)
        (h' : V8Heap),
        ConvertFromSystemDictionary env (ConvertToV8 env context heap fuel) entries h
          = .ok (r, h') →
        h.length ≤ h'.length ∧ ∀ a, a < h.length → h'[a]? = h[a]? := by
      intro entries h r h' hc
      simp only [ConvertFromSystemDictionary, V8Heap.alloc] at hc
      split at hc
      · exact Except.noConfusion hc
      · rename_i v8b hloop
        simp only [Except.ok.injEq, Prod.mk.injEq] at hc
        rw [← hc.2]
        obtain ⟨h1, h2⟩ := ConvertFromSystemDictionary_loop_frame env _ ih h.length entries
          (h ++ [V8Object.Object none false []]) v8b hloop
        simp only [List.length_append, List.length_singleton] at h1 h2
        refine ⟨by omega, ?_⟩
        intro a ha
        rw [h2 a (by omega) (by omega)]
        exact List.getElem?_append_left ha
    intro x h r h' hc
    have hsame : ∀ (v : V8Value), (Except.ok (v, h) : Except InteropError _) = .ok (r, h') →
        h.length ≤ h'.length ∧ ∀ a, a < h.length → h'[a]? = h[a]? := by
      intro v e
      simp only [Except.ok.injEq, Prod.mk.injEq] at e
      rw [← e.2]
      exact ⟨Nat.le_refl _, fun _ _ => rfl⟩
    cases x with
    | ref a =>
      simp only [ConvertToV8] at hc
      split at hc
      · exact harray _ _ _ _ hc
      · simp only [ConvertFromSystemDelegate] at hc
        split at hc
        · simp only [V8Heap.alloc, Except.ok.injEq, Prod.mk.injEq] at hc
          rw [← hc.2]
          exact halloc _ _
        · exact Except.noConfusion hc
      · exact hdict _ _ _ _ hc
      · exact harray _ _ _ _ hc
      · exact hwrap _ _ _ _ hc
      · split at hc
        · exact hdict _ _ _ _ hc
        · split at hc
          · simp only [ConvertException, V8Heap.alloc] at hc
            split at hc
            · exact Except.noConfusion hc
            · rename_i wrapped v8b hw
              split at hc
              · exact Except.noConfusion hc
              · rename_i v8c hset
                simp only [Except.ok.injEq, Prod.mk.injEq] at hc
                rw [← hc.2]
                obtain ⟨l1, c1⟩ := hwrap _ _ _ _ hw
                simp only [List.length_append, List.length_singleton] at l1 c1
                have l2 := SetProperty_length _ _ _ _ _ hset
                refine ⟨by omega, ?_⟩
                intro b hb
                rw [SetProperty_getElem?_of_ne _ _ _ _ _ hset b (by omega), c1 b (by omega)]
                exact List.getElem?_append_left hb
          · exact hwrap _ _ _ _ hc
      · exact hwrap _ _ _ _ hc
    | DateTime v =>
      simp only [ConvertToV8, V8Heap.alloc, Except.ok.injEq, Prod.mk.injEq] at hc
      rw [← hc.2]
      exact halloc _ _
    | _ => exact hsame _ hc

theorem Chain_forall2 {α β : Type} (R : α → β → Nat → Nat → Prop) :
    ∀ (xs : List α) (ys : List β) (lo hi : Nat), Chain R xs ys lo hi →
      List.Forall₂ (fun x y => ∃ lo hi, R x y lo hi) xs ys := by
  intro xs
  induction xs with
  | nil =>
    intro ys lo hi h
    cases ys with
    | nil => exact List.Forall₂.nil
    | cons y ys => exact absurd h (by simp [Chain])
  | cons x xs ih =>
    intro ys lo hi h
    cases ys with
    | nil => exact absurd h (by simp [Chain])
    | cons y ys =>
      obtain ⟨mid, h1, h2⟩ := h
      exact List.Forall₂.cons ⟨lo, mid, h1⟩ (ih ys mid hi h2)

theorem ConvertFromSystemArray_loop_ok
    (convert : ClrObject → V8Heap → Except InteropError (V8Value × V8Heap)) (result : Nat) :
    ∀ (items : List ClrObject) (i : Nat) (v8 : V8Heap),
      (∀ item ∈ items, ∀ h, ∃ r, convert item h = .ok r) →
      ∃ v8b, ConvertFromSystemArray.loop convert result items i v8 = .ok v8b := by
  intro items
  induction items with
  | nil => intro i v8 _; exact ⟨v8, rfl⟩
  | cons item rest ih =>
    intro i v8 hall
    obtain ⟨⟨value, v8a⟩, hc⟩ := hall item (List.mem_cons_self _ _) v8
    obtain ⟨v8b, hb⟩ := ih (i + 1) (v8a.SetIndex result i value)
      (fun it hit => hall it (List.mem_cons_of_mem _ hit))
    exact ⟨v8b, by simp only [ConvertFromSystemArray.loop, hc, hb]⟩

/-- C15. Ordered containers in `ConvertToV8`. An object whose type is a construction of the
generic list type `System::Collections::Generic::List` is converted by
`ConvertFromSystemList`: whenever the conversion returns, the result is a new engine array
whose elements are, in order, results of `ConvertToV8` on the items, and it does return
when the conversion of every item returns. An instance of any other class is dispatched
without regard to `IList`: when it has no other case it is handed to `WrapObject`, also
when it implements `IList`. -/
theorem ConvertToV8_generic_list (env : HostEnvironment) (context : Option JavascriptContext)
    (heap : ClrHeap) (fuel : Nat) (a : Nat) (type : SystemType) (items : List ClrObject)
    (v8 : V8Heap) (hcell : heap[a]? = some (.List type items)) :
    ConvertToV8 env context heap (fuel + 1) (.ref a) v8
      = ConvertFromSystemList (ConvertToV8 env context heap fuel) items v8 ∧
    (∀ (value : V8Value) (v8b : V8Heap),
      ConvertToV8 env context heap (fuel + 1) (.ref a) v8 = .ok (value, v8b) →
      value = .Object v8.length ∧
      ∃ vals : List V8Value, v8b[v8.length]? = some (.Array (vals.map some)) ∧
        List.Forall₂ (fun item val => ∃ h h',
          ConvertToV8 env context heap fuel item h = .ok (val, h')) items vals) ∧
    ((∀ item ∈ items, ∀ h, ∃ r, ConvertToV8 env context heap fuel item h = .ok r) →
      ∃ r, ConvertToV8 env context heap (fuel + 1) (.ref a) v8 = .ok r) ∧
    (∀ (b : Nat) (o : ClrInstance), heap[b]? = some (.Instance o) → o.IList.isSome = true →
      WrapCase heap (.ref b) = true →
      ConvertToV8 env context heap (fuel + 1) (.ref b) v8 = WrapObject context (.ref b) v8) := by
  have heq : ConvertToV8 env context heap (fuel + 1) (.ref a) v8
      = ConvertFromSystemList (ConvertToV8 env context heap fuel) items v8 := by
    simp only [ConvertToV8, hcell]
  refine ⟨heq, ?_, ?_, ?_⟩
  · intro value v8b hc
    rw [heq] at hc
    simp only [ConvertFromSystemList, V8Heap.alloc] at hc
    split at hc
    · exact Except.noConfusion hc
    · rename_i v8c hloop
      simp only [Except.ok.injEq, Prod.mk.injEq] at hc
      obtain ⟨_, _, vals, h3, h4⟩ := ConvertFromSystemArray_loop_spec _
        (ConvertToV8_frame env context heap fuel) v8.length items []
        (v8 ++ [V8Object.Array []]) v8c (by simp) hloop
      refine ⟨hc.1.symm, vals, by rw [← hc.2]; simpa using h3, ?_⟩
      refine List.Forall₂.imp ?_ (Chain_forall2 _ _ _ _ _ h4)
      rintro item val ⟨lo, hi, h, h', hconv, _⟩
      exact ⟨h, h', hconv⟩
  · intro hall
    rw [heq]
    obtain ⟨v8b, hb⟩ := ConvertFromSystemArray_loop_ok (ConvertToV8 env context heap fuel)
      v8.length items 0 (v8 ++ [V8Object.Array []]) hall
    exact ⟨(.Object v8.length, v8b), by simp only [ConvertFromSystemList, V8Heap.alloc, hb]⟩
  · intro b o _ _ hw
    exact ConvertToV8_wrapCase env context heap fuel (.ref b) v8 hw

/-- A `List<int>` holding 1 and 2 becomes the engine array `[1, 2]`. -/
theorem ConvertToV8_generic_list_witness :
    ConvertToV8 HostEnvironment.sample none ClrHeap.sampleList 2 (.ref 0) []
      = .ok (.Object 0, [.Array [some (Integer.New 1), some (Integer.New 2)]]) :=
  (ConvertToV8_generic_list HostEnvironment.sample none ClrHeap.sampleList 1 0 (.Other 6)
    [.Int32 ⟨1, by decide⟩, .Int32 ⟨2, by decide⟩] [] rfl).1.trans rfl

/-- An `ArrayList` holding 1 and 2 has the list-like capability and is not an array, and
`ConvertToV8` makes a wrapped object of it, not an engine array. -/
theorem ConvertToV8_ArrayList_wrapped :
    (∃ o, ClrHeap.sampleArrayList[0]? = some (.Instance o) ∧
      o.IList = some [.Int32 ⟨1, by decide⟩, .Int32 ⟨2, by decide⟩]) ∧
    ConvertToV8 HostEnvironment.sample (some { IsExecutionTerminating := false })
        ClrHeap.sampleArrayList 2 (.ref 0) []
      = .ok (.Object 0, [.Object (some { Object := .ref 0, Options := 0 }) false []]) ∧
    IsSystemObject [.Object (some { Object := .ref 0, Options := 0 }) false []] (.Object 0)
      = true :=
  ⟨⟨_, rfl, rfl⟩, rfl, rfl⟩

/-! ## Null arguments -/

theorem Invoker.matchParameters_done (env : HostEnvironment) (heap : ClrHeap) :
    ∀ (supplied : List ClrObject) (parametersInfo : List ParameterInfo)
      (done done' : List ClrObject) (matched : Nat),
      (Invoker.matchParameters env heap supplied parametersInfo done matched).failed
        = (Invoker.matchParameters env heap supplied parametersInfo done' matched).failed ∧
      (Invoker.matchParameters env heap supplied parametersInfo done matched).matched
        = (Invoker.matchParameters env heap supplied parametersInfo done' matched).matched := by
  intro supplied
  induction supplied with
  | nil => intro ps done done' m; simp [Invoker.matchParameters]
  | cons a as ih =>
    intro ps done done' m
    cases ps with
    | nil => simp [Invoker.matchParameters]
    | cons p ps =>
      simp only [Invoker.matchParameters]
      by_cases ha : a = .nullptr
      · simp only [ha, ne_eq, not_true_eq_false, if_false]
        exact ih _ _ _ _
      · by_cases ht : GetType heap a = p.ParameterType
        · simp only [ha, ne_eq, not_false_eq_true, if_true, ht]
          exact ih _ _ _ _
        · by_cases hc : env.ConvertToType a p.ParameterType = .nullptr
          · simp [ha, ht, hc]
          · simp only [ha, ne_eq, not_false_eq_true, if_true, ht, if_false, hc]
            exact ih _ _ _ _

theorem Invoker.matchParameters_remove_null (env : HostEnvironment) (heap : ClrHeap)
    (post : List ClrObject) (q : ParameterInfo) (ppost : List ParameterInfo) :
    ∀ (pre : List ClrObject) (ppre : List ParameterInfo) (done done' : List ClrObject)
      (matched : Nat), pre.length = ppre.length →
      (Invoker.matchParameters env heap (pre ++ .nullptr :: post) (ppre ++ q :: ppost)
          done matched).failed
        = (Invoker.matchParameters env heap (pre ++ post) (ppre ++ ppost) done' matched).failed ∧
      (Invoker.matchParameters env heap (pre ++ .nullptr :: post) (ppre ++ q :: ppost)
          done matched).matched
        = (Invoker.matchParameters env heap (pre ++ post) (ppre ++ ppost) done' matched).matched := by
  intro pre
  induction pre with
  | nil =>
    intro ppre done done' m hlen
    cases ppre with
    | cons _ _ => simp at hlen
    | nil =>
      simp only [List.nil_append, Invoker.matchParameters, ne_eq, not_true_eq_false, if_false]
      exact Invoker.matchParameters_done env heap _ _ _ _ _
  | cons a as ih =>
    intro ppre done done' m hlen
    cases ppre with
    | nil => simp at hlen
    | cons p ps =>
      have hlen' : as.length = ps.length := by simpa using hlen
      simp only [List.cons_append, Invoker.matchParameters]
      by_cases ha : a = .nullptr
      · simp only [ha, ne_eq, not_true_eq_false, if_false]
        exact ih _ _ _ _ hlen'
      · by_cases ht : GetType heap a = p.ParameterType
        · simp only [ha, ne_eq, not_false_eq_true, if_true, ht]
          exact ih _ _ _ _ hlen'
        · by_cases hc : env.ConvertToType a p.ParameterType = .nullptr
          · simp [ha, ht, hc]
          · simp only [ha, ne_eq, not_false_eq_true, if_true, ht, if_false, hc]
            exact ih _ _ _ _ hlen'

theorem Invoker.matchParameters_prefix (env : HostEnvironment) (heap : ClrHeap) :
    ∀ (supplied : List ClrObject) (parametersInfo : List ParameterInfo)
      (done : List ClrObject) (matched : Nat) (i : Nat), i < done.length →
      (Invoker.matchParameters env heap supplied parametersInfo done matched).arguments[i]?
        = done[i]? := by
  intro supplied
  induction supplied with
  | nil =>
    intro ps done m i hi
    simp only [Invoker.matchParameters]
    exact List.getElem?_append_left hi
  | cons a as ih =>
    intro ps done m i hi
    cases ps with
    | nil => simp [Invoker.matchParameters]
    | cons q ps =>
      have hstep : ∀ (x : ClrObject) (m' : Nat),
          (Invoker.matchParameters env heap as ps (done ++ [x]) m').arguments[i]? = done[i]? := by
        intro x m'
        rw [ih ps (done ++ [x]) m' i (by simp; omega)]
        exact List.getElem?_append_left hi
      simp only [Invoker.matchParameters]
      by_cases ha : a = .nullptr
      · simp only [ha, ne_eq, not_true_eq_false, if_false]
        exact hstep _ _
      · by_cases ht : GetType heap a = q.ParameterType
        · simp only [ha, ne_eq, not_false_eq_true, if_true, ht]
          exact hstep _ _
        · by_cases hc : env.ConvertToType a q.ParameterType = .nullptr
          · simp only [ha, ne_eq, not_false_eq_true, if_true, ht, if_false, hc]
            exact List.getElem?_append_left hi
          · simp only [ha, ne_eq, not_false_eq_true, if_true, ht, if_false, hc]
            exact hstep _ _

theorem Invoker.matchParameters_null_at (env : HostEnvironment) (heap : ClrHeap) :
    ∀ (supplied : List ClrObject) (parametersInfo : List ParameterInfo)
      (done : List ClrObject) (matched : Nat) (p : Nat),
      supplied.length ≤ parametersInfo.length → supplied[p]? = some .nullptr →
      (Invoker.matchParameters env heap supplied parametersInfo done matched).arguments[
        done.length + p]? = some .nullptr := by
  intro supplied
  induction supplied with
  | nil => intro ps done m p _ hp; simp at hp
  | cons a as ih =>
    intro ps done m p hlen hp
    cases ps with
    | nil => simp at hlen
    | cons q ps =>
      have hlen' : as.length ≤ ps.length := by simpa using hlen
      simp only [Invoker.matchParameters]
      cases p with
      | zero =>
        simp only [List.getElem?_cons_zero, Option.some.injEq] at hp
        simp only [hp, ne_eq, not_true_eq_false, if_false, Nat.add_zero]
        rw [Invoker.matchParameters_prefix env heap as ps (done ++ [ClrObject.nullptr]) m
          done.length (by simp)]
        simp
      | succ p' =>
        simp only [List.getElem?_cons_succ] at hp
        have hp' : p' < as.length := by
          by_contra hn
          rw [List.getElem?_eq_none (by omega)] at hp
          exact Option.noConfusion hp
        have hstep : ∀ (x : ClrObject) (m' : Nat),
            (Invoker.matchParameters env heap as ps (done ++ [x]) m').arguments[
              done.length + (p' + 1)]? = some .nullptr := by
          intro x m'
          have := ih ps (done ++ [x]) m' p' hlen' hp
          simp only [List.length_append, List.length_singleton] at this
          rw [show done.length + (p' + 1) = done.length + 1 + p' by omega]
          exact this
        by_cases ha : a = .nullptr
        · simp only [ha, ne_eq, not_true_eq_false, if_false]
          exact hstep _ _
        · by_cases ht : GetType heap a = q.ParameterType
          · simp only [ha, ne_eq, not_false_eq_true, if_true, ht]
            exact hstep _ _
          · by_cases hc : env.ConvertToType a q.ParameterType = .nullptr
            · simp only [ha, ne_eq, not_false_eq_true, if_true, ht, if_false, hc]
              rw [List.getElem?_append_right (by omega)]
              simp only [Nat.add_sub_cancel_left, List.getElem?_cons_succ, List.getElem?_map]
              rw [List.getElem?_eq_getElem (by omega)]
              rfl
            · simp only [ha, ne_eq, not_false_eq_true, if_true, ht, if_false, hc]
              exact hstep _ _

theorem Invoker.matchParameters_all_null (env : HostEnvironment) (heap : ClrHeap) :
    ∀ (n : Nat) (parametersInfo : List ParameterInfo) (done : List ClrObject) (matched : Nat),
      n ≤ parametersInfo.length →
      Invoker.matchParameters env heap (List.replicate n .nullptr) parametersInfo done matched
        = { arguments := done ++ List.replicate parametersInfo.length .nullptr
            matched := matched, failed := 0 } := by
  intro n
  induction n with
  | zero =>
    intro ps done m _
    simp [Invoker.matchParameters, List.map_const']
  | succ n ih =>
    intro ps done m hlen
    cases ps with
    | nil => simp at hlen
    | cons q ps =>
      simp only [List.replicate_succ, Invoker.matchParameters, ne_eq, not_true_eq_false,
        if_false]
      rw [ih ps _ m (by simpa using hlen)]
      simp [List.replicate_succ]

theorem ConvertArguments_null (env : HostEnvironment) (v8 : V8Heap) (fuel : Nat)
    (st : FromV8State) :
    ∀ (iArgs : List V8Value), (∀ v ∈ iArgs, v = .Null ∨ v = .Undefined) →
      ConvertArguments (ConvertFromV8With env v8 (fuel + 1)) iArgs st
        = some (List.replicate iArgs.length .nullptr, st) := by
  intro iArgs
  induction iArgs with
  | nil => intro _; rfl
  | cons v vs ih =>
    intro h
    have hv := h v (List.mem_cons_self _ _)
    have ih' := ih (fun w hw => h w (List.mem_cons_of_mem _ hw))
    have hc : ConvertFromV8With env v8 (fuel + 1) v st = some (.nullptr, st) := by
      rcases hv with hv | hv <;> (subst hv; rfl)
    simp only [ConvertArguments, hc, ih', List.length_cons, List.replicate_succ]

theorem Invoker.lookForBestMethod_all_null (env : HostEnvironment) (heap : ClrHeap)
    (n : Nat) (methods : List MethodInfo) :
    match (Invoker.lookForBestMethod env heap (List.replicate n .nullptr) methods
        BestMethod.initial).bestMethod with
    | none => ∀ m ∈ methods, m.GetParameters.length < n
    | some method =>
      method ∈ methods ∧ n ≤ method.GetParameters.length ∧
      (Invoker.lookForBestMethod env heap (List.replicate n .nullptr) methods
        BestMethod.initial).bestMethodMatchedArgs = 0 ∧
      (Invoker.lookForBestMethod env heap (List.replicate n .nullptr) methods
        BestMethod.initial).bestMethodArguments
        = List.replicate method.GetParameters.length .nullptr := by
  have hb := Invoker.lookForBestMethod_bestOf env heap (List.replicate n .nullptr) methods []
    BestMethod.initial (BestOf_initial env heap _)
  simp only [List.nil_append] at hb
  generalize Invoker.lookForBestMethod env heap (List.replicate n .nullptr) methods
    BestMethod.initial = final at hb
  unfold BestOf at hb
  cases hbm : final.bestMethod with
  | none =>
    simp only [hbm] at hb ⊢
    intro m hm
    by_contra hlt
    have hle : n ≤ m.GetParameters.length := by omega
    have hs : Survives env heap (List.replicate n .nullptr) m = true := by
      rw [Survives_iff]
      refine ⟨by simpa using hle, ?_⟩
      rw [Invoker.matchParameters_all_null env heap n _ _ _ hle]
    rw [hb.2 m hm] at hs
    exact absurd hs (by decide)
  | some method =>
    simp only [hbm] at hb ⊢
    obtain ⟨h1, h2, h3, h4, _, _⟩ := hb
    have hle : n ≤ method.GetParameters.length := by
      simpa using ((Survives_iff env heap _ method).mp h2).1
    have hall := Invoker.matchParameters_all_null env heap n method.GetParameters [] 0 hle
    have hcount : ExactMatchCount heap (List.replicate n .nullptr) method = 0 := by
      have := Invoker.matchParameters_matched env heap (List.replicate n .nullptr)
        method.GetParameters [] 0 (by rw [hall])
      rw [hall] at this
      simp only [Nat.zero_add] at this
      exact this.symm
    refine ⟨h1, hle, ?_, ?_⟩
    · rw [h3, hcount]; rfl
    · rw [h4, hall]; simp

/-- C16. Null arguments in overload resolution. In the parameter-matching loop of `Invoker`
a supplied argument that is host null neither rejects the candidate nor counts as a match,
whatever the parameter's type: with the argument and its parameter removed the loop ends
with the same `failed` and the same `match`, and the candidate's argument array holds
`nullptr` at the argument's position. For a call whose arguments are all engine null or
undefined: if some overload has at least as many parameters as there are arguments, the
search ends with such an overload, with `bestMethodMatchedArgs = 0` and an argument array of
`nullptr` only, and that method is the one invoked; and if every overload has fewer
parameters than there are arguments, `Invoker` invokes nothing and throws the mismatch
error. -/
theorem Invoker_null_arguments (env : HostEnvironment) (context : JavascriptContext)
    (v8 : V8Heap) (fuel : Nat) (self : ClrObject) (memberName : SystemString)
    (iArgs : List V8Value) (heap : ClrHeap) (methods : List MethodInfo)
    (hmem : env.GetMember (GetType heap self) memberName = methods.map MemberInfo.Method)
    (hnull : ∀ v ∈ iArgs, v = .Null ∨ v = .Undefined) :
    (∀ (heap1 : ClrHeap) (pre post : List ClrObject) (ppre ppost : List ParameterInfo)
        (q : ParameterInfo), pre.length = ppre.length → post.length ≤ ppost.length →
      (Invoker.matchParameters env heap1 (pre ++ .nullptr :: post) (ppre ++ q :: ppost)
          [] 0).failed
        = (Invoker.matchParameters env heap1 (pre ++ post) (ppre ++ ppost) [] 0).failed ∧
      (Invoker.matchParameters env heap1 (pre ++ .nullptr :: post) (ppre ++ q :: ppost)
          [] 0).matched
        = (Invoker.matchParameters env heap1 (pre ++ post) (ppre ++ ppost) [] 0).matched ∧
      (Invoker.matchParameters env heap1 (pre ++ .nullptr :: post) (ppre ++ q :: ppost)
          [] 0).arguments[pre.length]? = some .nullptr) ∧
    ((∃ m ∈ methods, iArgs.length ≤ m.GetParameters.length) →
      ∃ (best : BestMethod) (method : MethodInfo),
        Invoker.resolve env v8 (fuel + 1) (methods.map MemberInfo.Method) iArgs heap
          = .ok (best, heap) ∧
        best.bestMethod = some method ∧ method ∈ methods ∧
        iArgs.length ≤ method.GetParameters.length ∧
        best.bestMethodMatchedArgs = 0 ∧
        best.bestMethodArguments = List.replicate method.GetParameters.length .nullptr ∧
        ∀ res, Invoker env context v8 (fuel + 1) self memberName iArgs heap = .ok res →
          res.invoked
            = some (method, List.replicate method.GetParameters.length .nullptr)) ∧
    ((∀ m ∈ methods, m.GetParameters.length < iArgs.length) →
      Invoker env context v8 (fuel + 1) self memberName iArgs heap
        = .ok { invoked := none
                callback := ThrowException
                  (String.NewFromTwoByte (ArgumentMismatchMessage memberName))
                v8 := v8, heap := heap }) := by
  have hconv := ConvertArguments_null env v8 fuel
    { heap := heap, already_converted := ConvertedObjects.new } iArgs hnull
  have hbest := Invoker.lookForBestMethod_all_null env heap iArgs.length methods
  have hres : methods ≠ [] →
      Invoker.resolve env v8 (fuel + 1) (methods.map MemberInfo.Method) iArgs heap
        = .ok (Invoker.lookForBestMethod env heap (List.replicate iArgs.length .nullptr)
            methods BestMethod.initial, heap) := fun hne =>
    Invoker.resolve_methods env v8 (fuel + 1) methods iArgs heap _ _ hne hconv
  refine ⟨?_, ?_, ?_⟩
  · intro heap1 pre post ppre ppost q hlen hpost
    have h := Invoker.matchParameters_remove_null env heap1 post q ppost pre ppre [] [] 0 hlen
    refine ⟨h.1, h.2, ?_⟩
    have := Invoker.matchParameters_null_at env heap1 (pre ++ .nullptr :: post)
      (ppre ++ q :: ppost) [] 0 pre.length
      (by simp only [List.length_append, List.length_cons]; omega)
      (by rw [List.getElem?_append_right (Nat.le_refl _)]; simp)
    simpa using this
  · rintro ⟨m, hm, hle⟩
    have hne : methods ≠ [] := List.ne_nil_of_mem hm
    have hr := hres hne
    generalize Invoker.lookForBestMethod env heap (List.replicate iArgs.length .nullptr)
      methods BestMethod.initial = final at hbest hr
    cases hbm : final.bestMethod with
    | none =>
      rw [hbm] at hbest
      have := hbest m hm
      omega
    | some method =>
      rw [hbm] at hbest
      obtain ⟨h1, h2, h3, h4⟩ := hbest
      refine ⟨final, method, hr, hbm, h1, h2, h3, h4, ?_⟩
      intro res hinv
      have hi := Invoker_invoked env context v8 (fuel + 1) self memberName iArgs heap final
        heap res (by rw [hmem]; exact hr) hinv
      rw [hi, hbm, h4]
      rfl
  · intro hfew
    have hthrow : ∀ (best : BestMethod),
        Invoker.resolve env v8 (fuel + 1) (methods.map MemberInfo.Method) iArgs heap
          = .ok (best, heap) → best.bestMethod = none →
        Invoker env context v8 (fuel + 1) self memberName iArgs heap
          = .ok { invoked := none
                  callback := ThrowException
                    (String.NewFromTwoByte (ArgumentMismatchMessage memberName))
                  v8 := v8, heap := heap } := by
      intro best hr hb
      unfold Invoker
      simp only [hmem, hr, hb, ConvertToV8]
    by_cases hne : methods = []
    · subst hne
      exact hthrow BestMethod.initial (by simp [Invoker.resolve]) rfl
    · have hr := hres hne
      generalize Invoker.lookForBestMethod env heap (List.replicate iArgs.length .nullptr)
        methods BestMethod.initial = final at hbest hr
      apply hthrow final hr
      cases hbm : final.bestMethod with
      | none => rfl
      | some method =>
        rw [hbm] at hbest
        have := hfew method hbest.1
        omega

/-- For `f(string)` and `f(string, double, bool)` the call `f(null, undefined)` ends the
search with an overload of at least two parameters, no exact match and an argument array of
`nullptr` only. -/
theorem Invoker_null_arguments_witness :
    ∃ (best : BestMethod) (method : MethodInfo),
      Invoker.resolve HostEnvironment.sampleOverloads [] 1
          ([MethodInfo.sampleF1, MethodInfo.sampleF3].map MemberInfo.Method)
          [.Null, .Undefined] []
        = .ok (best, []) ∧
      best.bestMethod = some method ∧
      method ∈ [MethodInfo.sampleF1, MethodInfo.sampleF3] ∧
      2 ≤ method.GetParameters.length ∧
      best.bestMethodMatchedArgs = 0 ∧
      best.bestMethodArguments = List.replicate method.GetParameters.length .nullptr := by
  obtain ⟨best, method, h1, h2, h3, h4, h5, h6, _⟩ :=
    (Invoker_null_arguments HostEnvironment.sampleOverloads { IsExecutionTerminating := false }
      [] 0 (.ref 0) (utf16 "f") [.Null, .Undefined] []
      [MethodInfo.sampleF1, MethodInfo.sampleF3] (by decide) (by decide)).2.1
      ⟨MethodInfo.sampleF3, by decide, by decide⟩
  exact ⟨best, method, h1, h2, h3, h4, h5, h6⟩

/-! ## Round trip of arrays and keyed containers -/

theorem Chain_le {α β : Type} (R : α → β → Nat → Nat → Prop)
    (hR : ∀ x y l h, R x y l h → l ≤ h) :
    ∀ (xs : List α) (ys : List β) (lo hi : Nat), Chain R xs ys lo hi → lo ≤ hi := by
  intro xs
  induction xs with
  | nil =>
    intro ys lo hi h
    cases ys with
    | nil => exact Nat.le_of_eq h
    | cons y ys => exact absurd h (by simp [Chain])
  | cons x xs ih =>
    intro ys lo hi h
    cases ys with
    | nil => exact absurd h (by simp [Chain])
    | cons y ys =>
      obtain ⟨mid, h1, h2⟩ := h
      exact Nat.le_trans (hR _ _ _ _ h1) (ih ys mid hi h2)

theorem Chain_length {α β : Type} (R : α → β → Nat → Nat → Prop) :
    ∀ (xs : List α) (ys : List β) (lo hi : Nat), Chain R xs ys lo hi →
      xs.length = ys.length := by
  intro xs
  induction xs with
  | nil =>
    intro ys lo hi h
    cases ys with
    | nil => rfl
    | cons y ys => exact absurd h (by simp [Chain])
  | cons x xs ih =>
    intro ys lo hi h
    cases ys with
    | nil => exact absurd h (by simp [Chain])
    | cons y ys =>
      obtain ⟨mid, _, h2⟩ := h
      simp [ih ys mid hi h2]

theorem Chain_mono {α β : Type} (R R' : α → β → Nat → Nat → Prop)
    (hR : ∀ x y l h, R x y l h → l ≤ h) :
    ∀ (xs : List α) (ys : List β) (lo hi : Nat),
      (∀ x ∈ xs, ∀ y l h, lo ≤ l → h ≤ hi → R x y l h → R' x y l h) →
      Chain R xs ys lo hi → Chain R' xs ys lo hi := by
  intro xs
  induction xs with
  | nil =>
    intro ys lo hi _ h
    cases ys with
    | nil => exact h
    | cons y ys => exact absurd h (by simp [Chain])
  | cons x xs ih =>
    intro ys lo hi himp h
    cases ys with
    | nil => exact absurd h (by simp [Chain])
    | cons y ys =>
      obtain ⟨mid, h1, h2⟩ := h
      have hm := hR _ _ _ _ h1
      have hh := Chain_le R hR xs ys mid hi h2
      refine ⟨mid, himp x (List.mem_cons_self _ _) y lo mid (Nat.le_refl _) hh h1, ?_⟩
      apply ih ys mid hi _ h2
      intro x' hx' y' l h hl hhi hr
      exact himp x' (List.mem_cons_of_mem _ hx') y' l h (by omega) hhi hr

theorem Image_le (heap : ClrHeap) (v8 : V8Heap) :
    ∀ (depth : Nat) (x : ClrObject) (value : V8Value) (lo hi : Nat),
      Image heap v8 depth x value lo hi → lo ≤ hi := by
  intro depth
  induction depth with
  | zero => intro x value lo hi h; simp [Image] at h
  | succ d ih =>
    intro x value lo hi h
    cases x <;> simp only [Image] at h
    case nullptr => omega
    case Boolean => omega
    case Int32 => omega
    case String => omega
    case ref a =>
      rcases h.2 with ⟨t, items, vals, _, _, hch⟩ | ⟨entries, vals, _, _, _, hch⟩
      · have := Chain_le _ (ih) _ _ _ _ hch
        omega
      · have := Chain_le _ (ih) _ _ _ _ hch
        omega

theorem Image_congr (heap : ClrHeap) (v8 v8' : V8Heap) :
    ∀ (depth : Nat) (x : ClrObject) (value : V8Value) (lo hi : Nat),
      Image heap v8 depth x value lo hi →
      (∀ a, lo ≤ a → a < hi → v8'[a]? = v8[a]?) →
      Image heap v8' depth x value lo hi := by
  intro depth
  induction depth with
  | zero => intro x value lo hi h; simp [Image] at h
  | succ d ih =>
    intro x value lo hi h hagree
    cases x <;> simp only [Image] at h ⊢ <;> try exact h
    case ref a =>
      refine ⟨h.1, ?_⟩
      rcases h.2 with ⟨t, items, vals, h1, h2, hch⟩ | ⟨entries, vals, h1, h2, h3, hch⟩
      · have hlt := Chain_le _ (Image_le heap v8 d) _ _ _ _ hch
        refine Or.inl ⟨t, items, vals, h1, by rw [hagree lo (Nat.le_refl _) (by omega)]; exact h2,
          ?_⟩
        apply Chain_mono _ _ (Image_le heap v8 d) _ _ _ _ _ hch
        intro x _ y l h hl hh hr
        exact ih x y l h hr (fun b hb1 hb2 => hagree b (by omega) (by omega))
      · have hlt := Chain_le _ (Image_le heap v8 d) _ _ _ _ hch
        refine Or.inr ⟨entries, vals, h1, h2,
          by rw [hagree lo (Nat.le_refl _) (by omega)]; exact h3, ?_⟩
        apply Chain_mono _ _ (Image_le heap v8 d) _ _ _ _ _ hch
        intro x _ y l h hl hh hr
        exact ih x y l h hr (fun b hb1 hb2 => hagree b (by omega) (by omega))

theorem Mirror_le (heap heap' : ClrHeap) :
    ∀ (depth : Nat) (x y : ClrObject) (lo hi : Nat),
      Mirror heap heap' depth x y lo hi → lo ≤ hi := by
  intro depth
  induction depth with
  | zero => intro x y lo hi h; simp [Mirror] at h
  | succ d ih =>
    intro x y lo hi h
    cases x <;> simp only [Mirror] at h
    case nullptr => omega
    case Boolean => omega
    case Int32 => omega
    case String => omega
    case ref a =>
      rcases h.2 with ⟨t, items, ys, _, _, hch⟩ | ⟨entries, ys, _, _, _, hch⟩
      · have := Chain_le _ (ih) _ _ _ _ hch
        omega
      · have := Chain_le _ (ih) _ _ _ _ hch
        omega

theorem Mirror_congr (heap h1 h2 : ClrHeap) :
    ∀ (depth : Nat) (x y : ClrObject) (lo hi : Nat),
      Mirror heap h1 depth x y lo hi →
      (∀ a, lo ≤ a → a < hi → h2[a]? = h1[a]?) →
      Mirror heap h2 depth x y lo hi := by
  intro depth
  induction depth with
  | zero => intro x y lo hi h; simp [Mirror] at h
  | succ d ih =>
    intro x y lo hi h hagree
    cases x <;> simp only [Mirror] at h ⊢ <;> try exact h
    case ref a =>
      refine ⟨h.1, ?_⟩
      rcases h.2 with ⟨t, items, ys, e1, e2, hch⟩ | ⟨entries, ys, e1, e2, e3, hch⟩
      · have hlt := Chain_le _ (Mirror_le heap h1 d) _ _ _ _ hch
        refine Or.inl ⟨t, items, ys, e1, by rw [hagree lo (Nat.le_refl _) (by omega)]; exact e2,
          ?_⟩
        apply Chain_mono _ _ (Mirror_le heap h1 d) _ _ _ _ _ hch
        intro x _ y l h hl hh hr
        exact ih x y l h hr (fun b hb1 hb2 => hagree b (by omega) (by omega))
      · have hlt := Chain_le _ (Mirror_le heap h1 d) _ _ _ _ hch
        refine Or.inr ⟨entries, ys, e1, e2,
          by rw [hagree lo (Nat.le_refl _) (by omega)]; exact e3, ?_⟩
        apply Chain_mono _ _ (Mirror_le heap h1 d) _ _ _ _ _ hch
        intro x _ y l h hl hh hr
        exact ih x y l h hr (fun b hb1 hb2 => hagree b (by omega) (by omega))

theorem CleanKeys_spec (entries : List (ClrObject × ClrObject))
    (h : CleanKeys entries = true) :
    (∀ e ∈ entries, ∃ k, e.1 = .String k ∧ cstr k = k ∧ k ≠ utf16 "__proto__") ∧
    (entries.map (fun e => e.1)).Nodup := by
  simp only [CleanKeys, Bool.and_eq_true, List.all_eq_true, decide_eq_true_eq] at h
  refine ⟨?_, h.2⟩
  intro e he
  have := h.1 e he
  split at this
  · rename_i k hk
    simp only [Bool.and_eq_true, decide_eq_true_eq] at this
    exact ⟨k, hk, this.1, this.2⟩
  · exact absurd this (by decide)

theorem SetProperty_append (v8 : V8Heap) (object : Nat) (internalField : Option JavascriptExternal)
    (isError : Bool) (properties : List V8Property) (key : SystemString) (v : V8Value)
    (h : v8[object]? = some (.Object internalField isError properties))
    (hnew : ∀ p ∈ properties, p.name ≠ key) (hproto : key ≠ utf16 "__proto__") :
    ∃ v8', v8.SetProperty object key v = .ok v8' ∧
      v8'[object]? = some (.Object internalField isError
        (properties ++ [{ name := key, value := v, enumerable := true }])) := by
  have hlt : object < v8.length := by
    by_contra hn
    rw [List.getElem?_eq_none (by omega)] at h
    exact Option.noConfusion h
  have hany : properties.any (fun p => decide (p.name = key)) = false := by
    rw [List.any_eq_false]
    intro p hp
    simpa using hnew p hp
  refine ⟨v8.set object (.Object internalField isError
    (properties ++ [{ name := key, value := v, enumerable := true }])), ?_, ?_⟩
  · unfold V8Heap.SetProperty
    rw [h]
    simp [V8Properties.Set, hany, hproto]
  · rw [List.getElem?_set_self hlt]

theorem SetProperty_ok (v8 : V8Heap) (object : Nat) (key : SystemString) (v : V8Value)
    (hproto : key ≠ utf16 "__proto__") : ∃ v8', v8.SetProperty object key v = .ok v8' := by
  unfold V8Heap.SetProperty
  split
  · rename_i internalField isError properties _
    by_cases hany : properties.any (fun p => decide (p.name = key)) = true
    · simp only [V8Properties.Set, hany, if_true]
      exact ⟨_, rfl⟩
    · simp only [V8Properties.Set, hany, hproto, if_false]
      exact ⟨_, rfl⟩
  · exact ⟨_, rfl⟩

theorem ConvertFromSystemDictionary_loop_spec (env : HostEnvironment)
    (convert : ClrObject → V8Heap → Except InteropError (V8Value × V8Heap))
    (hframe : ToV8Framed convert) (object : Nat) :
    ∀ (entries : List (ClrObject × ClrObject)) (done : List V8Property) (v8 v8b : V8Heap),
      v8[object]? = some (.Object none false done) →
      (∀ e ∈ entries, ∀ k h, convert (.String k) h = .ok (.String (cstr k), h)) →
      (∀ e ∈ entries, ∃ k, e.1 = .String k ∧ cstr k = k ∧ k ≠ utf16 "__proto__") →
      (entries.map (fun e => e.1)).Nodup →
      (∀ e ∈ entries, ∀ p ∈ done, p.name ≠ KeyString e.1) →
      ConvertFromSystemDictionary.loop env convert object entries v8 = .ok v8b →
      v8.length ≤ v8b.length ∧ (∀ a, a < v8.length → a ≠ object → v8b[a]? = v8[a]?) ∧
      ∃ vals : List V8Value,
        v8b[object]? = some (.Object none false (done ++
          List.zipWith (fun e v => { name := KeyString e.1, value := v, enumerable := true })
            entries vals)) ∧
        Chain (fun item val lo hi => ∃ h h', convert item h = .ok (val, h') ∧
            h.length = lo ∧ h'.length = hi ∧ ∀ a, lo ≤ a → a < hi → v8b[a]? = h'[a]?)
          (entries.map (fun e => e.2)) vals v8.length v8b.length := by
  intro entries
  induction entries with
  | nil =>
    intro done v8 v8b hcell _ _ _ _ hloop
    simp only [ConvertFromSystemDictionary.loop, Except.ok.injEq] at hloop
    subst hloop
    exact ⟨Nat.le_refl _, fun _ _ _ => rfl, [], by simpa using hcell, rfl⟩
  | cons e rest ih =>
    intro done v8 v8b hcell hkey hstr hnodup hfresh hloop
    obtain ⟨keyValue, item⟩ := e
    have hres : object < v8.length := by
      by_contra hn
      rw [List.getElem?_eq_none (by omega)] at hcell
      exact Option.noConfusion hcell
    obtain ⟨k, hk, hclean, hproto⟩ := hstr (keyValue, item) (List.mem_cons_self _ _)
    simp only at hk
    subst hk
    have hkc := hkey _ (List.mem_cons_self _ _) k v8
    simp only [ConvertFromSystemDictionary.loop, hkc, hclean, ToPropertyKey] at hloop
    split at hloop
    · exact Except.noConfusion hloop
    · rename_i val v8c hv
      obtain ⟨hlen, hcells⟩ := hframe _ _ _ _ hv
      have hcell' : v8c[object]? = some (.Object none false done) := by
        rw [hcells object hres]; exact hcell
      have hnew : ∀ p ∈ done, p.name ≠ k := fun p hp =>
        hfresh _ (List.mem_cons_self _ _) p hp
      obtain ⟨v8d, hsetok, hset⟩ :=
        SetProperty_append v8c object none false done k val hcell' hnew hproto
      have hsl := SetProperty_length _ _ _ _ _ hsetok
      rw [hsetok] at hloop
      simp only at hloop
      simp only [List.map_cons, List.nodup_cons] at hnodup
      obtain ⟨h1, h2, vals, h3, h4⟩ := ih (done ++ [{ name := k, value := val, enumerable := true }])
        v8d v8b hset
        (fun e he => hkey e (List.mem_cons_of_mem _ he))
        (fun e he => hstr e (List.mem_cons_of_mem _ he))
        hnodup.2
        (by
          intro e he p hp
          rcases List.mem_append.mp hp with hp | hp
          · exact hfresh e (List.mem_cons_of_mem _ he) p hp
          · simp only [List.mem_singleton] at hp
            subst hp
            simp only
            obtain ⟨k', hk', _⟩ := hstr e (List.mem_cons_of_mem _ he)
            intro heq
            apply hnodup.1
            rw [List.mem_map]
            refine ⟨e, he, ?_⟩
            rw [hk'] at heq ⊢
            simp only [KeyString] at heq
            rw [heq])
        hloop
      rw [hsl] at h1 h4
      refine ⟨by omega, ?_, val :: vals, by simpa [KeyString] using h3, v8c.length, ?_, h4⟩
      · intro a ha hne
        rw [h2 a (by rw [hsl]; omega) hne,
          SetProperty_getElem?_of_ne _ _ _ _ _ hsetok a hne, hcells a ha]
      · refine ⟨v8, v8c, hv, rfl, rfl, ?_⟩
        intro a hlo hhi
        have hne : a ≠ object := by omega
        rw [h2 a (by rw [hsl]; exact hhi) hne,
          SetProperty_getElem?_of_ne _ _ _ _ _ hsetok a hne]

theorem ConvertFromSystemDictionary_loop_ok (env : HostEnvironment)
    (convert : ClrObject → V8Heap → Except InteropError (V8Value × V8Heap)) (object : Nat) :
    ∀ (entries : List (ClrObject × ClrObject)) (v8 : V8Heap),
      (∀ e ∈ entries, ∀ h,
        (∃ key h', convert e.1 h = .ok (key, h') ∧ ToPropertyKey env key ≠ utf16 "__proto__") ∧
        ∃ r, convert e.2 h = .ok r) →
      ∃ v8b, ConvertFromSystemDictionary.loop env convert object entries v8 = .ok v8b := by
  intro entries
  induction entries with
  | nil => intro v8 _; exact ⟨v8, rfl⟩
  | cons e rest ih =>
    intro v8 hall
    obtain ⟨keyValue, item⟩ := e
    obtain ⟨key, v8a, hk, hproto⟩ := (hall _ (List.mem_cons_self _ _) v8).1
    obtain ⟨⟨val, v8c⟩, hv⟩ := (hall _ (List.mem_cons_self _ _) v8a).2
    obtain ⟨v8d, hset⟩ := SetProperty_ok v8c object (ToPropertyKey env key) val hproto
    obtain ⟨v8b, hb⟩ := ih v8d (fun e he => hall e (List.mem_cons_of_mem _ he))
    simp only at hk hv
    exact ⟨v8b, by simp only [ConvertFromSystemDictionary.loop, hk, hv, hset, hb]⟩

theorem ConvertToV8_keyed (env : HostEnvironment) (context : Option JavascriptContext)
    (heap : ClrHeap) (fuel : Nat) (a : Nat) (entries : List (ClrObject × ClrObject))
    (v8 : V8Heap) (h : KeyedEntries heap a = some entries) :
    ConvertToV8 env context heap (fuel + 1) (.ref a) v8
      = ConvertFromSystemDictionary env (ConvertToV8 env context heap fuel) entries v8 := by
  unfold KeyedEntries at h
  simp only [ConvertToV8]
  split at h
  · rename_i t es hc
    simp only [Option.some.injEq] at h
    subst h
    simp only [hc]
  · rename_i o hc
    simp only [hc, h]
  · exact Option.noConfusion h

theorem PlainData_pos (heap : ClrHeap) (depth : Nat) (x : ClrObject)
    (h : PlainData heap depth x = true) : 0 < depth := by
  cases depth with
  | zero => simp [PlainData] at h
  | succ d => omega

theorem ConvertToV8_image (env : HostEnvironment) (context : Option JavascriptContext)
    (heap : ClrHeap) :
    ∀ (depth : Nat) (x : ClrObject), PlainData heap depth x = true →
      ∀ (fuel : Nat), depth ≤ fuel → ∀ (v8 : V8Heap),
        ∃ value v8a, ConvertToV8 env context heap fuel x v8 = .ok (value, v8a) ∧
          Image heap v8a depth x value v8.length v8a.length := by
  intro depth
  induction depth with
  | zero => intro x h; simp [PlainData] at h
  | succ d ih =>
    intro x hx fuel hfuel v8
    obtain ⟨f, rfl⟩ : ∃ f, fuel = f + 1 := ⟨fuel - 1, by omega⟩
    have hdf : d ≤ f := by omega
    have hframe := ConvertToV8_frame env context heap f
    -- what the loops say of an item, turned into its image in the final heap
    have himage : ∀ (v8b : V8Heap) (items : List ClrObject) (vals : List V8Value) (lo hi : Nat),
        (∀ item ∈ items, PlainData heap d item = true) →
        Chain (fun item val lo hi => ∃ h h', ConvertToV8 env context heap f item h = .ok (val, h') ∧
            h.length = lo ∧ h'.length = hi ∧ ∀ a, lo ≤ a → a < hi → v8b[a]? = h'[a]?)
          items vals lo hi →
        Chain (Image heap v8b d) items vals lo hi := by
      intro v8b items vals lo hi hall hch
      refine Chain_mono _ _ ?_ items vals lo hi ?_ hch
      · rintro x y l h ⟨h0, h1, hc, rfl, rfl, _⟩
        exact (hframe _ _ _ _ hc).1
      · rintro item hmem val l h _ _ ⟨h0, h1, hc, rfl, rfl, hag⟩
        obtain ⟨value', v8a', hc', him⟩ := ih item (hall item hmem) f hdf h0
        rw [hc] at hc'
        simp only [Except.ok.injEq, Prod.mk.injEq] at hc'
        rw [← hc'.1, ← hc'.2] at him
        exact Image_congr heap h1 v8b d item val _ _ him hag
    cases x <;> simp only [PlainData, Bool.false_eq_true] at hx
    case nullptr => exact ⟨.Null, v8, rfl, by simp [Image]⟩
    case Boolean b => exact ⟨.Boolean b, v8, rfl, by simp [Image]⟩
    case Int32 i => exact ⟨Integer.New i.val, v8, rfl, by simp [Image]⟩
    case String s =>
      simp only [decide_eq_true_eq] at hx
      exact ⟨.String s, v8, by simp [ConvertToV8, String.NewFromTwoByte, hx], by simp [Image, hx]⟩
    case ref a =>
      split at hx
      · rename_i t items hcell
        rw [List.all_eq_true] at hx
        obtain ⟨v8b, hloop⟩ := ConvertFromSystemArray_loop_ok (ConvertToV8 env context heap f)
          v8.length items 0 (v8 ++ [V8Object.Array []])
          (fun item hmem h => by
            obtain ⟨value, v8a, hc, _⟩ := ih item (hx item hmem) f hdf h
            exact ⟨_, hc⟩)
        obtain ⟨_, _, vals, h3, h4⟩ := ConvertFromSystemArray_loop_spec _ hframe v8.length items []
          (v8 ++ [V8Object.Array []]) v8b (by simp) hloop
        refine ⟨.Object v8.length, v8b, ?_, ?_⟩
        · simp only [ConvertToV8, hcell, ConvertFromSystemArray, V8Heap.alloc, hloop]
        · simp only [Image]
          refine ⟨trivial, Or.inl ⟨t, items, vals, hcell, by simpa using h3, ?_⟩⟩
          have := himage v8b items vals _ _ hx h4
          simpa using this
      · rename_i hnot
        split at hx
        · rename_i entries hkeyed
          simp only [Bool.and_eq_true, List.all_eq_true] at hx
          obtain ⟨hclean, hvals⟩ := hx
          obtain ⟨hstr', hnodup⟩ := CleanKeys_spec entries hclean
          have hkey : ∀ e ∈ entries, ∀ k h,
              ConvertToV8 env context heap f (.String k) h = .ok (.String (cstr k), h) := by
            intro e he k h
            have hpos := PlainData_pos heap d e.2 (hvals e he)
            obtain ⟨f', rfl⟩ : ∃ f', f = f' + 1 := ⟨f - 1, by omega⟩
            simp [ConvertToV8, String.NewFromTwoByte]
          obtain ⟨v8b, hloop⟩ := ConvertFromSystemDictionary_loop_ok env
            (ConvertToV8 env context heap f) v8.length entries
            (v8 ++ [V8Object.Object none false []])
            (fun e he h => by
              obtain ⟨k, hk, hck, hproto⟩ := hstr' e he
              refine ⟨⟨.String (cstr k), h, by rw [hk]; exact hkey e he k h,
                by simpa [ToPropertyKey, hck] using hproto⟩, ?_⟩
              obtain ⟨value, v8a, hc, _⟩ := ih e.2 (hvals e he) f hdf h
              exact ⟨_, hc⟩)
          obtain ⟨_, _, vals, h3, h4⟩ := ConvertFromSystemDictionary_loop_spec env _ hframe
            v8.length entries [] (v8 ++ [V8Object.Object none false []]) v8b (by simp)
            hkey hstr' hnodup (fun _ _ p hp => by simp at hp) hloop
          refine ⟨.Object v8.length, v8b, ?_, ?_⟩
          · rw [ConvertToV8_keyed env context heap f a entries v8 hkeyed]
            simp only [ConvertFromSystemDictionary, V8Heap.alloc, hloop]
          · simp only [Image]
            refine ⟨trivial, Or.inr ⟨entries, vals, hkeyed, hclean, by simpa using h3, ?_⟩⟩
            have := himage v8b (entries.map (fun e => e.2)) vals _ _
              (by
                intro item hmem
                rw [List.mem_map] at hmem
                obtain ⟨e, he, rfl⟩ := hmem
                exact hvals e he) h4
            simpa using this
        · exact absurd hx (by decide)

theorem V8Properties_Get_append (done rest : List V8Property) (k : SystemString) (v : V8Value)
    (h : ∀ p ∈ done, p.name ≠ k) :
    V8Properties.Get (done ++ { name := k, value := v, enumerable := true } :: rest) k = v := by
  unfold V8Properties.Get
  have hnone : done.find? (fun p => decide (p.name = k)) = none := by
    rw [List.find?_eq_none]
    intro p hp
    simpa using h p hp
  rw [List.find?_append, hnone]
  simp

theorem SetItem_append (heap : ClrHeap) (results : Nat) (t : SystemType)
    (entries : List (ClrObject × ClrObject)) (key value : ClrObject)
    (h : heap[results]? = some (.Dictionary t entries))
    (hnew : ∀ e ∈ entries, e.1 ≠ key) :
    (heap.SetItem results key value)[results]?
      = some (.Dictionary t (entries ++ [(key, value)])) := by
  rw [SetItem_getElem?_self heap results key value t entries h]
  have hany : entries.any (fun e => decide (e.1 = key)) = false := by
    rw [List.any_eq_false]
    intro e he
    simpa using hnew e he
  simp [DictionarySet, hany]

theorem SetValue_append (heap : ClrHeap) (results : Nat) (t : SystemType)
    (done : List ClrObject) (n : Nat) (value : ClrObject)
    (h : heap[results]? = some (.Array t (done ++ List.replicate (n + 1) .nullptr))) :
    (heap.SetValue results done.length value)[results]?
      = some (.Array t ((done ++ [value]) ++ List.replicate n .nullptr)) := by
  rw [SetValue_getElem?_self heap results done.length value t _ h]
  rw [List.set_append_right _ _ (Nat.le_refl _)]
  simp [List.replicate_succ]

theorem V8Array_Get_append (pre : List V8Value) (v : V8Value) (rest : List V8Value) :
    V8Array.Get ((pre ++ v :: rest).map some) pre.length = v := by
  have h : ((pre ++ v :: rest).map some)[pre.length]? = some (some v) := by
    rw [List.getElem?_map, List.getElem?_append_right (Nat.le_refl _)]
    simp
  unfold V8Array.Get
  rw [h]

theorem GetPropertyNames_zipWith :
    ∀ (entries : List (ClrObject × ClrObject)) (vals : List V8Value),
      entries.length = vals.length →
      GetPropertyNames
          (List.zipWith (fun e v => { name := KeyString e.1, value := v, enumerable := true })
            entries vals)
        = entries.map (fun e => KeyString e.1) := by
  intro entries
  induction entries with
  | nil => intro vals _; simp [GetPropertyNames]
  | cons e es ih =>
    intro vals hlen
    cases vals with
    | nil => simp at hlen
    | cons v vs =>
      have := ih vs (by simpa using hlen)
      simp only [GetPropertyNames] at this ⊢
      simp [this]

theorem ConvertArrayFromV8_loop_mirror (heap : ClrHeap) (v8 : V8Heap) (depth : Nat)
    (convert : Converter) (hconv : Converter.Mirrors heap v8 depth convert) (results : Nat) :
    ∀ (items : List ClrObject) (vals pre : List V8Value) (done : List ClrObject)
      (lo hi : Nat) (st : FromV8State),
      Chain (Image heap v8 depth) items vals lo hi →
      pre.length = done.length →
      st.heap[results]?
        = some (.Array .ObjectArray (done ++ List.replicate vals.length .nullptr)) →
      (∀ a, lo ≤ a → a < hi → st.already_converted.GetConverted a = .nullptr) →
      ∃ st' ys,
        ConvertArrayFromV8.loop convert ((pre ++ vals).map some) results
          (List.range' pre.length vals.length) st = some st' ∧
        st'.heap[results]? = some (.Array .ObjectArray (done ++ ys)) ∧
        Chain (Mirror heap st'.heap depth) items ys st.heap.length st'.heap.length ∧
        (∀ a, a < st.heap.length → a ≠ results → st'.heap[a]? = st.heap[a]?) ∧
        (∀ a, (a < lo ∨ hi ≤ a) →
          st'.already_converted.GetConverted a = st.already_converted.GetConverted a) := by
  intro items
  induction items with
  | nil =>
    intro vals pre done lo hi st hch _ hcell _
    cases vals with
    | cons v vs => exact absurd hch (by simp [Chain])
    | nil =>
      refine ⟨st, [], by simp [ConvertArrayFromV8.loop], by simpa using hcell, rfl,
        fun _ _ _ => rfl, fun _ _ => rfl⟩
  | cons item rest ih =>
    intro vals pre done lo hi st hch hpre hcell hclean
    cases vals with
    | nil => exact absurd hch (by simp [Chain])
    | cons val vals =>
      obtain ⟨mid, him, hch'⟩ := hch
      have hlm := Image_le heap v8 depth _ _ _ _ him
      have hmh := Chain_le _ (Image_le heap v8 depth) _ _ _ _ hch'
      have hres : results < st.heap.length := by
        by_contra hn
        rw [List.getElem?_eq_none (by omega)] at hcell
        exact Option.noConfusion hcell
      obtain ⟨y, st1, hc, hmir, hfr, htr⟩ := hconv item val lo mid st him
        (fun a h1 h2 => hclean a h1 (by omega))
      have hl1 := Mirror_le heap st1.heap depth _ _ _ _ hmir
      have hcell1 : st1.heap[results]?
          = some (.Array .ObjectArray (done ++ List.replicate (vals.length + 1) .nullptr)) := by
        rw [hfr results hres]; simpa using hcell
      have hset := SetValue_append st1.heap results .ObjectArray done vals.length y hcell1
      obtain ⟨st', ys, hloop, hcell', hchain, hfr', htr'⟩ := ih vals (pre ++ [val]) (done ++ [y])
        mid hi { st1 with heap := st1.heap.SetValue results done.length y } hch'
        (by simp [hpre]) hset
        (fun a h1 h2 => by
          show st1.already_converted.GetConverted a = .nullptr
          rw [htr a (Or.inr h1)]
          exact hclean a (by omega) h2)
      simp only [SetValue_length] at hchain hfr'
      refine ⟨st', y :: ys, ?_, by simpa using hcell', ⟨st1.heap.length, ?_, hchain⟩, ?_, ?_⟩
      · simp only [List.length_cons, List.range'_succ, ConvertArrayFromV8.loop,
          V8Array_Get_append, hc]
        simpa [hpre] using hloop
      · apply Mirror_congr heap st1.heap st'.heap depth _ _ _ _ hmir
        intro a h1 h2
        have hne : a ≠ results := by omega
        rw [hfr' a h2 hne]
        exact SetValue_getElem?_of_ne _ _ _ _ _ hne
      · intro a ha hne
        rw [hfr' a (by omega) hne]
        show (st1.heap.SetValue results done.length y)[a]? = _
        rw [SetValue_getElem?_of_ne _ _ _ _ _ hne, hfr a ha]
      · intro a ha
        rw [htr' a (by omega)]
        show st1.already_converted.GetConverted a = _
        exact htr a (by omega)

theorem ConvertObjectFromV8_loop_mirror (env : HostEnvironment) (heap : ClrHeap) (v8 : V8Heap)
    (depth : Nat) (convert : Converter) (hconv : Converter.Mirrors heap v8 depth convert)
    (results : Nat) :
    ∀ (entries : List (ClrObject × ClrObject)) (vals : List V8Value) (done : List V8Property)
      (doneEntries : List (ClrObject × ClrObject)) (lo hi : Nat) (st : FromV8State),
      Chain (Image heap v8 depth) (entries.map (fun e => e.2)) vals lo hi →
      (∀ e ∈ entries, ∀ k s, convert (.String k) s = some (.String (cstr k), s)) →
      (∀ e ∈ entries, ∃ k, e.1 = .String k ∧ cstr k = k) →
      (entries.map (fun e => e.1)).Nodup →
      (∀ e ∈ entries, ∀ p ∈ done, p.name ≠ KeyString e.1) →
      (∀ e ∈ entries, ∀ e' ∈ doneEntries, e'.1 ≠ e.1) →
      st.heap[results]? = some (.Dictionary .DictionaryOfStringObject doneEntries) →
      (∀ a, lo ≤ a → a < hi → st.already_converted.GetConverted a = .nullptr) →
      ∃ st' ys,
        ConvertObjectFromV8.loop env convert
          (done ++ List.zipWith
            (fun e v => { name := KeyString e.1, value := v, enumerable := true }) entries vals)
          results (entries.map (fun e => KeyString e.1)) st = some st' ∧
        st'.heap[results]? = some (.Dictionary .DictionaryOfStringObject
          (doneEntries ++ List.zipWith (fun e y => (e.1, y)) entries ys)) ∧
        Chain (Mirror heap st'.heap depth) (entries.map (fun e => e.2)) ys
          st.heap.length st'.heap.length ∧
        (∀ a, a < st.heap.length → a ≠ results → st'.heap[a]? = st.heap[a]?) ∧
        (∀ a, (a < lo ∨ hi ≤ a) →
          st'.already_converted.GetConverted a = st.already_converted.GetConverted a) := by
  intro entries
  induction entries with
  | nil =>
    intro vals done doneEntries lo hi st hch _ _ _ _ _ hcell _
    cases vals with
    | cons v vs => exact absurd hch (by simp [Chain])
    | nil =>
      refine ⟨st, [], by simp [ConvertObjectFromV8.loop], by simpa using hcell, rfl,
        fun _ _ _ => rfl, fun _ _ => rfl⟩
  | cons e rest ih =>
    intro vals done doneEntries lo hi st hch hkey hstr hnodup hfresh hfreshE hcell hclean
    obtain ⟨keyValue, item⟩ := e
    cases vals with
    | nil => exact absurd hch (by simp [Chain])
    | cons val vals =>
      obtain ⟨mid, him, hch'⟩ := hch
      have hlm := Image_le heap v8 depth _ _ _ _ him
      have hmh := Chain_le _ (Image_le heap v8 depth) _ _ _ _ hch'
      have hres : results < st.heap.length := by
        by_contra hn
        rw [List.getElem?_eq_none (by omega)] at hcell
        exact Option.noConfusion hcell
      obtain ⟨k, hk, hck⟩ := hstr (keyValue, item) (List.mem_cons_self _ _)
      simp only at hk
      subst hk
      have hkc := hkey _ (List.mem_cons_self _ _) k st
      obtain ⟨y, st1, hc, hmir, hfr, htr⟩ := hconv item val lo mid st him
        (fun a h1 h2 => hclean a h1 (by omega))
      have hl1 := Mirror_le heap st1.heap depth _ _ _ _ hmir
      have hcell1 : st1.heap[results]?
          = some (.Dictionary .DictionaryOfStringObject doneEntries) := by
        rw [hfr results hres]; exact hcell
      have hset := SetItem_append st1.heap results .DictionaryOfStringObject doneEntries
        (.String k) y hcell1 (fun e' he' => hfreshE _ (List.mem_cons_self _ _) e' he')
      simp only [List.map_cons, List.nodup_cons] at hnodup
      have hnew : ∀ e ∈ rest, e.1 ≠ ClrObject.String k := by
        intro e he heq
        apply hnodup.1
        rw [List.mem_map]
        exact ⟨e, he, heq⟩
      obtain ⟨st', ys, hloop, hcell', hchain, hfr', htr'⟩ := ih vals
        (done ++ [{ name := k, value := val, enumerable := true }])
        (doneEntries ++ [(.String k, y)]) mid hi
        { st1 with heap := st1.heap.SetItem results (.String k) y } hch'
        (fun e he => hkey e (List.mem_cons_of_mem _ he))
        (fun e he => hstr e (List.mem_cons_of_mem _ he))
        hnodup.2
        (by
          intro e he p hp
          rcases List.mem_append.mp hp with hp | hp
          · exact hfresh e (List.mem_cons_of_mem _ he) p hp
          · simp only [List.mem_singleton] at hp
            subst hp
            simp only
            obtain ⟨k', hk', _⟩ := hstr e (List.mem_cons_of_mem _ he)
            intro heq
            apply hnew e he
            rw [hk'] at heq ⊢
            simp only [KeyString] at heq
            rw [heq])
        (by
          intro e he e' he'
          rcases List.mem_append.mp he' with he' | he'
          · exact hfreshE e (List.mem_cons_of_mem _ he) e' he'
          · simp only [List.mem_singleton] at he'
            subst he'
            exact fun heq => hnew e he heq.symm)
        hset
        (fun a h1 h2 => by
          show st1.already_converted.GetConverted a = .nullptr
          rw [htr a (Or.inr h1)]
          exact hclean a (by omega) h2)
      simp only [SetItem_length] at hchain hfr'
      refine ⟨st', y :: ys, ?_, by simpa using hcell', ⟨st1.heap.length, ?_, hchain⟩, ?_, ?_⟩
      · have hget : V8Properties.Get
            (done ++ { name := k, value := val, enumerable := true } ::
              List.zipWith (fun e v => { name := KeyString e.1, value := v, enumerable := true })
                rest vals) k = val :=
          V8Properties_Get_append done _ k val
            (fun p hp => hfresh _ (List.mem_cons_self _ _) p hp)
        have hks : KeyString (ClrObject.String k) = k := rfl
        simp only [List.map_cons, List.zipWith_cons_cons, hks, ConvertObjectFromV8.loop,
          hkc, hck, ObjectToString, hget, hc]
        simpa using hloop
      · apply Mirror_congr heap st1.heap st'.heap depth _ _ _ _ hmir
        intro a h1 h2
        have hne : a ≠ results := by omega
        rw [hfr' a h2 hne]
        exact SetItem_getElem?_of_ne _ _ _ _ _ hne
      · intro a ha hne
        rw [hfr' a (by omega) hne]
        show (st1.heap.SetItem results (.String k) y)[a]? = _
        rw [SetItem_getElem?_of_ne _ _ _ _ _ hne, hfr a ha]
      · intro a ha
        rw [htr' a (by omega)]
        show st1.already_converted.GetConverted a = _
        exact htr a (by omega)

theorem ConvertFromV8With_mirrors (env : HostEnvironment) (heap : ClrHeap) (v8 : V8Heap) :
    ∀ (depth fuel : Nat), depth ≤ fuel →
      Converter.Mirrors heap v8 depth (ConvertFromV8With env v8 fuel) := by
  intro depth
  induction depth with
  | zero => intro fuel _ x value lo hi st h; simp [Image] at h
  | succ d ih =>
    intro fuel hfuel x value lo hi st him hclean
    obtain ⟨f, rfl⟩ : ∃ f, fuel = f + 1 := ⟨fuel - 1, by omega⟩
    have hdf : d ≤ f := by omega
    have hconv := ih f hdf
    cases x <;> simp only [Image] at him
    case nullptr =>
      obtain ⟨rfl, rfl⟩ := him
      exact ⟨.nullptr, st, rfl, by simp [Mirror], fun _ _ => rfl, fun _ _ => rfl⟩
    case Boolean b =>
      obtain ⟨rfl, rfl⟩ := him
      exact ⟨.Boolean b, st, rfl, by simp [Mirror], fun _ _ => rfl, fun _ _ => rfl⟩
    case Int32 i =>
      obtain ⟨rfl, rfl⟩ := him
      refine ⟨.Int32 i, st, ?_, by simp [Mirror], fun _ _ => rfl, fun _ _ => rfl⟩
      simp only [Integer.New, ConvertFromV8With, toInt32?_ofInt]
    case String s =>
      obtain ⟨rfl, hs, rfl⟩ := him
      refine ⟨.String s, st, ?_, by simp [Mirror], fun _ _ => rfl, fun _ _ => rfl⟩
      simp only [ConvertFromV8With, hs]
    case ref a =>
      obtain ⟨rfl, hcases⟩ := him
      rcases hcases with ⟨t, items, vals, hcell, hv8, hch⟩ | ⟨entries, vals, hkeyed, hck, hv8, hch⟩
      · have hle := Chain_le _ (Image_le heap v8 d) _ _ _ _ hch
        obtain ⟨st', ys, hloop, hcell', hchain, hfr, htr⟩ :=
          ConvertArrayFromV8_loop_mirror heap v8 d _ hconv st.heap.length items vals [] []
            (lo + 1) hi
            { st with heap := st.heap ++
                [.Array .ObjectArray (List.replicate vals.length .nullptr)] }
            hch rfl (by simp) (fun a h1 h2 => hclean a (by omega) h2)
        simp only [List.length_append, List.length_singleton] at hchain hfr
        refine ⟨.ref st.heap.length, st', ?_, ?_, ?_, ?_⟩
        · simp only [ConvertFromV8With, hv8, ConvertArrayFromV8, ClrHeap.alloc, List.length_map]
          have hr : List.range vals.length = List.range' 0 vals.length :=
            List.range_eq_range' vals.length
          rw [hr]
          simp only [List.nil_append, List.length_nil] at hloop
          rw [hloop]
        · simp only [Mirror]
          exact ⟨trivial, Or.inl ⟨t, items, ys, hcell, by simpa using hcell', hchain⟩⟩
        · intro b hb
          rw [hfr b (by omega) (by omega)]
          exact List.getElem?_append_left hb
        · intro b hb
          exact htr b (by omega)
      · have hle := Chain_le _ (Image_le heap v8 d) _ _ _ _ hch
        have hlen := Chain_length _ _ _ _ _ hch
        simp only [List.length_map] at hlen
        obtain ⟨hstr0, hnodup⟩ := CleanKeys_spec entries hck
        have hstr' : ∀ e ∈ entries, ∃ k, e.1 = .String k ∧ cstr k = k := by
          intro e he
          obtain ⟨k, hk, hc, _⟩ := hstr0 e he
          exact ⟨k, hk, hc⟩
        have hkey : ∀ e ∈ entries, ∀ k s,
            ConvertFromV8With env v8 f (.String k) s = some (.String (cstr k), s) := by
          intro e he k s
          cases hf : f with
          | succ f' => rfl
          | zero =>
            exfalso
            have hd0 : d = 0 := by omega
            subst hd0
            cases entries with
            | nil => simp at he
            | cons e0 es =>
              cases vals with
              | nil => simp at hlen
              | cons v vs =>
                obtain ⟨mid, h0, _⟩ := hch
                simp [Image] at h0
        have hnull : st.already_converted.GetConverted lo = .nullptr :=
          hclean lo (Nat.le_refl _) (by omega)
        obtain ⟨st', ys, hloop, hcell', hchain, hfr, htr⟩ :=
          ConvertObjectFromV8_loop_mirror env heap v8 d _ hconv st.heap.length entries vals [] []
            (lo + 1) hi
            { heap := st.heap ++ [.Dictionary .DictionaryOfStringObject []]
              already_converted := st.already_converted.AddConverted lo (.ref st.heap.length) }
            hch hkey hstr' hnodup (fun _ _ p hp => by simp at hp)
            (fun _ _ e' he' => by simp at he') (by simp)
            (fun a h1 h2 => by
              show (st.already_converted.AddConverted lo _).GetConverted a = .nullptr
              rw [GetConverted_AddConverted_of_ne _ _ _ _ (by omega)]
              exact hclean a (by omega) h2)
        simp only [List.length_append, List.length_singleton] at hchain hfr
        refine ⟨.ref st.heap.length, st', ?_, ?_, ?_, ?_⟩
        · simp only [ConvertFromV8With, hv8, Option.isSome_none, Bool.false_eq_true, if_false,
            ConvertObjectFromV8, hnull, if_true, ClrHeap.alloc,
            GetPropertyNames_zipWith entries vals hlen]
          simp only [List.nil_append] at hloop
          rw [hloop]
        · simp only [Mirror]
          exact ⟨trivial, Or.inr ⟨entries, ys, hkeyed, hck, by simpa using hcell', hchain⟩⟩
        · intro b hb
          rw [hfr b (by omega) (by omega)]
          exact List.getElem?_append_left hb
        · intro b hb
          rw [htr b (by omega)]
          show (st.already_converted.AddConverted lo _).GetConverted b = _
          exact GetConverted_AddConverted_of_ne _ _ _ _ (by omega)

theorem DictionaryGet_zipWith (R : ClrObject → ClrObject → Nat → Nat → Prop) :
    ∀ (entries : List (ClrObject × ClrObject)) (ys : List ClrObject) (lo hi : Nat),
      Chain R (entries.map (fun e => e.2)) ys lo hi →
      (entries.map (fun e => e.1)).Nodup →
      ∀ e ∈ entries, ∃ y l h,
        DictionaryGet (List.zipWith (fun e y => (e.1, y)) entries ys) e.1 = some y ∧
        R e.2 y l h := by
  intro entries
  induction entries with
  | nil => intro ys lo hi _ _ e he; simp at he
  | cons e0 rest ih =>
    intro ys lo hi hch hnodup e he
    cases ys with
    | nil => exact absurd hch (by simp [Chain])
    | cons y0 ys =>
      obtain ⟨mid, h0, hch'⟩ := hch
      simp only [List.map_cons, List.nodup_cons] at hnodup
      rcases List.mem_cons.mp he with rfl | he'
      · exact ⟨y0, lo, mid, by simp [DictionaryGet], h0⟩
      · obtain ⟨y, l, h, hget, hr⟩ := ih ys mid hi hch' hnodup.2 e he'
        have hne : e0.1 ≠ e.1 := by
          intro heq
          apply hnodup.1
          rw [List.mem_map]
          exact ⟨e, he', heq.symm⟩
        refine ⟨y, l, h, ?_, hr⟩
        simp only [DictionaryGet, List.zipWith_cons_cons, List.find?_cons, hne, decide_False]
          at hget ⊢
        exact hget

theorem DictionaryGet_isSome (entries : List (ClrObject × ClrObject))
    (e : ClrObject × ClrObject) (he : e ∈ entries) :
    (DictionaryGet entries e.1).isSome = true := by
  unfold DictionaryGet
  rw [Option.isSome_map', List.find?_isSome]
  exact ⟨e, he, by simp⟩

theorem mem_zipWith_key :
    ∀ (entries : List (ClrObject × ClrObject)) (ys : List ClrObject)
      (e' : ClrObject × ClrObject),
      e' ∈ List.zipWith (fun e y => (e.1, y)) entries ys → ∃ e ∈ entries, e.1 = e'.1 := by
  intro entries
  induction entries with
  | nil => intro ys e' h; simp at h
  | cons e0 rest ih =>
    intro ys e' h
    cases ys with
    | nil => simp at h
    | cons y0 ys =>
      simp only [List.zipWith_cons_cons, List.mem_cons] at h
      rcases h with rfl | h
      · exact ⟨e0, List.mem_cons_self _ _, rfl⟩
      · obtain ⟨e, he, hk⟩ := ih ys e' h
        exact ⟨e, List.mem_cons_of_mem _ he, hk⟩

theorem Mirror_sameData (heap heap' : ClrHeap) :
    ∀ (depth : Nat) (x y : ClrObject) (lo hi : Nat),
      Mirror heap heap' depth x y lo hi → SameData heap heap' depth x y = true := by
  intro depth
  induction depth with
  | zero => intro x y lo hi h; simp [Mirror] at h
  | succ d ih =>
    intro x y lo hi h
    cases x <;> simp only [Mirror] at h
    case nullptr => simp [SameData, h.1]
    case Boolean b => simp [SameData, h.1]
    case Int32 i => simp [SameData, h.1]
    case String s => simp [SameData, h.1]
    case ref a =>
      obtain ⟨rfl, hcases⟩ := h
      rcases hcases with ⟨t, items, ys, hcell, hcell', hch⟩ | ⟨entries, ys, hkeyed, hck, hcell', hch⟩
      · have hlen := Chain_length _ _ _ _ _ hch
        have hall := Chain_forall2 _ _ _ _ _ hch
        simp only [SameData, hcell, hcell', Bool.and_eq_true, decide_eq_true_eq,
          List.all_eq_true]
        refine ⟨hlen, ?_⟩
        rintro ⟨p1, p2⟩ hp
        obtain ⟨l, h, hm⟩ := List.forall₂_zip hall hp
        exact ih p1 p2 l h hm
      · have hnodup : (entries.map (fun e => e.1)).Nodup := (CleanKeys_spec entries hck).2
        simp only [SameData, hcell', hkeyed, Bool.and_eq_true, List.all_eq_true]
        constructor
        · intro e he
          obtain ⟨y, l, h, hget, hm⟩ := DictionaryGet_zipWith _ entries ys _ _ hch hnodup e he
          simp only [hget]
          exact ih e.2 y l h hm
        · intro e' he'
          obtain ⟨e, he, hk⟩ := mem_zipWith_key entries ys e' he'
          rw [← hk]
          exact DictionaryGet_isSome entries e he

/-- C13 (amended). Container round trip. Let `x` be plain data of the host heap: null, a
boolean, a 32-bit integer, a string, an array (of one dimension, as all arrays here) or a
keyed container with string keys (a generic dictionary, or an `IDictionary` class without
declared instance fields), nested to a finite depth, in which no string and no key contains
U+0000, no key is `__proto__`, and the keys of one container are different. Then for any
fuel of at least that depth `ConvertFromV8(ConvertToV8(x))` returns a host object that is
structurally equal to `x` (an array for an array, of the same length and with equal elements
at the same indices; a dictionary for a keyed container, with the same key set and equal
values per key), and every cell of the host heap is as it was. -/
theorem RoundTrip_containers (env : HostEnvironment) (context : Option JavascriptContext)
    (heap : ClrHeap) (v8 : V8Heap) (depth : Nat) (x : ClrObject)
    (hx : PlainData heap depth x = true) (fuel : Nat) (hfuel : depth ≤ fuel) :
    ∃ y heap', RoundTrip env context fuel x heap v8 = some (y, heap') ∧
      SameData heap heap' depth x y = true ∧
      ∀ a, a < heap.length → heap'[a]? = heap[a]? := by
  obtain ⟨value, v8a, hto, him⟩ := ConvertToV8_image env context heap depth x hx fuel hfuel v8
  obtain ⟨y, st', hfrom, hmir, hfr, _⟩ := ConvertFromV8With_mirrors env heap v8a depth fuel hfuel
    x value v8.length v8a.length { heap := heap, already_converted := ConvertedObjects.new } him
    (fun _ _ _ => rfl)
  refine ⟨y, st'.heap, ?_, Mirror_sameData heap st'.heap depth x y _ _ hmir, hfr⟩
  simp only [RoundTrip, hto, ConvertFromV8, hfrom]

/-- The array `["a", 5, {"k": null}]` comes back structurally equal. -/
theorem RoundTrip_containers_witness :
    ∃ y heap', RoundTrip HostEnvironment.sample none 3 (.ref 0) ClrHeap.sampleContainers []
        = some (y, heap') ∧
      SameData ClrHeap.sampleContainers heap' 3 (.ref 0) y = true := by
  obtain ⟨y, heap', h1, h2, _⟩ := RoundTrip_containers HostEnvironment.sample none
    ClrHeap.sampleContainers [] 3 (.ref 0) (by decide) 3 (by decide)
  exact ⟨y, heap', h1, h2⟩

/-- C13, counterexample. The array holding the one string "a", U+0000, "b" comes back as an
array holding the string "a": the element at index 0 is not equal to the one sent. And the
dictionary with the one key `__proto__` (value 5) comes back as a dictionary without
keys. -/
theorem RoundTrip_array_string_with_NUL :
    RoundTrip HostEnvironment.sample none 3 (.ref 0) ClrHeap.sampleArrayNUL []
      = some (.ref 1, ClrHeap.sampleArrayNUL ++ [.Array .ObjectArray [.String [97]]]) ∧
    ClrHeap.sampleArrayNUL[0]? = some (.Array .ObjectArray [.String [97, 0, 98]]) ∧
    SameData ClrHeap.sampleArrayNUL
      (ClrHeap.sampleArrayNUL ++ [.Array .ObjectArray [.String [97]]]) 3 (.ref 0) (.ref 1)
      = false ∧
    (∀ depth, SameData ClrHeap.sampleArrayNUL
      (ClrHeap.sampleArrayNUL ++ [.Array .ObjectArray [.String [97]]]) depth (.ref 0) (.ref 1)
      = false) ∧
    RoundTrip HostEnvironment.sample none 3 (.ref 0) ClrHeap.sampleProtoKey []
      = some (.ref 1, ClrHeap.sampleProtoKey ++ [.Dictionary .DictionaryOfStringObject []]) ∧
    ∀ depth, SameData ClrHeap.sampleProtoKey
      (ClrHeap.sampleProtoKey ++ [.Dictionary .DictionaryOfStringObject []]) depth
      (.ref 0) (.ref 1) = false := by
  refine ⟨rfl, rfl, by decide, ?_, rfl, ?_⟩
  · intro depth
    match depth with
    | 0 => rfl
    | 1 => rfl
    | d + 2 => simp [SameData, ClrHeap.sampleArrayNUL]
  · intro depth
    match depth with
    | 0 => rfl
    | d + 1 =>
      simp [SameData, ClrHeap.sampleProtoKey, KeyedEntries, DictionaryGet]

end JavascriptInterop
